import Mathlib

/-!
# Dialect-aware SQL rewriting (`internal/store/db.go`, `internal/app/app.go`)

A shallow embedding of the rewrite engine and of the handles `DB` and `Tx` of the
`store` package, of the choice of the database in `app.New`, and of the
standard-library routines they call.  A Go `string` is a sequence of bytes; it is
modelled as a `List Nat` (one entry per byte, `len(s)` = `List.length`; the
statements below hold for every list, hence for every byte string), and `s[i]` is
`s.getD i 0` (every access below is guarded by `i < len(s)` exactly as in the
source).  Loops over an index are modelled by recursion on a fuel argument
that is initialised with the number of iterations the loop can make at most.
A run-time panic (slice bounds out of range) is the value `none`.
-/

namespace Store

/-! ## Bytes and literals -/

/-- Bytes of an ASCII string literal (every character of the literals used in this
file is below 128, so the character code is the single byte Go stores). -/
def ascii (s : String) : List Nat := s.toList.map Char.toNat

/-- Byte of the single quote character. -/
def sq : Nat := 39

/-- Byte of the double quote character. -/
def dq : Nat := 34

/-- Byte of the question mark. -/
def qm : Nat := 63

/-- Byte of the dollar sign. -/
def dollar : Nat := 36

/-! ## Standard library: `unicode/utf8` -/

/-- Constant `utf8.RuneError` (U+FFFD). -/
def RuneError : Nat := 0xFFFD

/-- Constant `utf8.RuneSelf`: bytes below it are single-byte runes. -/
def RuneSelf : Nat := 0x80

/-- Table `first` joined with `acceptRanges` of `unicode/utf8`: for a leading byte
of a multi-byte sequence, the size of the sequence and the accepted range of the
second byte; `none` for the bytes marked `xx` (invalid as a leading byte). -/
def leadInfo (s0 : Nat) : Option (Nat × Nat × Nat) :=
  if 0xC2 ≤ s0 ∧ s0 ≤ 0xDF then some (2, 0x80, 0xBF)
  else if s0 = 0xE0 then some (3, 0xA0, 0xBF)
  else if (0xE1 ≤ s0 ∧ s0 ≤ 0xEC) ∨ s0 = 0xEE ∨ s0 = 0xEF then some (3, 0x80, 0xBF)
  else if s0 = 0xED then some (3, 0x80, 0x9F)
  else if s0 = 0xF0 then some (4, 0x90, 0xBF)
  else if 0xF1 ≤ s0 ∧ s0 ≤ 0xF3 then some (4, 0x80, 0xBF)
  else if s0 = 0xF4 then some (4, 0x80, 0x8F)
  else none

/-- Continuation byte test `locb <= b && b <= hicb`. -/
def isCont (b : Nat) : Bool := decide (0x80 ≤ b) && decide (b ≤ 0xBF)

/-- Function `utf8.DecodeRuneInString`: the first rune of `s` and its width in
bytes; `(RuneError, 1)` for an invalid or truncated encoding, `(RuneError, 0)`
for the empty string.  The statement `for i, c := range s` decodes the same way. -/
def DecodeRuneInString (s : List Nat) : Nat × Nat :=
  match s with
  | [] => (RuneError, 0)
  | s0 :: t =>
    if s0 < RuneSelf then (s0, 1)
    else
      match leadInfo s0 with
      | none => (RuneError, 1)
      | some (sz, lo, hi) =>
        if s.length < sz then (RuneError, 1)
        else
          let s1 := t.getD 0 0
          if s1 < lo ∨ hi < s1 then (RuneError, 1)
          else if sz ≤ 2 then ((s0 % 32) * 64 + s1 % 64, 2)
          else
            let s2 := t.getD 1 0
            if !isCont s2 then (RuneError, 1)
            else if sz ≤ 3 then ((s0 % 16) * 4096 + (s1 % 64) * 64 + s2 % 64, 3)
            else
              let s3 := t.getD 2 0
              if !isCont s3 then (RuneError, 1)
              else ((s0 % 8) * 262144 + (s1 % 64) * 4096 + (s2 % 64) * 64 + s3 % 64, 4)

/-- Function `utf8.AppendRune` (what `Builder.WriteRune` appends): the UTF-8
encoding of `r`; runes out of range and surrogates are encoded as `RuneError`. -/
def AppendRune (r : Nat) : List Nat :=
  if r < RuneSelf then [r]
  else if r ≤ 0x7FF then [0xC0 + r / 64, 0x80 + r % 64]
  else if 0x10FFFF < r ∨ (0xD800 ≤ r ∧ r ≤ 0xDFFF) then [0xEF, 0xBF, 0xBD]
  else if r ≤ 0xFFFF then [0xE0 + r / 4096, 0x80 + (r / 64) % 64, 0x80 + r % 64]
  else [0xF0 + r / 262144, 0x80 + (r / 4096) % 64, 0x80 + (r / 64) % 64, 0x80 + r % 64]

/-! ## Standard library: `unicode` and `strings` -/

/-- Function `unicode.ToUpper`.  The ASCII branch is the source's; the branch
`To(UpperCase, r)` for `r > MaxASCII` reads the Unicode case tables, which are
data outside this development and are taken as the parameter `upperCase`. -/
def unicodeToUpper (upperCase : Nat → Nat) (r : Nat) : Nat :=
  if r ≤ 0x7F then
    if 97 ≤ r ∧ r ≤ 122 then r - 32 else r
  else upperCase r

/-- Second loop of `strings.Map`: every remaining rune is mapped and re-encoded
(`mapping` never returns a negative rune here, so nothing is dropped). -/
def mapRest (mapping : Nat → Nat) : Nat → List Nat → List Nat
  | 0, _ => []
  | _ + 1, [] => []
  | fuel + 1, c0 :: t =>
    let d := DecodeRuneInString (c0 :: t)
    AppendRune (mapping d.1) ++ mapRest mapping fuel ((c0 :: t).drop d.2)

/-- First loop of `strings.Map`: skip the runes the mapping leaves unchanged; at the
first rune that changes (an invalid byte always counts as changed) start the
output buffer with `s[:i]`, the mapped rune, and the mapping of `s[i+width:]`.
`none` when the loop ends without creating the buffer. -/
def mapFirst (mapping : Nat → Nat) (s : List Nat) : Nat → Nat → Option (List Nat)
  | 0, _ => none
  | fuel + 1, i =>
    if i < s.length then
      let d := DecodeRuneInString (s.drop i)
      let c := d.1
      let width := d.2
      let r := mapping c
      if r == c && c != RuneError then mapFirst mapping s fuel (i + width)
      else if c == RuneError && width != 1 && r == c then mapFirst mapping s fuel (i + width)
      else some (s.take i ++ AppendRune r ++ mapRest mapping s.length (s.drop (i + width)))
    else none

/-- Function `strings.Map` (for a mapping without negative results). -/
def Map (mapping : Nat → Nat) (s : List Nat) : List Nat :=
  match mapFirst mapping s s.length 0 with
  | none => s
  | some b => b

/-- ASCII upper-casing of one byte (`c -= 'a' - 'A'` for a lower-case letter). -/
def upperByte (c : Nat) : Nat := if 97 ≤ c ∧ c ≤ 122 then c - 32 else c

/-- Function `strings.ToUpper`: the ASCII fast path when every byte is below
`RuneSelf`, otherwise `Map(unicode.ToUpper, s)`. -/
def ToUpper (upperCase : Nat → Nat) (s : List Nat) : List Nat :=
  if s.all (fun c => decide (c < RuneSelf)) then
    if s.any (fun c => decide (97 ≤ c) && decide (c ≤ 122)) then s.map upperByte else s
  else Map (unicodeToUpper upperCase) s

/-- Search of `strings.Index` from offset `i`: the offset of the first suffix of
the text that starts with `substr`. -/
def indexFrom (substr : List Nat) : List Nat → Nat → Option Nat
  | [], i => if substr.isEmpty then some i else none
  | c :: t, i => if substr.isPrefixOf (c :: t) then some i else indexFrom substr t (i + 1)

/-- Function `strings.Index`: index of the first instance of `substr` in `s`;
`none` stands for the result `-1`. -/
def Index (s substr : List Nat) : Option Nat := indexFrom substr s 0

/-- Function `strings.TrimRight` for a cutset of ASCII bytes: all trailing bytes
contained in the cutset are removed. -/
def TrimRight (s cutset : List Nat) : List Nat := s.rdropWhile (fun c => cutset.contains c)

/-- Function `strings.EqualFold` on its ASCII path: bytes are compared pairwise,
equal or differing only by letter case; the strings must have the same length.
The Unicode path (`goto hasUnicode`, entered at a byte `>= RuneSelf`) is not
modelled, the result there is `false`: `rewriteUserIdentifier` calls `EqualFold`
only with a run of identifier bytes and `"user"`. -/
def EqualFold : List Nat → List Nat → Bool
  | [], [] => true
  | sr :: s, tr :: t =>
    if RuneSelf ≤ sr ∨ RuneSelf ≤ tr then false
    else if tr = sr then EqualFold s t
    else if 65 ≤ min sr tr ∧ min sr tr ≤ 90 ∧ max sr tr = min sr tr + 32 then EqualFold s t
    else false
  | _, _ => false

/-- Digits written by the verb `%d` for a non-negative integer: the last digit is
`u - (u/10)*10`, the digits before it are those of `u/10`. -/
def fmtDigits : Nat → Nat → List Nat
  | 0, _ => []
  | fuel + 1, u => if u < 10 then [48 + u] else fmtDigits fuel (u / 10) ++ [48 + u % 10]

/-- Result of `fmt.Sprintf("$%d", n)` for `n >= 0`. -/
def sprintfDollarD (n : Nat) : List Nat := dollar :: fmtDigits (n + 1) n

/-! ## `db.go`: dialects -/

/-- Type `Dialect` (`type Dialect int`). -/
abbrev Dialect := Int

/-- Constant `DialectSQLite` (`iota` = 0). -/
def DialectSQLite : Dialect := 0

/-- Constant `DialectPostgres` (= 1). -/
def DialectPostgres : Dialect := 1

/-! ## `db.go`: pass 1, `rewriteUserIdentifier` -/

/-- Function `isIdentifierChar`. -/
def isIdentifierChar (ch : Nat) : Bool :=
  if 97 ≤ ch ∧ ch ≤ 122 then true
  else if 65 ≤ ch ∧ ch ≤ 90 then true
  else if 48 ≤ ch ∧ ch ≤ 57 then true
  else ch == 95

/-- Inner loop of `rewriteUserIdentifier`:
`for j < len(query) && isIdentifierChar(query[j]) { j++ }`; returns the final `j`. -/
def scanIdentifier (query : List Nat) : Nat → Nat → Nat
  | 0, j => j
  | fuel + 1, j =>
    if j < query.length && isIdentifierChar (query.getD j 0) then
      scanIdentifier query fuel (j + 1)
    else j

/-- Main loop of `rewriteUserIdentifier` with the loop variables `i`, `inSingle`,
`inDouble` and the builder contents `buf`; the result is the state at loop exit:
the builder contents and the two flags. -/
def rewriteUserIdentifierLoop (query : List Nat) :
    Nat → Nat → Bool → Bool → List Nat → List Nat × Bool × Bool
  | 0, _, inSingle, inDouble, buf => (buf, inSingle, inDouble)
  | fuel + 1, i, inSingle, inDouble, buf =>
    if i < query.length then
      let ch := query.getD i 0
      if ch == sq && !inDouble then
        if inSingle && decide (i + 1 < query.length) && query.getD (i + 1) 0 == sq then
          rewriteUserIdentifierLoop query fuel (i + 2) inSingle inDouble
            (buf ++ [ch, query.getD (i + 1) 0])
        else
          rewriteUserIdentifierLoop query fuel (i + 1) (!inSingle) inDouble (buf ++ [ch])
      else if ch == dq && !inSingle then
        rewriteUserIdentifierLoop query fuel (i + 1) inSingle (!inDouble) (buf ++ [ch])
      else if inSingle || inDouble then
        rewriteUserIdentifierLoop query fuel (i + 1) inSingle inDouble (buf ++ [ch])
      else if isIdentifierChar ch then
        let j := scanIdentifier query query.length (i + 1)
        let tok := (query.take j).drop i
        if EqualFold tok (ascii "user") then
          rewriteUserIdentifierLoop query fuel j inSingle inDouble (buf ++ ascii "\"user\"")
        else
          rewriteUserIdentifierLoop query fuel j inSingle inDouble (buf ++ tok)
      else
        rewriteUserIdentifierLoop query fuel (i + 1) inSingle inDouble (buf ++ [ch])
    else (buf, inSingle, inDouble)

/-- Function `rewriteUserIdentifier` (`return buf.String()`). -/
def rewriteUserIdentifier (query : List Nat) : List Nat :=
  (rewriteUserIdentifierLoop query query.length 0 false false []).1

/-! ## `db.go`: pass 2, `rewriteInsertOrIgnore` -/

/-- The cutset `"; \t\n"` of the calls to `strings.TrimRight`. -/
def trimCutset : List Nat := [59, 32, 9, 10]

/-- Function `rewriteInsertOrIgnore`.  The slice expressions `query[:idx]` and
`query[idx+len("INSERT OR IGNORE INTO"):]` panic when their bound exceeds
`len(query)`; the panic is the result `none`.  (The local variable `pre` is the
source's variable holding `query[:idx]`.) -/
def rewriteInsertOrIgnore (upperCase : Nat → Nat) (query : List Nat) : Option (List Nat) :=
  let upper := ToUpper upperCase query
  match Index upper (ascii "INSERT OR IGNORE INTO") with
  | none => some query
  | some idx =>
    if idx + (ascii "INSERT OR IGNORE INTO").length ≤ query.length then
      let pre := query.take idx
      let suffix := query.drop (idx + (ascii "INSERT OR IGNORE INTO").length)
      let result := pre ++ ascii "INSERT INTO" ++ suffix
      let trimmed := TrimRight result trimCutset
      some (trimmed ++ ascii " ON CONFLICT DO NOTHING")
    else none

/-! ## `db.go`: pass 3, `rewritePlaceholders` -/

/-- Loop of `rewritePlaceholders` with the loop variables `i`, `n`, `inString` and
the builder contents `buf`; the result is the state at loop exit: the builder
contents, the counter and the flag.  (`n` is a Go `int`; it never exceeds
`len(query) + 1`, so it cannot overflow.) -/
def rewritePlaceholdersLoop (query : List Nat) :
    Nat → Nat → Nat → Bool → List Nat → List Nat × Nat × Bool
  | 0, _, n, inString, buf => (buf, n, inString)
  | fuel + 1, i, n, inString, buf =>
    if i < query.length then
      let ch := query.getD i 0
      if ch == sq then
        if inString && decide (i + 1 < query.length) && query.getD (i + 1) 0 == sq then
          rewritePlaceholdersLoop query fuel (i + 2) n inString
            (buf ++ [ch, query.getD (i + 1) 0])
        else
          rewritePlaceholdersLoop query fuel (i + 1) n (!inString) (buf ++ [ch])
      else if ch == qm && !inString then
        rewritePlaceholdersLoop query fuel (i + 1) (n + 1) inString (buf ++ sprintfDollarD n)
      else
        rewritePlaceholdersLoop query fuel (i + 1) n inString (buf ++ [ch])
    else (buf, n, inString)

/-- Function `rewritePlaceholders` (`return buf.String()`). -/
def rewritePlaceholders (query : List Nat) : List Nat :=
  (rewritePlaceholdersLoop query query.length 0 1 false []).1

/-! ## `db.go`: `rewriteQuery` -/

/-- Function `rewriteQuery`. -/
def rewriteQuery (upperCase : Nat → Nat) (dialect : Dialect) (query : List Nat) :
    Option (List Nat) :=
  if dialect ≠ DialectPostgres then some query
  else
    match rewriteInsertOrIgnore upperCase (rewriteUserIdentifier query) with
    | none => none
    | some q => some (rewritePlaceholders q)

/-! ## Definitions used to state the properties -/

/-- A case table without entries: every rune above `MaxASCII` is its own upper
case.  It is used for the concrete evaluations below; on ASCII input the table is
not consulted at all, and on the byte `0xFF` only its value at U+FFFD (a rune
without case) is read. -/
def caselessTable : Nat → Nat := fun r => r

/-- ASCII lower-casing of one byte. -/
def lowerByte (c : Nat) : Nat := if 65 ≤ c ∧ c ≤ 90 then c + 32 else c

/-- Case-insensitive equality of two byte strings (ASCII letters only). -/
def equalsIgnoreCase (a b : List Nat) : Bool := a.map lowerByte == b.map lowerByte

/-- Decimal numeral of `n`: its base-10 digits, most significant first, written
as ASCII digits. -/
def decimalNumeral (n : Nat) : List Nat := (Nat.digits 10 n).reverse.map (fun d => 48 + d)

/-- Reference scanner for placeholder renumbering, started with counter `n` and
literal flag `inLit`: a doubled single quote inside a literal is an escape and is
copied; any other single quote is copied and toggles the flag; a question mark
outside a literal becomes the dollar sign followed by the numeral of the counter,
which then advances; every other byte is copied. -/
def rewritePlaceholdersRefFrom : Nat → Bool → List Nat → List Nat
  | _, _, [] => []
  | n, inLit, [c] => if c = qm ∧ inLit = false then dollar :: decimalNumeral n else [c]
  | n, inLit, c :: c2 :: rest =>
    if inLit = true ∧ c = sq ∧ c2 = sq then
      sq :: sq :: rewritePlaceholdersRefFrom n true rest
    else if c = sq then
      sq :: rewritePlaceholdersRefFrom n (!inLit) (c2 :: rest)
    else if c = qm ∧ inLit = false then
      (dollar :: decimalNumeral n) ++ rewritePlaceholdersRefFrom (n + 1) false (c2 :: rest)
    else c :: rewritePlaceholdersRefFrom n inLit (c2 :: rest)

/-- Reference definition of placeholder renumbering: the reference scanner started
outside a literal with counter 1. -/
def rewritePlaceholdersRef (q : List Nat) : List Nat := rewritePlaceholdersRefFrom 1 false q

/-- Body of a well-formed literal delimited by `quote`: the delimiter occurs in it
only doubled. -/
def literalBody (quote : Nat) : List Nat → Bool
  | [] => true
  | [c] => c != quote
  | c :: c2 :: rest =>
    if c = quote then c2 == quote && literalBody quote rest
    else literalBody quote (c2 :: rest)

/-- A well-formed literal delimited by `quote`: opening delimiter, body, closing
delimiter. -/
def IsLiteral (quote : Nat) (l : List Nat) : Prop :=
  ∃ body, l = quote :: (body ++ [quote]) ∧ literalBody quote body = true

/-- The flags `(inSingle, inDouble)` of `rewriteUserIdentifier` at loop exit. -/
def userFlagsAtExit (a : List Nat) : Bool × Bool :=
  (rewriteUserIdentifierLoop a a.length 0 false false []).2

/-- The text `a` ends outside any literal for pass 1: both flags are off when the
loop of `rewriteUserIdentifier` has consumed it. -/
def EndsOutsideLiteral (a : List Nat) : Prop := userFlagsAtExit a = (false, false)

instance (a : List Nat) : Decidable (EndsOutsideLiteral a) :=
  inferInstanceAs (Decidable (userFlagsAtExit a = (false, false)))

/-- The counter `n` and the flag `inString` of `rewritePlaceholders` at loop exit. -/
def placeholdersAtExit (a : List Nat) : Nat × Bool :=
  (rewritePlaceholdersLoop a a.length 0 1 false []).2

/-- The loop of `rewritePlaceholders` run on `q` with the counter started at `n`
(the source starts it at 1). -/
def rewritePlaceholdersFrom (n : Nat) (q : List Nat) : List Nat :=
  (rewritePlaceholdersLoop q q.length 0 n false []).1

/-- A non-empty run of identifier bytes. -/
def IsIdentifierRun (t : List Nat) : Prop := t ≠ [] ∧ ∀ c ∈ t, isIdentifierChar c = true

/-- A token of a text without literals: a run of identifier bytes, or one byte
that is not an identifier byte. -/
def IsToken (t : List Nat) : Prop :=
  IsIdentifierRun t ∨ ∃ c, t = [c] ∧ isIdentifierChar c = false

/-- What pass 1 is specified to do with one token: `user` in any letter case
becomes the double-quoted lower-case word, anything else stays. -/
def quoteUserToken (t : List Nat) : List Nat :=
  if equalsIgnoreCase t (ascii "user") = true then ascii "\"user\"" else t

/-- Text before and text after the first case-insensitive occurrence of `phrase`;
`none` when there is no occurrence. -/
def splitAtFirstOccurrence (phrase : List Nat) : List Nat → Option (List Nat × List Nat)
  | [] => if phrase.isEmpty then some ([], []) else none
  | c :: t =>
    if equalsIgnoreCase ((c :: t).take phrase.length) phrase then
      some ([], (c :: t).drop phrase.length)
    else (splitAtFirstOccurrence phrase t).map (fun r => (c :: r.1, r.2))

/-- Removal of all trailing bytes that belong to `strip`. -/
def stripTrailing (strip : List Nat) (s : List Nat) : List Nat :=
  (s.reverse.dropWhile (fun c => strip.contains c)).reverse

/-- Reference definition of the insert-or-ignore translation, for a given set of
bytes stripped at the end: unchanged without an occurrence of the phrase;
otherwise the first occurrence is replaced by `INSERT INTO`, trailing bytes of
`strip` are removed and the conflict clause is appended. -/
def rewriteInsertOrIgnoreRef (strip : List Nat) (q : List Nat) : List Nat :=
  match splitAtFirstOccurrence (ascii "INSERT OR IGNORE INTO") q with
  | none => q
  | some (p, s) =>
    stripTrailing strip (p ++ ascii "INSERT INTO" ++ s) ++ ascii " ON CONFLICT DO NOTHING"

/-- Semicolon and the whitespace bytes space, tab, line feed and carriage return. -/
def semicolonAndWhitespace : List Nat := [59, 32, 9, 10, 13]

/-! ## Suffix form of the loops (used in the proofs) -/

/-- Suffix form of the loop of `rewritePlaceholders`: the output, the counter and
the flag after the text `l`, started with counter `n` and flag `s`.  A single
quote always toggles the flag (a doubled quote inside a literal toggles twice). -/
def placeholderScan : Nat → Bool → List Nat → List Nat × Nat × Bool
  | n, s, [] => ([], n, s)
  | n, s, c :: rest =>
    if c = sq then ((c :: (placeholderScan n (!s) rest).1), (placeholderScan n (!s) rest).2)
    else if c = qm ∧ s = false then
      (sprintfDollarD n ++ (placeholderScan (n + 1) s rest).1, (placeholderScan (n + 1) s rest).2)
    else (c :: (placeholderScan n s rest).1, (placeholderScan n s rest).2)

/-- Flags `(inSingle, inDouble)` after one byte. -/
def quoteStep (st : Bool × Bool) (c : Nat) : Bool × Bool :=
  if c = sq ∧ st.2 = false then (!st.1, st.2)
  else if c = dq ∧ st.1 = false then (st.1, !st.2)
  else st

/-- Flags `(inSingle, inDouble)` after a text. -/
def quoteFlags (st : Bool × Bool) (l : List Nat) : Bool × Bool := l.foldl quoteStep st

/-- Suffix form of the loop of `rewriteUserIdentifier`: the output for the text
`l` started with the flags `s` and `d`. -/
def userScan (s d : Bool) (l : List Nat) : List Nat :=
  match l with
  | [] => []
  | c :: rest =>
    if c = sq ∧ d = false then c :: userScan (!s) d rest
    else if c = dq ∧ s = false then c :: userScan s (!d) rest
    else if s = true ∨ d = true then c :: userScan s d rest
    else if isIdentifierChar c = true then
      (if EqualFold (c :: rest.takeWhile isIdentifierChar) (ascii "user") = true
        then ascii "\"user\"" else c :: rest.takeWhile isIdentifierChar)
        ++ userScan s d (rest.dropWhile isIdentifierChar)
    else c :: userScan s d rest
termination_by l.length
decreasing_by
  all_goals simp_wf
  all_goals first
    | omega
    | exact Nat.lt_succ_of_le (List.dropWhile_suffix _).length_le

/-- No run of identifier bytes continues from the end of `x` into the start of
`y`: the last byte of `x` and the first byte of `y` are not both identifier bytes. -/
def RunBoundary (x y : List Nat) : Prop :=
  ∀ c c2, x.getLast? = some c → y.head? = some c2 →
    ¬ (isIdentifierChar c = true ∧ isIdentifierChar c2 = true)

/-- The single quotes and question marks of a text, in order: the bytes that
decide what pass 3 does. -/
def quoteSkeleton (q : List Nat) : List Nat := q.filter (fun c => c == sq || c == qm)

/-! ## Standard library: `strings.ToLower` and `strings.TrimSpace` -/

/-- Function `unicode.ToLower`.  The ASCII branch is the source's; the branch
`To(LowerCase, r)` for `r > MaxASCII` reads the Unicode case tables and is the
parameter `lowerCase`. -/
def unicodeToLower (lowerCase : Nat → Nat) (r : Nat) : Nat :=
  if r ≤ 0x7F then
    if 65 ≤ r ∧ r ≤ 90 then r + 32 else r
  else lowerCase r

/-- Function `strings.ToLower`: the ASCII fast path (`c += 'a' - 'A'` for an
upper-case letter) when every byte is below `RuneSelf`, otherwise
`Map(unicode.ToLower, s)`. -/
def ToLower (lowerCase : Nat → Nat) (s : List Nat) : List Nat :=
  if s.all (fun c => decide (c < RuneSelf)) then
    if s.any (fun c => decide (65 ≤ c) && decide (c ≤ 90)) then
      s.map (fun c => if 65 ≤ c ∧ c ≤ 90 then c + 32 else c)
    else s
  else Map (unicodeToLower lowerCase) s

/-- Table `asciiSpace` of the package `strings`: tab, line feed, vertical tab,
form feed, carriage return and space. -/
def asciiSpace (c : Nat) : Bool :=
  c == 9 || c == 10 || c == 11 || c == 12 || c == 13 || c == 32

/-- Second loop of `strings.TrimSpace`, on the reversed text `s[start:stop]`: drop
ASCII space bytes from the end; at a byte `>= RuneSelf` the result is
`TrimRightFunc(s[start:stop], unicode.IsSpace)`, the parameter `trimRightFunc`. -/
def trimSpaceStop (trimRightFunc : List Nat → List Nat) : List Nat → List Nat
  | [] => []
  | c :: t =>
    if RuneSelf ≤ c then trimRightFunc (c :: t).reverse
    else if asciiSpace c then trimSpaceStop trimRightFunc t
    else (c :: t).reverse

/-- Function `strings.TrimSpace`, first loop on `s[start:]`: drop ASCII space bytes
from the start; at a byte `>= RuneSelf` the result is
`TrimFunc(s[start:], unicode.IsSpace)`, the parameter `trimFunc`; at another
byte the second loop runs.  The two Unicode-aware fall-backs are parameters. -/
def TrimSpace (trimFunc trimRightFunc : List Nat → List Nat) : List Nat → List Nat
  | [] => []
  | c :: t =>
    if RuneSelf ≤ c then trimFunc (c :: t)
    else if asciiSpace c then TrimSpace trimFunc trimRightFunc t
    else trimSpaceStop trimRightFunc (c :: t).reverse

/-- The Unicode-dependent parts of the package `strings` that `app.New` can reach:
the lower-case table and the two fall-backs of `TrimSpace`. -/
structure UnicodeOps where
  lowerCase : Nat → Nat
  trimFunc : List Nat → List Nat
  trimRightFunc : List Nat → List Nat

/-! ## Standard library: `database/sql` -/

/-- The operations of `database/sql` that the wrapper calls, as functions on the
state `σ` of everything behind the driver.  `H` and `T` are the values of
`*sql.DB` and `*sql.Tx`, `α` the type of a bind argument, `ε` of a non-nil
`error`; a Go result pair `(v, err)` is a pair whose second component is `none`
for `err == nil`.  The operation `rowScan` is `(*sql.Row).Scan(&id)` for an
`int64` variable `id` that holds 0 before the call: it yields the value of `id`
after the call and the error. -/
structure SqlOps (σ α ε H T Res Rows Row : Type) where
  dbExec : H → List Nat → List α → σ → (Res × Option ε) × σ
  dbQuery : H → List Nat → List α → σ → (Rows × Option ε) × σ
  dbQueryRow : H → List Nat → List α → σ → Row × σ
  dbBegin : H → σ → (Option T × Option ε) × σ
  dbClose : H → σ → Option ε × σ
  dbPing : H → σ → Option ε × σ
  txExec : T → List Nat → List α → σ → (Res × Option ε) × σ
  txQuery : T → List Nat → List α → σ → (Rows × Option ε) × σ
  txQueryRow : T → List Nat → List α → σ → Row × σ
  txCommit : T → σ → Option ε × σ
  txRollback : T → σ → Option ε × σ
  rowScan : Row → σ → (Int × Option ε) × σ
  lastInsertId : Res → σ → (Int × Option ε) × σ

/-- The struct behind a `*sql.DB` as far as `(*sql.DB).Close` is concerned: the
field `closed` and, in `rest`, everything else that `Close` reads or writes (the
free connections, the connection requests, the cleaner channel, the connector). -/
structure SqlDB (ρ : Type) where
  closed : Bool
  rest : ρ

/-- Method `(*sql.DB).Close` of `database/sql`, without its locking.  The guard
at its start, `if db.closed { db.mu.Unlock(); return nil }` (commented
`Make DB.Close idempotent` in the library), returns nil and touches nothing; on
an open `sql.DB` the method sets `db.closed = true` and returns the error `err`
that it collects while it closes the free connections and the connector.  That
collecting, and what it does to the other fields, is the parameter `release`. -/
def sqlDBClose {ρ ε : Type} (release : ρ → Option ε × ρ) (db : SqlDB ρ) :
    Option ε × SqlDB ρ :=
  if db.closed then (none, db)
  else ((release db.rest).1, SqlDB.mk true (release db.rest).2)

/-! ## `db.go`: the handles `DB` and `Tx` -/

/-- Function `Dialect.String`. -/
def Dialect.String (d : Dialect) : List Nat :=
  if d = DialectSQLite then ascii "sqlite"
  else if d = DialectPostgres then ascii "postgres"
  else ascii "unknown"

/-- Type `DB`: the struct behind a `*DB`; `raw` is `none` for a nil `*sql.DB`.
A `*DB` itself is an `Option (DB H)`, `none` for the nil pointer. -/
structure DB (H : Type) where
  raw : Option H
  dialect : Dialect
  deriving DecidableEq

/-- Type `Tx`: the struct behind a `*Tx`; `raw` is `none` for a nil `*sql.Tx`. -/
structure Tx (T : Type) where
  raw : Option T
  dialect : Dialect
  deriving DecidableEq

/-- Function `Wrap`. -/
def Wrap {H : Type} (raw : Option H) (dialect : Dialect) : Option (DB H) :=
  some (DB.mk raw dialect)

/-- Method `(*DB).Dialect`. -/
def DB.Dialect {H : Type} (db : Option (DB H)) : Dialect :=
  match db with
  | none => DialectSQLite
  | some d => d.dialect

/-- Method `(*DB).RawDB`. -/
def DB.RawDB {H : Type} (db : Option (DB H)) : Option H :=
  match db with
  | none => none
  | some d => d.raw

/-- Method `(*DB).Close`: the error returned and the state afterwards. -/
def DB.Close {σ α ε H T Res Rows Row : Type} (ops : SqlOps σ α ε H T Res Rows Row)
    (db : Option (DB H)) (s : σ) : Option ε × σ :=
  match db with
  | none => (none, s)
  | some d =>
    match d.raw with
    | none => (none, s)
    | some h => ops.dbClose h s

/-- Method `(*DB).Ping`; `none` is the panic of a nil dereference. -/
def DB.Ping {σ α ε H T Res Rows Row : Type} (ops : SqlOps σ α ε H T Res Rows Row)
    (db : Option (DB H)) (s : σ) : Option (Option ε × σ) :=
  match db with
  | none => none
  | some d =>
    match d.raw with
    | none => none
    | some h => some (ops.dbPing h s)

/-- Method `(*DB).rewrite`; `none` is a panic (nil receiver, or the panic of
`rewriteQuery`). -/
def DB.rewrite {H : Type} (upperCase : Nat → Nat) (db : Option (DB H)) (query : List Nat) :
    Option (List Nat) :=
  match db with
  | none => none
  | some d => rewriteQuery upperCase d.dialect query

/-- Method `(*DB).Exec`: `db.raw.Exec(db.rewrite(query), args...)`.  The result
`none` is a panic: nil receiver, panic of the rewrite, or nil `raw`. -/
def DB.Exec {σ α ε H T Res Rows Row : Type} (upperCase : Nat → Nat)
    (ops : SqlOps σ α ε H T Res Rows Row) (db : Option (DB H)) (query : List Nat)
    (args : List α) (s : σ) : Option ((Res × Option ε) × σ) :=
  match db with
  | none => none
  | some d =>
    match DB.rewrite upperCase db query, d.raw with
    | some q, some h => some (ops.dbExec h q args s)
    | _, _ => none

/-- Method `(*DB).Query`. -/
def DB.Query {σ α ε H T Res Rows Row : Type} (upperCase : Nat → Nat)
    (ops : SqlOps σ α ε H T Res Rows Row) (db : Option (DB H)) (query : List Nat)
    (args : List α) (s : σ) : Option ((Rows × Option ε) × σ) :=
  match db with
  | none => none
  | some d =>
    match DB.rewrite upperCase db query, d.raw with
    | some q, some h => some (ops.dbQuery h q args s)
    | _, _ => none

/-- Method `(*DB).QueryRow`. -/
def DB.QueryRow {σ α ε H T Res Rows Row : Type} (upperCase : Nat → Nat)
    (ops : SqlOps σ α ε H T Res Rows Row) (db : Option (DB H)) (query : List Nat)
    (args : List α) (s : σ) : Option (Row × σ) :=
  match db with
  | none => none
  | some d =>
    match DB.rewrite upperCase db query, d.raw with
    | some q, some h => some (ops.dbQueryRow h q args s)
    | _, _ => none

/-- Method `(*DB).Begin`: on an error of the driver `(nil, err)`, otherwise a new
`Tx` with the transaction of the driver and the dialect of `db`. -/
def DB.Begin {σ α ε H T Res Rows Row : Type} (ops : SqlOps σ α ε H T Res Rows Row)
    (db : Option (DB H)) (s : σ) : Option ((Option (Tx T) × Option ε) × σ) :=
  match db with
  | none => none
  | some d =>
    match d.raw with
    | none => none
    | some h =>
      match ops.dbBegin h s with
      | ((_, some err), s1) => some ((none, some err), s1)
      | ((tx, none), s1) => some ((some (Tx.mk tx d.dialect), none), s1)

/-- Method `(*DB).ExecReturningID`. -/
def DB.ExecReturningID {σ α ε H T Res Rows Row : Type} (upperCase : Nat → Nat)
    (ops : SqlOps σ α ε H T Res Rows Row) (db : Option (DB H)) (query : List Nat)
    (args : List α) (s : σ) : Option ((Int × Option ε) × σ) :=
  match db with
  | none => none
  | some d =>
    match DB.rewrite upperCase db query with
    | none => none
    | some q =>
      if d.dialect = DialectPostgres then
        match d.raw with
        | none => none
        | some h =>
          match ops.dbQueryRow h (TrimRight q trimCutset ++ ascii " RETURNING id") args s with
          | (row, s1) =>
            match ops.rowScan row s1 with
            | ((_, some err), s2) => some ((0, some err), s2)
            | ((id, none), s2) => some ((id, none), s2)
      else
        match d.raw with
        | none => none
        | some h =>
          match ops.dbExec h q args s with
          | ((_, some err), s1) => some ((0, some err), s1)
          | ((res, none), s1) => some (ops.lastInsertId res s1)

/-- Method `(*Tx).Exec`: `tx.raw.Exec(rewriteQuery(tx.dialect, query), args...)`. -/
def Tx.Exec {σ α ε H T Res Rows Row : Type} (upperCase : Nat → Nat)
    (ops : SqlOps σ α ε H T Res Rows Row) (tx : Option (Tx T)) (query : List Nat)
    (args : List α) (s : σ) : Option ((Res × Option ε) × σ) :=
  match tx with
  | none => none
  | some d =>
    match rewriteQuery upperCase d.dialect query, d.raw with
    | some q, some t => some (ops.txExec t q args s)
    | _, _ => none

/-- Method `(*Tx).Query`. -/
def Tx.Query {σ α ε H T Res Rows Row : Type} (upperCase : Nat → Nat)
    (ops : SqlOps σ α ε H T Res Rows Row) (tx : Option (Tx T)) (query : List Nat)
    (args : List α) (s : σ) : Option ((Rows × Option ε) × σ) :=
  match tx with
  | none => none
  | some d =>
    match rewriteQuery upperCase d.dialect query, d.raw with
    | some q, some t => some (ops.txQuery t q args s)
    | _, _ => none

/-- Method `(*Tx).QueryRow`. -/
def Tx.QueryRow {σ α ε H T Res Rows Row : Type} (upperCase : Nat → Nat)
    (ops : SqlOps σ α ε H T Res Rows Row) (tx : Option (Tx T)) (query : List Nat)
    (args : List α) (s : σ) : Option (Row × σ) :=
  match tx with
  | none => none
  | some d =>
    match rewriteQuery upperCase d.dialect query, d.raw with
    | some q, some t => some (ops.txQueryRow t q args s)
    | _, _ => none

/-- Method `(*Tx).Commit`. -/
def Tx.Commit {σ α ε H T Res Rows Row : Type} (ops : SqlOps σ α ε H T Res Rows Row)
    (tx : Option (Tx T)) (s : σ) : Option (Option ε × σ) :=
  match tx with
  | none => none
  | some d =>
    match d.raw with
    | none => none
    | some t => some (ops.txCommit t s)

/-- Method `(*Tx).Rollback`. -/
def Tx.Rollback {σ α ε H T Res Rows Row : Type} (ops : SqlOps σ α ε H T Res Rows Row)
    (tx : Option (Tx T)) (s : σ) : Option (Option ε × σ) :=
  match tx with
  | none => none
  | some d =>
    match d.raw with
    | none => none
    | some t => some (ops.txRollback t s)

/-- Method `(*Tx).ExecReturningID`. -/
def Tx.ExecReturningID {σ α ε H T Res Rows Row : Type} (upperCase : Nat → Nat)
    (ops : SqlOps σ α ε H T Res Rows Row) (tx : Option (Tx T)) (query : List Nat)
    (args : List α) (s : σ) : Option ((Int × Option ε) × σ) :=
  match tx with
  | none => none
  | some d =>
    match rewriteQuery upperCase d.dialect query with
    | none => none
    | some q =>
      if d.dialect = DialectPostgres then
        match d.raw with
        | none => none
        | some t =>
          match ops.txQueryRow t (TrimRight q trimCutset ++ ascii " RETURNING id") args s with
          | (row, s1) =>
            match ops.rowScan row s1 with
            | ((_, some err), s2) => some ((0, some err), s2)
            | ((id, none), s2) => some ((id, none), s2)
      else
        match d.raw with
        | none => none
        | some t =>
          match ops.txExec t q args s with
          | ((_, some err), s1) => some ((0, some err), s1)
          | ((res, none), s1) => some (ops.lastInsertId res s1)

/-! ## `app.go`: `New` -/

/-- Fields of `config.Config` read by `New` (the declaration of the type is in
the package `config`, outside the files at hand; the fields are strings). -/
structure Config where
  DBType : List Nat
  DBPath : List Nat
  DatabaseURL : List Nat
  JWTSecret : List Nat
  Addr : List Nat
  deriving DecidableEq

/-- The errors `New` returns: `fmt.Errorf("open sqlite: %w", err)`,
`fmt.Errorf("open postgres: %w", err)` and
`fmt.Errorf("unsupported DB_TYPE %q", cfg.DBType)`. -/
inductive NewError (ε : Type) where
  | openSqlite (err : ε)
  | openPostgres (err : ε)
  | unsupportedDBType (dbType : List Nat)
  deriving DecidableEq

/-- Type `App`, with the fields `cfg` and `repo`; the fields `server` and `h` are
built from `cfg` and `repo` by calls that return no error, and are left out. -/
structure App (R : Type) where
  cfg : Config
  repo : Option R
  deriving DecidableEq

/-- Function `New` up to the end of its `switch` (the rest builds the handler, the
router and the server and returns the `App` with a nil error).  The functions
`repo.Open` and `repo.OpenPostgres` are outside the files at hand and are the
parameters `repoOpen` and `repoOpenPostgres`: functions on the outside state `σ`
that return a `*repo.Repository` and an error. -/
def New {σ ε R : Type} (uni : UnicodeOps)
    (repoOpen repoOpenPostgres : List Nat → σ → (Option R × Option ε) × σ)
    (cfg : Config) (s : σ) : (Option (App R) × Option (NewError ε)) × σ :=
  let dbType := ToLower uni.lowerCase (TrimSpace uni.trimFunc uni.trimRightFunc cfg.DBType)
  if dbType = ascii "" ∨ dbType = ascii "sqlite" then
    match repoOpen cfg.DBPath s with
    | ((_, some err), s1) => ((none, some (NewError.openSqlite err)), s1)
    | ((r, none), s1) => ((some (App.mk cfg r), none), s1)
  else if dbType = ascii "postgres" ∨ dbType = ascii "postgresql" then
    match repoOpenPostgres cfg.DatabaseURL s with
    | ((_, some err), s1) => ((none, some (NewError.openPostgres err)), s1)
    | ((r, none), s1) => ((some (App.mk cfg r), none), s1)
  else ((none, some (NewError.unsupportedDBType cfg.DBType)), s)

/-! ## Definitions used to state the properties of the handles -/

/-- The configured database type after trimming surrounding whitespace and
lower-casing: the value `New` switches on. -/
def normalizedDBType (uni : UnicodeOps) (dbType : List Nat) : List Nat :=
  ToLower uni.lowerCase (TrimSpace uni.trimFunc uni.trimRightFunc dbType)

/-- What `New` returns once the repository has been opened with the result `r`:
the error of the opening, wrapped by `wrap`, or the `App` with the repository. -/
def openOutcome {σ ε R : Type} (wrap : ε → NewError ε) (cfg : Config)
    (r : (Option R × Option ε) × σ) : (Option (App R) × Option (NewError ε)) × σ :=
  match r with
  | ((_, some err), s1) => ((none, some (wrap err)), s1)
  | ((repo, none), s1) => ((some (App.mk cfg repo), none), s1)

/-- Removal of the ASCII whitespace bytes (tab, line feed, vertical tab, form
feed, carriage return, space) at both ends of a text. -/
def trimAsciiSpace (x : List Nat) : List Nat :=
  ((x.dropWhile asciiSpace).reverse.dropWhile asciiSpace).reverse

/-- What `ExecReturningID` returns on the Postgres path once the single-row query
has been issued: the row is scanned; a scan error is returned with the id 0,
otherwise the scanned id is returned with a nil error. -/
def scanOutcome {σ α ε H T Res Rows Row : Type} (ops : SqlOps σ α ε H T Res Rows Row)
    (r : Row × σ) : (Int × Option ε) × σ :=
  match ops.rowScan r.1 r.2 with
  | ((_, some err), s2) => ((0, some err), s2)
  | ((id, none), s2) => ((id, none), s2)

/-- Kinds of calls into `database/sql`. -/
inductive CallKind where
  | Exec
  | Query
  | QueryRow
  | Begin
  | Close
  | Ping
  | Commit
  | Rollback
  | Scan
  | LastInsertId
  deriving DecidableEq

/-- A stand-in for `database/sql` that records every call: the state is the list
of calls made so far, each with the SQL text and the arguments it was given (both
empty for a call without them).  Handles, results and rows carry nothing, errors
and arguments are numbers; no call fails, except that scanning returns the pair
`scanned`. -/
def recordingOps (scanned : Int × Option Nat) :
    SqlOps (List (CallKind × List Nat × List Nat)) Nat Nat Unit Unit Unit Unit Unit :=
  SqlOps.mk
    (fun _ q a s => (((), none), s ++ [(CallKind.Exec, q, a)]))
    (fun _ q a s => (((), none), s ++ [(CallKind.Query, q, a)]))
    (fun _ q a s => ((), s ++ [(CallKind.QueryRow, q, a)]))
    (fun _ s => ((some (), none), s ++ [(CallKind.Begin, [], [])]))
    (fun _ s => (none, s ++ [(CallKind.Close, [], [])]))
    (fun _ s => (none, s ++ [(CallKind.Ping, [], [])]))
    (fun _ q a s => (((), none), s ++ [(CallKind.Exec, q, a)]))
    (fun _ q a s => (((), none), s ++ [(CallKind.Query, q, a)]))
    (fun _ q a s => ((), s ++ [(CallKind.QueryRow, q, a)]))
    (fun _ s => (none, s ++ [(CallKind.Commit, [], [])]))
    (fun _ s => (none, s ++ [(CallKind.Rollback, [], [])]))
    (fun _ s => (scanned, s ++ [(CallKind.Scan, [], [])]))
    (fun _ s => ((1, none), s ++ [(CallKind.LastInsertId, [], [])]))

/-- A stand-in for `database/sql` whose state is the flag `closed` of the one
`sql.DB`: `Close` on an open `sql.DB` closes it and returns `firstErr`, `Close`
on a closed one returns nil and changes nothing (as `(*sql.DB).Close` does);
`Begin` fails with the error 1 once the `sql.DB` is closed. -/
def closingOps (firstErr : Option Nat) : SqlOps Bool Nat Nat Unit Unit Unit Unit Unit :=
  SqlOps.mk
    (fun _ _ _ s => (((), none), s))
    (fun _ _ _ s => (((), none), s))
    (fun _ _ _ s => ((), s))
    (fun _ s => if s then ((none, some 1), s) else ((some (), none), s))
    (fun _ s => if s then (none, s) else (firstErr, true))
    (fun _ s => (none, s))
    (fun _ _ _ s => (((), none), s))
    (fun _ _ _ s => (((), none), s))
    (fun _ _ _ s => ((), s))
    (fun _ s => (none, s))
    (fun _ s => (none, s))
    (fun _ s => ((0, none), s))
    (fun _ s => ((1, none), s))

/-- The operations `ops` over the state of one `sql.DB`, with `(*sql.DB).Close`
as the library defines it (`sqlDBClose`); `release h` is what closing the open
`sql.DB` behind `h` does besides setting `closed`. -/
def withLibraryClose {ρ α ε H T Res Rows Row : Type}
    (ops : SqlOps (SqlDB ρ) α ε H T Res Rows Row) (release : H → ρ → Option ε × ρ) :
    SqlOps (SqlDB ρ) α ε H T Res Rows Row :=
  { ops with dbClose := fun h db => sqlDBClose (release h) db }

/-- A stand-in for `database/sql` in which every call succeeds and leaves the
state as it is. -/
def idleOps (σ : Type) : SqlOps σ Nat Nat Unit Unit Unit Unit Unit :=
  SqlOps.mk
    (fun _ _ _ s => (((), none), s))
    (fun _ _ _ s => (((), none), s))
    (fun _ _ _ s => ((), s))
    (fun _ s => ((some (), none), s))
    (fun _ s => (none, s))
    (fun _ s => (none, s))
    (fun _ _ _ s => (((), none), s))
    (fun _ _ _ s => (((), none), s))
    (fun _ _ _ s => ((), s))
    (fun _ s => (none, s))
    (fun _ s => (none, s))
    (fun _ s => ((0, none), s))
    (fun _ s => ((1, none), s))

/-- Unicode parts for the evaluations on ASCII text, where none of them is
consulted: a lower-case table without entries and fall-backs that return their
argument. -/
def asciiOnlyOps : UnicodeOps := UnicodeOps.mk (fun r => r) (fun s => s) (fun s => s)

/-- A stand-in for `repo.Open` and `repo.OpenPostgres` that records the call (its
tag and its argument) in the state and returns the repository `tag`. -/
def recordingOpen (tag : Nat) (arg : List Nat) (s : List (Nat × List Nat)) :
    (Option Nat × Option Nat) × List (Nat × List Nat) :=
  ((some tag, none), s ++ [(tag, arg)])

/-! ## General facts -/

theorem getD_eq_of_drop {q : List Nat} {i c : Nat} {t : List Nat} (h : q.drop i = c :: t) :
    q.getD i 0 = c ∧ q.drop (i + 1) = t ∧ i < q.length := by
  have hi : i < q.length := by
    by_contra hc
    rw [List.drop_eq_nil_of_le (by omega)] at h
    cases h
  rw [List.drop_eq_getElem_cons hi] at h
  injection h with h1 h2
  refine ⟨?_, h2, hi⟩
  rw [List.getD_eq_getElem _ _ hi]; exact h1

theorem scanIdentifier_eq (q : List Nat) : ∀ (fuel j : Nat), q.length ≤ j + fuel →
    scanIdentifier q fuel j = j + ((q.drop j).takeWhile isIdentifierChar).length := by
  intro fuel
  induction fuel with
  | zero =>
    intro j h
    rw [List.drop_eq_nil_of_le (by omega)]
    simp [scanIdentifier]
  | succ fuel ih =>
    intro j h
    rw [scanIdentifier]
    rcases hd : q.drop j with _ | ⟨c, t⟩
    · have : ¬ j < q.length := by
        intro hi
        have := List.drop_eq_nil_iff.1 hd
        omega
      simp [this]
    · obtain ⟨hc, ht, hi⟩ := getD_eq_of_drop hd
      by_cases hid : isIdentifierChar c = true
      · simp only [hi, hc, hid, decide_True, Bool.and_self, if_true]
        rw [ih (j + 1) (by omega), ht, List.takeWhile_cons_of_pos hid]
        simp; omega
      · simp only [hi, hc, hid, decide_True, Bool.and_false, Bool.false_eq_true, if_false]
        rw [List.takeWhile_cons_of_neg hid]; simp

theorem isIdentifierChar_ne_sq {c : Nat} (h : isIdentifierChar c = true) : c ≠ sq := by
  intro hc; subst hc; revert h; decide

theorem isIdentifierChar_ne_dq {c : Nat} (h : isIdentifierChar c = true) : c ≠ dq := by
  intro hc; subst hc; revert h; decide

theorem quoteFlags_cons (st : Bool × Bool) (c : Nat) (l : List Nat) :
    quoteFlags st (c :: l) = quoteFlags (quoteStep st c) l := rfl

theorem quoteStep_ident (st : Bool × Bool) {c : Nat} (h : isIdentifierChar c = true) :
    quoteStep st c = st := by
  simp [quoteStep, isIdentifierChar_ne_sq h, isIdentifierChar_ne_dq h]

theorem quoteFlags_dropWhile (st : Bool × Bool) (l : List Nat) :
    quoteFlags st (l.dropWhile isIdentifierChar) = quoteFlags st l := by
  induction l with
  | nil => rfl
  | cons c t ih =>
    by_cases h : isIdentifierChar c = true
    · rw [List.dropWhile_cons_of_pos h, ih, quoteFlags_cons, quoteStep_ident st h]
    · rw [List.dropWhile_cons_of_neg h]

theorem take_length_takeWhile (p : Nat → Bool) (l : List Nat) :
    l.take (l.takeWhile p).length = l.takeWhile p := by
  induction l with
  | nil => rfl
  | cons c t ih =>
    by_cases h : p c = true
    · simp [List.takeWhile_cons_of_pos h, ih]
    · simp [List.takeWhile_cons_of_neg h]

theorem drop_length_takeWhile (p : Nat → Bool) (l : List Nat) :
    l.drop (l.takeWhile p).length = l.dropWhile p := by
  induction l with
  | nil => rfl
  | cons c t ih =>
    by_cases h : p c = true
    · simp [List.takeWhile_cons_of_pos h, List.dropWhile_cons_of_pos h, ih]
    · simp [List.takeWhile_cons_of_neg h, List.dropWhile_cons_of_neg h]

theorem rewriteUserIdentifierLoop_eq (q : List Nat) :
    ∀ (fuel i : Nat) (s d : Bool) (buf : List Nat), q.length ≤ i + fuel →
      rewriteUserIdentifierLoop q fuel i s d buf =
        (buf ++ userScan s d (q.drop i), quoteFlags (s, d) (q.drop i)) := by
  intro fuel
  induction fuel with
  | zero =>
    intro i s d buf h
    rw [List.drop_eq_nil_of_le (by omega)]
    simp [rewriteUserIdentifierLoop, userScan, quoteFlags]
  | succ fuel ih =>
    intro i s d buf h
    rw [rewriteUserIdentifierLoop]
    rcases hd : q.drop i with _ | ⟨c, t⟩
    · have : ¬ i < q.length := by
        intro hi
        have := List.drop_eq_nil_iff.1 hd
        omega
      simp [this, userScan, quoteFlags]
    · obtain ⟨hc, ht, hi⟩ := getD_eq_of_drop hd
      simp only [hi, if_true, hc]
      rw [userScan, quoteFlags_cons]
      by_cases h1 : c = sq ∧ d = false
      · obtain ⟨hcs, hdf⟩ := h1
        subst hcs; subst hdf
        have hstep : quoteStep (s, false) sq = (!s, false) := by simp [quoteStep]
        simp only [beq_self_eq_true, Bool.not_false, Bool.and_self, if_true, and_self, hstep]
        rcases ht' : t with _ | ⟨c2, t2⟩
        · have hl : ¬ (i + 1 < q.length) := by
            intro hi2
            have := List.drop_eq_nil_iff.1 (ht.trans ht')
            omega
          simp only [hl, decide_False, Bool.and_false, Bool.false_and, if_false]
          rw [ih (i + 1) (!s) false _ (by omega), ht, ht']
          simp
        · obtain ⟨hc2, ht2, hi2⟩ := getD_eq_of_drop (ht.trans ht')
          simp only [hi2, hc2, decide_True, Bool.true_and, Bool.and_true]
          by_cases h2 : s = true ∧ c2 = sq
          · obtain ⟨hs, hc2s⟩ := h2
            subst hs; subst hc2s
            simp only [beq_self_eq_true, Bool.and_self, if_true]
            rw [ih (i + 2) true false _ (by omega), ht2, userScan, quoteFlags_cons]
            simp [quoteStep]
          · have : (s && c2 == sq) = false := by
              rcases s with _ | _ <;> simp_all
            simp only [this]
            rw [ih (i + 1) (!s) false _ (by omega), ht, ht']
            simp
      · have h1b : (c == sq && !d) = false := by
          rcases d with _ | _ <;> simp_all
        simp only [h1b, h1, Bool.false_eq_true, if_false]
        by_cases h2 : c = dq ∧ s = false
        · obtain ⟨hcd, hsf⟩ := h2
          subst hcd; subst hsf
          have hstep : quoteStep (false, d) dq = (false, !d) := by
            simp [quoteStep] at h1 ⊢
            intro hh; exact absurd hh (by decide)
          simp only [beq_self_eq_true, Bool.not_false, Bool.and_self, if_true, and_self, hstep]
          rw [ih (i + 1) false (!d) _ (by omega), ht]
          simp
        · have h2b : (c == dq && !s) = false := by
            rcases s with _ | _ <;> simp_all
          have hstep : quoteStep (s, d) c = (s, d) := by
            simp only [quoteStep, h1, h2, if_false]
          simp only [h2b, h2, Bool.false_eq_true, if_false, hstep]
          by_cases h3 : s = true ∨ d = true
          · have h3b : (s || d) = true := by simpa using h3
            simp only [h3b, h3, if_true]
            rw [ih (i + 1) s d _ (by omega), ht]
            simp
          · have h3b : (s || d) = false := by simpa using h3
            have hs : s = false := by simpa using (not_or.1 h3).1
            have hdd : d = false := by simpa using (not_or.1 h3).2
            subst hs; subst hdd
            simp only [h3b, h3, Bool.false_eq_true, if_false]
            by_cases h4 : isIdentifierChar c = true
            · simp only [h4, if_true]
              have hj : scanIdentifier q q.length (i + 1) =
                  i + 1 + (t.takeWhile isIdentifierChar).length := by
                rw [scanIdentifier_eq q q.length (i + 1) (by omega), ht]
              have htok : (q.take (i + 1 + (t.takeWhile isIdentifierChar).length)).drop i =
                  c :: t.takeWhile isIdentifierChar := by
                rw [List.drop_take, hd]
                have : i + 1 + (t.takeWhile isIdentifierChar).length - i =
                    (t.takeWhile isIdentifierChar).length + 1 := by omega
                rw [this, List.take_succ_cons, take_length_takeWhile]
              have hrest : q.drop (i + 1 + (t.takeWhile isIdentifierChar).length) =
                  t.dropWhile isIdentifierChar := by
                rw [← List.drop_drop, ht, drop_length_takeWhile]
              rw [hj, htok]
              by_cases h5 : EqualFold (c :: t.takeWhile isIdentifierChar) (ascii "user") = true
              · simp only [h5, if_true]
                rw [ih _ false false _ (by omega), hrest, quoteFlags_dropWhile]
                simp
              · simp only [h5, Bool.false_eq_true, if_false]
                rw [ih _ false false _ (by omega), hrest, quoteFlags_dropWhile]
                simp
            · simp only [h4, Bool.false_eq_true, if_false]
              rw [ih (i + 1) false false _ (by omega), ht]
              simp

theorem rewriteUserIdentifier_eq_scan (q : List Nat) :
    rewriteUserIdentifier q = userScan false false q := by
  simp [rewriteUserIdentifier, rewriteUserIdentifierLoop_eq q q.length 0 false false [] (by omega)]

/-! ## Pass 3: the loop in suffix form, the reference scanner -/

theorem rewritePlaceholdersLoop_eq (q : List Nat) :
    ∀ (fuel i n : Nat) (s : Bool) (buf : List Nat), q.length ≤ i + fuel →
      rewritePlaceholdersLoop q fuel i n s buf =
        (buf ++ (placeholderScan n s (q.drop i)).1, (placeholderScan n s (q.drop i)).2) := by
  intro fuel
  induction fuel with
  | zero =>
    intro i n s buf h
    rw [List.drop_eq_nil_of_le (by omega)]
    simp [rewritePlaceholdersLoop, placeholderScan]
  | succ fuel ih =>
    intro i n s buf h
    rw [rewritePlaceholdersLoop]
    rcases hd : q.drop i with _ | ⟨c, t⟩
    · have : ¬ i < q.length := by
        intro hi
        have := List.drop_eq_nil_iff.1 hd
        omega
      simp [this, placeholderScan]
    · obtain ⟨hc, ht, hi⟩ := getD_eq_of_drop hd
      simp only [hi, if_true, hc]
      by_cases h1 : c = sq
      · subst h1
        simp only [beq_self_eq_true, if_true]
        rcases ht' : t with _ | ⟨c2, t2⟩
        · have hl : ¬ (i + 1 < q.length) := by
            intro hi2
            have := List.drop_eq_nil_iff.1 (ht.trans ht')
            omega
          simp only [hl, decide_False, Bool.and_false, Bool.false_and, if_false]
          rw [ih (i + 1) n (!s) _ (by omega), ht, ht']
          simp [placeholderScan]
        · obtain ⟨hc2, ht2, hi2⟩ := getD_eq_of_drop (ht.trans ht')
          simp only [hi2, hc2, decide_True, Bool.true_and, Bool.and_true]
          by_cases h2 : s = true ∧ c2 = sq
          · obtain ⟨hs, hc2s⟩ := h2
            subst hs; subst hc2s
            simp only [beq_self_eq_true, Bool.and_self, if_true]
            rw [ih (i + 2) n true _ (by omega), ht2]
            simp [placeholderScan]
          · have : (s && c2 == sq) = false := by
              rcases s with _ | _ <;> simp_all
            simp only [this]
            rw [ih (i + 1) n (!s) _ (by omega), ht, ht']
            simp [placeholderScan]
      · have h1b : (c == sq) = false := by simpa using h1
        simp only [h1b]
        by_cases h3 : c = qm ∧ s = false
        · obtain ⟨hq, hs⟩ := h3
          subst hq; subst hs
          simp only [beq_self_eq_true, Bool.not_false, Bool.and_self, if_true]
          rw [ih (i + 1) (n + 1) false _ (by omega), ht]
          simp [placeholderScan, h1]
        · have : (c == qm && !s) = false := by
            rcases s with _ | _ <;> simp_all
          simp only [this]
          rw [ih (i + 1) n s _ (by omega), ht]
          simp [placeholderScan, h1, h3]

theorem rewritePlaceholders_eq_scan (q : List Nat) :
    rewritePlaceholders q = (placeholderScan 1 false q).1 := by
  simp [rewritePlaceholders, rewritePlaceholdersLoop_eq q q.length 0 1 false [] (by omega)]

theorem fmtDigits_eq_decimalNumeral : ∀ (fuel n : Nat), n < fuel → 1 ≤ n →
    fmtDigits fuel n = decimalNumeral n := by
  intro fuel
  induction fuel with
  | zero => intro n h; omega
  | succ fuel ih =>
    intro n h h1
    rw [fmtDigits]
    by_cases h10 : n < 10
    · simp only [h10, if_true, decimalNumeral]
      rw [Nat.digits_def' (by norm_num) (by omega), Nat.div_eq_of_lt h10, Nat.mod_eq_of_lt h10]
      simp
    · simp only [h10, if_false, decimalNumeral]
      rw [Nat.digits_def' (by norm_num : 1 < 10) (by omega : 0 < n)]
      rw [ih (n / 10) (by omega) (by omega)]
      simp [decimalNumeral]

theorem sprintfDollarD_eq (n : Nat) (h : 1 ≤ n) : sprintfDollarD n = dollar :: decimalNumeral n := by
  rw [sprintfDollarD, fmtDigits_eq_decimalNumeral (n + 1) n (by omega) h]

theorem sq_ne_qm : sq ≠ qm := by decide
theorem qm_ne_sq : qm ≠ sq := by decide

theorem rewritePlaceholdersRefFrom_cons (c : Nat) (rest : List Nat) (n : Nat) (s : Bool) :
    rewritePlaceholdersRefFrom n s (c :: rest) =
      if c = sq then sq :: rewritePlaceholdersRefFrom n (!s) rest
      else if c = qm ∧ s = false then
        (dollar :: decimalNumeral n) ++ rewritePlaceholdersRefFrom (n + 1) false rest
      else c :: rewritePlaceholdersRefFrom n s rest := by
  rcases rest with _ | ⟨c2, rest⟩
  · by_cases h1 : c = sq
    · subst h1; simp [rewritePlaceholdersRefFrom, sq_ne_qm]
    · by_cases h2 : c = qm ∧ s = false <;> simp [rewritePlaceholdersRefFrom, h1, h2, qm_ne_sq]
  · rw [rewritePlaceholdersRefFrom]
    by_cases h2 : s = true ∧ c = sq ∧ c2 = sq
    · obtain ⟨hs, hc, hc2⟩ := h2
      subst hs; subst hc; subst hc2
      rcases rest with _ | ⟨c3, r⟩
      · simp [rewritePlaceholdersRefFrom, sq_ne_qm]
      · simp [rewritePlaceholdersRefFrom, sq_ne_qm]
    · simp only [h2, if_false]

theorem placeholderScan_eq_ref : ∀ (l : List Nat) (n : Nat) (s : Bool), 1 ≤ n →
    (placeholderScan n s l).1 = rewritePlaceholdersRefFrom n s l := by
  intro l
  induction l with
  | nil => intro n s _; simp [placeholderScan, rewritePlaceholdersRefFrom]
  | cons c t ih =>
    intro n s hn
    rw [rewritePlaceholdersRefFrom_cons, placeholderScan]
    by_cases h1 : c = sq
    · simp [h1, ih n (!s) hn]
    · by_cases h2 : c = qm ∧ s = false
      · simp [h1, h2, sprintfDollarD_eq n hn, ih (n + 1) false (by omega), qm_ne_sq]
      · simp only [h1, h2, if_false, ih n s hn]

/-! ## Upper-casing -/

theorem upperByte_lt {c : Nat} (h : c < 128) : upperByte c < 128 := by
  unfold upperByte; split_ifs <;> omega

theorem DecodeRuneInString_ascii {c : Nat} (t : List Nat) (h : c < 128) :
    DecodeRuneInString (c :: t) = (c, 1) := by
  simp [DecodeRuneInString, RuneSelf, h]

theorem unicodeToUpper_ascii (up : Nat → Nat) {c : Nat} (h : c < 128) :
    unicodeToUpper up c = upperByte c := by
  have : c ≤ 127 := by omega
  simp [unicodeToUpper, upperByte, this]

theorem AppendRune_ascii {c : Nat} (h : c < 128) : AppendRune c = [c] := by
  simp [AppendRune, RuneSelf, h]

theorem mapRest_ascii (up : Nat → Nat) : ∀ (fuel : Nat) (s : List Nat),
    (∀ c ∈ s, c < 128) → s.length ≤ fuel →
      mapRest (unicodeToUpper up) fuel s = s.map upperByte := by
  intro fuel
  induction fuel with
  | zero =>
    intro s _ hl
    have : s = [] := List.length_eq_zero.1 (by omega)
    subst this; simp [mapRest]
  | succ fuel ih =>
    intro s hs hl
    rcases s with _ | ⟨c, t⟩
    · simp [mapRest]
    · have hc : c < 128 := hs c (by simp)
      have ht : ∀ x ∈ t, x < 128 := fun x hx => hs x (by simp [hx])
      rw [mapRest]
      simp only [DecodeRuneInString_ascii t hc, unicodeToUpper_ascii up hc,
        AppendRune_ascii (upperByte_lt hc)]
      simp [ih t ht (by simpa using hl)]

theorem ascii_phrase : ascii "INSERT OR IGNORE INTO" =
    [73, 78, 83, 69, 82, 84, 32, 79, 82, 32, 73, 71, 78, 79, 82, 69, 32, 73, 78, 84, 79] := by
  decide

theorem ToUpper_invalid_then_ascii (up : Nat → Nat) (h : up RuneError = RuneError)
    (t : List Nat) (ht : ∀ c ∈ t, c < 128) :
    ToUpper up (0xFF :: t) = [0xEF, 0xBF, 0xBD] ++ t.map upperByte := by
  have h2 : up 65533 = 65533 := h
  have hd : DecodeRuneInString (0xFF :: t) = (RuneError, 1) := by
    simp [DecodeRuneInString, RuneSelf, leadInfo]
  have hall : (List.all (0xFF :: t) fun c => decide (c < RuneSelf)) = false := by
    simp [RuneSelf]
  rw [ToUpper, hall]
  simp only [Bool.false_eq_true, if_false, Map, List.length_cons, mapFirst]
  simp only [Nat.zero_lt_succ, if_true, List.drop_zero, hd, List.take_zero, List.nil_append]
  have hm : unicodeToUpper up RuneError = RuneError := by
    simp [unicodeToUpper, RuneError, h2]
  have ha : AppendRune RuneError = [0xEF, 0xBF, 0xBD] := by decide
  simp only [hm, ha, bne_self_eq_false, Bool.and_false, Bool.false_eq_true, if_false,
    beq_self_eq_true, Bool.true_and, Bool.and_true, Nat.zero_add, List.drop_succ_cons,
    List.drop_zero]
  simp [mapRest_ascii up (t.length + 1) t ht (by omega)]

/-! ## Pass 3: composition and literals -/

theorem placeholderScan_append : ∀ (x y : List Nat) (n : Nat) (s : Bool),
    placeholderScan n s (x ++ y) =
      ((placeholderScan n s x).1 ++
          (placeholderScan (placeholderScan n s x).2.1 (placeholderScan n s x).2.2 y).1,
        (placeholderScan (placeholderScan n s x).2.1 (placeholderScan n s x).2.2 y).2) := by
  intro x
  induction x with
  | nil => intro y n s; simp [placeholderScan]
  | cons c t ih =>
    intro y n s
    rw [List.cons_append, placeholderScan, placeholderScan]
    by_cases h1 : c = sq
    · simp only [h1, if_true, ih y n (!s)]
      simp
    · by_cases h2 : c = qm ∧ s = false
      · obtain ⟨hq, hs⟩ := h2
        subst hq; subst hs
        simp only [qm_ne_sq, if_false, and_self, if_true, ih y (n + 1) false]
        simp
      · simp only [h1, h2, if_false, ih y n s]
        simp

theorem placeholderScan_literalBody : ∀ (k : Nat) (body : List Nat) (n : Nat),
    body.length ≤ k → literalBody sq body = true →
      placeholderScan n true (body ++ [sq]) = (body ++ [sq], n, false) := by
  intro k
  induction k with
  | zero =>
    intro body n hk _
    have : body = [] := List.length_eq_zero.1 (by omega)
    subst this
    simp [placeholderScan]
  | succ k ih =>
    intro body n hk hb
    rcases body with _ | ⟨c, _ | ⟨c2, rest⟩⟩
    · simp [placeholderScan]
    · have hc : c ≠ sq := by simpa [literalBody] using hb
      simp [placeholderScan, hc]
    · rw [literalBody] at hb
      by_cases hc : c = sq
      · simp only [hc, if_true, Bool.and_eq_true, beq_iff_eq] at hb
        obtain ⟨hc2, hrest⟩ := hb
        subst hc; subst hc2
        have := ih rest n (by simp at hk; omega) hrest
        simp [placeholderScan, this]
      · simp only [hc, if_false] at hb
        have := ih (c2 :: rest) n (by simp at hk ⊢; omega) hb
        rw [List.cons_append, placeholderScan]
        simp only [hc, if_false, false_and, this]
        simp

theorem placeholderScan_literal {l : List Nat} (h : IsLiteral sq l) (n : Nat) :
    placeholderScan n false l = (l, n, false) := by
  obtain ⟨body, rfl, hb⟩ := h
  rw [placeholderScan]
  simp [placeholderScan_literalBody body.length body n (le_refl _) hb]

theorem placeholdersAtExit_eq (a : List Nat) :
    placeholdersAtExit a = (placeholderScan 1 false a).2 := by
  simp [placeholdersAtExit, rewritePlaceholdersLoop_eq a a.length 0 1 false [] (by omega)]

theorem rewritePlaceholdersFrom_eq (n : Nat) (q : List Nat) :
    rewritePlaceholdersFrom n q = (placeholderScan n false q).1 := by
  simp [rewritePlaceholdersFrom, rewritePlaceholdersLoop_eq q q.length 0 n false [] (by omega)]

/-! ## Pass 1: case folding, composition -/

theorem ascii_user : ascii "user" = [117, 115, 101, 114] := by decide
theorem ascii_quoted_user : ascii "\"user\"" = [34, 117, 115, 101, 114, 34] := by decide

theorem foldByte_iff (c u : Nat) (hu : 97 ≤ u ∧ u ≤ 122) :
    (¬ (RuneSelf ≤ c ∨ RuneSelf ≤ u) ∧
      (u = c ∨ (65 ≤ min c u ∧ min c u ≤ 90 ∧ max c u = min c u + 32))) ↔
      lowerByte c = u := by
  unfold lowerByte RuneSelf
  rcases Nat.le_total c u with h | h
  · rw [min_eq_left h, max_eq_right h]
    split_ifs <;> constructor <;> intro hh <;> omega
  · rw [min_eq_right h, max_eq_left h]
    split_ifs <;> constructor <;> intro hh <;> omega

theorem EqualFold_cons_letter (c u : Nat) (s t : List Nat) (hu : 97 ≤ u ∧ u ≤ 122) :
    EqualFold (c :: s) (u :: t) = (decide (lowerByte c = u) && EqualFold s t) := by
  rw [EqualFold]
  have := foldByte_iff c u hu
  by_cases h : lowerByte c = u
  · obtain ⟨h1, h2⟩ := this.2 h
    simp only [h1, if_false, h, decide_True, Bool.true_and]
    rcases h2 with h2 | h2
    · simp [h2]
    · simp [h2]
  · have hn := this.not.2 h
    simp only [h, decide_False, Bool.false_and]
    by_cases h1 : RuneSelf ≤ c ∨ RuneSelf ≤ u
    · simp [h1]
    · simp only [h1, if_false]
      have h2 : ¬ (u = c ∨ (65 ≤ min c u ∧ min c u ≤ 90 ∧ max c u = min c u + 32)) :=
        fun hh => hn ⟨h1, hh⟩
      rw [not_or] at h2
      rw [if_neg h2.1, if_neg h2.2]

theorem EqualFold_user (tok : List Nat) :
    EqualFold tok (ascii "user") = equalsIgnoreCase tok (ascii "user") := by
  have hl : (ascii "user").map lowerByte = [117, 115, 101, 114] := by decide
  rw [equalsIgnoreCase, hl, ascii_user]
  rcases tok with _ | ⟨a, _ | ⟨b, _ | ⟨c, _ | ⟨d, _ | ⟨e, t⟩⟩⟩⟩⟩
  · simp [EqualFold]
  · rw [EqualFold_cons_letter _ _ _ _ (by omega)]; simp [EqualFold]
  · rw [EqualFold_cons_letter _ _ _ _ (by omega), EqualFold_cons_letter _ _ _ _ (by omega)]
    simp [EqualFold]
  · rw [EqualFold_cons_letter _ _ _ _ (by omega), EqualFold_cons_letter _ _ _ _ (by omega),
      EqualFold_cons_letter _ _ _ _ (by omega)]
    simp [EqualFold]
  · rw [EqualFold_cons_letter _ _ _ _ (by omega), EqualFold_cons_letter _ _ _ _ (by omega),
      EqualFold_cons_letter _ _ _ _ (by omega), EqualFold_cons_letter _ _ _ _ (by omega)]
    simp [EqualFold]
    tauto
  · rw [EqualFold_cons_letter _ _ _ _ (by omega), EqualFold_cons_letter _ _ _ _ (by omega),
      EqualFold_cons_letter _ _ _ _ (by omega), EqualFold_cons_letter _ _ _ _ (by omega)]
    simp [EqualFold]

theorem dq_ne_sq : dq ≠ sq := by decide

theorem userScan_nil (s d : Bool) : userScan s d [] = [] := by rw [userScan]

theorem userScan_sq (s : Bool) (rest : List Nat) :
    userScan s false (sq :: rest) = sq :: userScan (!s) false rest := by
  rw [userScan]; simp

theorem userScan_dq (d : Bool) (rest : List Nat) :
    userScan false d (dq :: rest) = dq :: userScan false (!d) rest := by
  rw [userScan]; simp [dq_ne_sq]

theorem userScan_inSingle {c : Nat} (hc : c ≠ sq) (rest : List Nat) :
    userScan true false (c :: rest) = c :: userScan true false rest := by
  rw [userScan]; simp [hc]

theorem userScan_inDouble {c : Nat} (hc : c ≠ dq) (rest : List Nat) :
    userScan false true (c :: rest) = c :: userScan false true rest := by
  rw [userScan]; simp [hc]

theorem userScan_token {c : Nat} (hc : isIdentifierChar c = true) (rest : List Nat) :
    userScan false false (c :: rest) =
      (if EqualFold (c :: rest.takeWhile isIdentifierChar) (ascii "user") = true
        then ascii "\"user\"" else c :: rest.takeWhile isIdentifierChar)
        ++ userScan false false (rest.dropWhile isIdentifierChar) := by
  rw [userScan]
  simp [isIdentifierChar_ne_sq hc, isIdentifierChar_ne_dq hc, hc]

theorem userScan_other {c : Nat} (hc : isIdentifierChar c = false) (h1 : c ≠ sq) (h2 : c ≠ dq)
    (rest : List Nat) :
    userScan false false (c :: rest) = c :: userScan false false rest := by
  rw [userScan]; simp [hc, h1, h2]

theorem userScan_cons_flags (s d : Bool) (c : Nat) (rest : List Nat)
    (h : ¬ (s = false ∧ d = false ∧ isIdentifierChar c = true)) :
    userScan s d (c :: rest) =
      c :: userScan (quoteStep (s, d) c).1 (quoteStep (s, d) c).2 rest := by
  rw [userScan, quoteStep]
  by_cases h1 : c = sq ∧ d = false
  · simp [h1]
  · by_cases h2 : c = dq ∧ s = false
    · simp [h2, dq_ne_sq]
    · by_cases h3 : s = true ∨ d = true
      · simp [h1, h2, h3]
      · have hs : s = false := by simpa using (not_or.1 h3).1
        have hd : d = false := by simpa using (not_or.1 h3).2
        have hc : isIdentifierChar c = false := by
          subst hs; subst hd; simpa using h
        simp [h1, h2, h3, hc]

theorem takeWhile_dropWhile_append (y : List Nat) : ∀ (rest : List Nat) (c : Nat),
    isIdentifierChar c = true → RunBoundary (c :: rest) y →
      (rest ++ y).takeWhile isIdentifierChar = rest.takeWhile isIdentifierChar ∧
      (rest ++ y).dropWhile isIdentifierChar = rest.dropWhile isIdentifierChar ++ y := by
  intro rest
  induction rest with
  | nil =>
    intro c hc hb
    rcases y with _ | ⟨c2, y2⟩
    · simp
    · have : isIdentifierChar c2 ≠ true := fun h2 => hb c c2 rfl rfl ⟨hc, h2⟩
      simp [List.takeWhile_cons_of_neg this, List.dropWhile_cons_of_neg this]
  | cons c2 r ih =>
    intro c _ hb
    by_cases h2 : isIdentifierChar c2 = true
    · have hb2 : RunBoundary (c2 :: r) y := by
        intro a b ha hb'
        exact hb a b (by simpa [List.getLast?_cons_cons] using ha) hb'
      obtain ⟨e1, e2⟩ := ih c2 h2 hb2
      simp [List.takeWhile_cons_of_pos h2, List.dropWhile_cons_of_pos h2, e1, e2]
    · simp [List.takeWhile_cons_of_neg h2, List.dropWhile_cons_of_neg h2]

theorem getLast?_dropWhile (p : Nat → Bool) (l : List Nat) (h : l.dropWhile p ≠ []) :
    (l.dropWhile p).getLast? = l.getLast? := by
  conv_rhs => rw [← List.takeWhile_append_dropWhile p l]
  rw [List.getLast?_append]
  rcases hx : (l.dropWhile p).getLast? with _ | a
  · exact absurd (List.getLast?_eq_none_iff.1 hx) h
  · simp

theorem quoteFlags_append (st : Bool × Bool) (x y : List Nat) :
    quoteFlags st (x ++ y) = quoteFlags (quoteFlags st x) y := by
  simp [quoteFlags, List.foldl_append]

theorem RunBoundary_tail {c : Nat} {rest y : List Nat} (h : RunBoundary (c :: rest) y) :
    RunBoundary rest y := by
  intro a b ha hb
  rcases rest with _ | ⟨c2, r⟩
  · simp at ha
  · exact h a b (by simpa [List.getLast?_cons_cons] using ha) hb

theorem userScan_append : ∀ (k : Nat) (x : List Nat), x.length ≤ k →
    ∀ (y : List Nat) (s d : Bool), RunBoundary x y →
      userScan s d (x ++ y) =
        userScan s d x ++ userScan (quoteFlags (s, d) x).1 (quoteFlags (s, d) x).2 y := by
  intro k
  induction k with
  | zero =>
    intro x hx y s d _
    have : x = [] := List.length_eq_zero.1 (by omega)
    subst this
    simp [userScan_nil, quoteFlags]
  | succ k ih =>
    intro x hx y s d hb
    rcases x with _ | ⟨c, rest⟩
    · simp [userScan_nil, quoteFlags]
    · have hrest : rest.length ≤ k := by simpa using hx
      by_cases htok : s = false ∧ d = false ∧ isIdentifierChar c = true
      · obtain ⟨hs, hd, hc⟩ := htok
        subst hs; subst hd
        obtain ⟨e1, e2⟩ := takeWhile_dropWhile_append y rest c hc hb
        rw [List.cons_append, userScan_token hc, userScan_token hc, e1, e2]
        have hlen : (rest.dropWhile isIdentifierChar).length ≤ k :=
          le_trans (List.dropWhile_suffix _).length_le hrest
        have hb2 : RunBoundary (rest.dropWhile isIdentifierChar) y := by
          intro a b ha hb'
          have hne : rest.dropWhile isIdentifierChar ≠ [] := by
            intro h0; rw [h0] at ha; simp at ha
          rw [getLast?_dropWhile _ _ hne] at ha
          exact RunBoundary_tail hb a b ha hb'
        rw [ih _ hlen y false false hb2, quoteFlags_dropWhile, quoteFlags_cons,
          quoteStep_ident _ hc]
        simp
      · rw [List.cons_append, userScan_cons_flags s d c _ htok,
          userScan_cons_flags s d c _ htok, quoteFlags_cons,
          ih rest hrest y _ _ (RunBoundary_tail hb)]
        simp

theorem userFlagsAtExit_eq (a : List Nat) : userFlagsAtExit a = quoteFlags (false, false) a := by
  simp [userFlagsAtExit, rewriteUserIdentifierLoop_eq a a.length 0 false false [] (by omega)]

theorem userScan_literalBody_single (b : List Nat) : ∀ (k : Nat) (body : List Nat),
    body.length ≤ k → literalBody sq body = true →
      userScan true false (body ++ sq :: b) = body ++ sq :: userScan false false b := by
  intro k
  induction k with
  | zero =>
    intro body hk _
    have : body = [] := List.length_eq_zero.1 (by omega)
    subst this
    simp [userScan_sq]
  | succ k ih =>
    intro body hk hb
    rcases body with _ | ⟨c, _ | ⟨c2, rest⟩⟩
    · simp [userScan_sq]
    · have hc : c ≠ sq := by simpa [literalBody] using hb
      simp [userScan_inSingle hc, userScan_sq]
    · rw [literalBody] at hb
      by_cases hc : c = sq
      · simp only [hc, if_true, Bool.and_eq_true, beq_iff_eq] at hb
        obtain ⟨hc2, hrest⟩ := hb
        subst hc; subst hc2
        have := ih rest (by simp at hk; omega) hrest
        simp [userScan_sq, this]
      · simp only [hc, if_false] at hb
        have := ih (c2 :: rest) (by simp at hk ⊢; omega) hb
        rw [List.cons_append, userScan_inSingle hc, this]
        simp

theorem userScan_literalBody_double (b : List Nat) : ∀ (k : Nat) (body : List Nat),
    body.length ≤ k → literalBody dq body = true →
      userScan false true (body ++ dq :: b) = body ++ dq :: userScan false false b := by
  intro k
  induction k with
  | zero =>
    intro body hk _
    have : body = [] := List.length_eq_zero.1 (by omega)
    subst this
    simp [userScan_dq]
  | succ k ih =>
    intro body hk hb
    rcases body with _ | ⟨c, _ | ⟨c2, rest⟩⟩
    · simp [userScan_dq]
    · have hc : c ≠ dq := by simpa [literalBody] using hb
      simp [userScan_inDouble hc, userScan_dq]
    · rw [literalBody] at hb
      by_cases hc : c = dq
      · simp only [hc, if_true, Bool.and_eq_true, beq_iff_eq] at hb
        obtain ⟨hc2, hrest⟩ := hb
        subst hc; subst hc2
        have := ih rest (by simp at hk; omega) hrest
        simp [userScan_dq, this]
      · simp only [hc, if_false] at hb
        have := ih (c2 :: rest) (by simp at hk ⊢; omega) hb
        rw [List.cons_append, userScan_inDouble hc, this]
        simp

theorem userScan_literal {l : List Nat} (h : IsLiteral sq l ∨ IsLiteral dq l) (b : List Nat) :
    userScan false false (l ++ b) = l ++ userScan false false b := by
  rcases h with ⟨body, rfl, hb⟩ | ⟨body, rfl, hb⟩
  · have := userScan_literalBody_single b body.length body (le_refl _) hb
    simp [userScan_sq, this]
  · have := userScan_literalBody_double b body.length body (le_refl _) hb
    simp [userScan_dq, this]

theorem RunBoundary_of_head {x y : List Nat}
    (h : ∀ c, y.head? = some c → isIdentifierChar c = false) : RunBoundary x y := by
  intro a b _ hb hab
  have := h b hb
  rw [this] at hab
  exact absurd hab.2 (by decide)

theorem RunBoundary_of_last {x y : List Nat}
    (h : ∀ c, x.getLast? = some c → isIdentifierChar c = false) : RunBoundary x y := by
  intro a b ha _ hab
  have := h a ha
  rw [this] at hab
  exact absurd hab.1 (by decide)

theorem head?_literal_append {l : List Nat} (h : IsLiteral sq l ∨ IsLiteral dq l) (b : List Nat) :
    ∀ c, (l ++ b).head? = some c → isIdentifierChar c = false := by
  intro c hc
  rcases h with ⟨body, rfl, _⟩ | ⟨body, rfl, _⟩
  · simp at hc; subst hc; decide
  · simp at hc; subst hc; decide

theorem userScan_run {t : List Nat} (ht : ∀ c ∈ t, isIdentifierChar c = true)
    (hu : equalsIgnoreCase t (ascii "user") = false) : userScan false false t = t := by
  rcases t with _ | ⟨c, rest⟩
  · exact userScan_nil _ _
  · have hc : isIdentifierChar c = true := ht c (by simp)
    have hr : ∀ x ∈ rest, isIdentifierChar x = true := fun x hx => ht x (by simp [hx])
    rw [userScan_token hc, List.takeWhile_eq_self_iff.2 hr, List.dropWhile_eq_nil_iff.2 hr,
      EqualFold_user, hu, userScan_nil]
    simp

theorem quoteFlags_run (st : Bool × Bool) {t : List Nat}
    (ht : ∀ c ∈ t, isIdentifierChar c = true) : quoteFlags st t = st := by
  rw [← quoteFlags_dropWhile, List.dropWhile_eq_nil_iff.2 ht]
  rfl

theorem quoteUserToken_single (c : Nat) : quoteUserToken [c] = [c] := by
  have : equalsIgnoreCase [c] (ascii "user") = false := by
    simp [equalsIgnoreCase, ascii_user]
  simp [quoteUserToken, this]

theorem userScan_tokens : ∀ (k : Nat) (q : List Nat), q.length ≤ k → sq ∉ q → dq ∉ q →
    ∃ toks : List (List Nat), toks.flatten = q ∧ (∀ t ∈ toks, IsToken t) ∧
      toks.Chain' (fun a b => ¬ (IsIdentifierRun a ∧ IsIdentifierRun b)) ∧
      userScan false false q = (toks.map quoteUserToken).flatten ∧
      (∀ t, toks.head? = some t → t.head? = q.head?) := by
  intro k
  induction k with
  | zero =>
    intro q hq _ _
    have : q = [] := List.length_eq_zero.1 (by omega)
    subst this
    exact ⟨[], rfl, by simp, List.chain'_nil, by simp [userScan_nil], by simp⟩
  | succ k ih =>
    intro q hq h1 h2
    rcases q with _ | ⟨c, rest⟩
    · exact ⟨[], rfl, by simp, List.chain'_nil, by simp [userScan_nil], by simp⟩
    · have hc1 : c ≠ sq := fun h => h1 (by simp [h])
      have hc2 : c ≠ dq := fun h => h2 (by simp [h])
      have hr1 : sq ∉ rest := fun h => h1 (by simp [h])
      have hr2 : dq ∉ rest := fun h => h2 (by simp [h])
      have hlen : rest.length ≤ k := by simpa using hq
      by_cases hc : isIdentifierChar c = true
      · have hsuf := List.dropWhile_suffix (l := rest) isIdentifierChar
        obtain ⟨toks, hflat, htok, hchain, hscan, hhead⟩ :=
          ih (rest.dropWhile isIdentifierChar) (le_trans hsuf.length_le hlen)
            (fun h => hr1 (hsuf.subset h)) (fun h => hr2 (hsuf.subset h))
        have hrun : IsIdentifierRun (c :: rest.takeWhile isIdentifierChar) := by
          refine ⟨by simp, ?_⟩
          intro x hx
          rcases List.mem_cons.1 hx with hx | hx
          · rw [hx]; exact hc
          · exact List.mem_takeWhile_imp hx
        refine ⟨(c :: rest.takeWhile isIdentifierChar) :: toks, ?_, ?_, ?_, ?_, ?_⟩
        · simp [hflat, List.takeWhile_append_dropWhile]
        · intro t ht
          rcases List.mem_cons.1 ht with ht | ht
          · rw [ht]; exact Or.inl hrun
          · exact htok t ht
        · rw [List.chain'_cons']
          refine ⟨?_, hchain⟩
          intro t ht hboth
          have hth := hhead t ht
          obtain ⟨hne, hall⟩ := hboth.2
          rcases t with _ | ⟨x, t2⟩
          · exact hne rfl
          · have hx : isIdentifierChar x = true := hall x (by simp)
            have hnot := List.head?_dropWhile_not isIdentifierChar rest
            rw [← hth] at hnot
            simp at hnot
            rw [hnot] at hx
            exact absurd hx (by decide)
        · rw [userScan_token hc, hscan, EqualFold_user]
          simp [quoteUserToken]
        · intro t ht
          simp at ht
          subst ht
          simp
      · have hcf : isIdentifierChar c = false := by simpa using hc
        obtain ⟨toks, hflat, htok, hchain, hscan, hhead⟩ := ih rest hlen hr1 hr2
        refine ⟨[c] :: toks, ?_, ?_, ?_, ?_, ?_⟩
        · simp [hflat]
        · intro t ht
          rcases List.mem_cons.1 ht with ht | ht
          · rw [ht]; exact Or.inr ⟨c, rfl, hcf⟩
          · exact htok t ht
        · rw [List.chain'_cons']
          refine ⟨?_, hchain⟩
          intro t _ hboth
          have := hboth.1.2 c (by simp)
          rw [hcf] at this
          exact absurd this (by decide)
        · rw [userScan_other hcf hc1 hc2, hscan]
          simp [quoteUserToken_single]
        · intro t ht
          simp at ht
          subst ht
          simp

/-! ## Pass 2 on ASCII text -/

theorem ToUpper_ascii (up : Nat → Nat) {q : List Nat} (h : ∀ c ∈ q, c < 128) :
    ToUpper up q = q.map upperByte := by
  have hall : (q.all fun c => decide (c < RuneSelf)) = true := by
    simpa [RuneSelf] using h
  rw [ToUpper, hall]
  simp only [if_true]
  split_ifs with hany
  · rfl
  · have : ∀ c ∈ q, upperByte c = c := by
      intro c hc
      simp only [List.any_eq_true, not_exists, not_and, Bool.and_eq_true, decide_eq_true_eq] at hany
      have := hany c hc
      unfold upperByte
      split_ifs with hh
      · exact absurd hh.2 (this hh.1)
      · rfl
    exact (List.map_congr_left this).trans (List.map_id' q) |>.symm

theorem lowerByte_upperByte (c : Nat) : lowerByte (upperByte c) = lowerByte c := by
  unfold lowerByte upperByte; split_ifs <;> omega

theorem upperByte_lowerByte (c : Nat) : upperByte (lowerByte c) = upperByte c := by
  unfold lowerByte upperByte; split_ifs <;> omega

theorem map_lower_eq_iff_map_upper_eq (a b : List Nat) :
    a.map lowerByte = b.map lowerByte ↔ a.map upperByte = b.map upperByte := by
  constructor
  · intro h
    have := congrArg (List.map upperByte) h
    have e : upperByte ∘ lowerByte = upperByte := funext upperByte_lowerByte
    simpa [List.map_map, e] using this
  · intro h
    have := congrArg (List.map lowerByte) h
    have e : lowerByte ∘ upperByte = lowerByte := funext lowerByte_upperByte
    simpa [List.map_map, e] using this

theorem isPrefixOf_upper (phrase : List Nat) (hp : phrase.map upperByte = phrase) (l : List Nat) :
    phrase.isPrefixOf (l.map upperByte) = equalsIgnoreCase (l.take phrase.length) phrase := by
  rw [Bool.eq_iff_iff, List.isPrefixOf_iff_prefix, List.prefix_iff_eq_take, equalsIgnoreCase,
    beq_iff_eq, map_lower_eq_iff_map_upper_eq, hp, List.map_take]
  exact eq_comm

theorem indexFrom_upper (phrase : List Nat) (hp : phrase.map upperByte = phrase) :
    ∀ (l : List Nat) (i : Nat),
      match splitAtFirstOccurrence phrase l with
      | none => indexFrom phrase (l.map upperByte) i = none
      | some (p, s) => indexFrom phrase (l.map upperByte) i = some (i + p.length) ∧
          l.take p.length = p ∧ l.drop (p.length + phrase.length) = s ∧
          p.length + phrase.length ≤ l.length := by
  intro l
  induction l with
  | nil =>
    intro i
    rcases phrase with _ | ⟨x, xs⟩
    · simp [splitAtFirstOccurrence, indexFrom]
    · simp [splitAtFirstOccurrence, indexFrom]
  | cons c t ih =>
    intro i
    rw [splitAtFirstOccurrence, List.map_cons, indexFrom, ← List.map_cons,
      isPrefixOf_upper phrase hp]
    by_cases h : equalsIgnoreCase ((c :: t).take phrase.length) phrase = true
    · simp only [h, if_true]
      refine ⟨by simp, by simp, by simp, ?_⟩
      have := congrArg List.length (beq_iff_eq.1 h)
      simp only [List.length_map, List.length_take] at this
      simp only [List.length_nil, Nat.zero_add]
      omega
    · simp only [h, Bool.false_eq_true, if_false]
      have := ih (i + 1)
      rcases hs : splitAtFirstOccurrence phrase t with _ | ⟨p, s⟩
      · rw [hs] at this
        simpa using this
      · rw [hs] at this
        obtain ⟨e1, e2, e3, e4⟩ := this
        simp only [Option.map_some']
        refine ⟨by rw [e1]; simp; omega, by simp [e2], ?_, by simp; omega⟩
        simp only [List.length_cons]
        rw [show p.length + 1 + phrase.length = (p.length + phrase.length) + 1 by omega,
          List.drop_succ_cons, e3]

theorem ascii_phrase_upper :
    (ascii "INSERT OR IGNORE INTO").map upperByte = ascii "INSERT OR IGNORE INTO" := by decide

theorem rewriteInsertOrIgnore_ascii (up : Nat → Nat) {q : List Nat} (h : ∀ c ∈ q, c < 128) :
    rewriteInsertOrIgnore up q = some (rewriteInsertOrIgnoreRef trimCutset q) := by
  have hidx := indexFrom_upper _ ascii_phrase_upper q 0
  rw [rewriteInsertOrIgnore, rewriteInsertOrIgnoreRef]
  simp only [ToUpper_ascii up h, Index]
  rcases hs : splitAtFirstOccurrence (ascii "INSERT OR IGNORE INTO") q with _ | ⟨p, s⟩
  · rw [hs] at hidx
    simp only [hidx]
  · rw [hs] at hidx
    obtain ⟨e1, e2, e3, e4⟩ := hidx
    simp only [e1, Nat.zero_add, e4, if_true, e2, e3]
    rfl

theorem splitAtFirstOccurrence_isSome (phrase : List Nat) (hne : phrase ≠ []) :
    ∀ (p m s : List Nat), equalsIgnoreCase m phrase = true →
      (splitAtFirstOccurrence phrase (p ++ m ++ s)).isSome = true := by
  intro p
  induction p with
  | nil =>
    intro m s hm
    have hlen : m.length = phrase.length := by
      have := congrArg List.length (beq_iff_eq.1 hm)
      simpa using this
    rcases m with _ | ⟨c, m2⟩
    · exact absurd (List.length_eq_zero.1 hlen.symm) hne
    · have ht : ((c :: m2) ++ s).take phrase.length = c :: m2 := by
        rw [← hlen]; exact List.take_left' rfl
      simp only [List.nil_append]
      rw [List.cons_append, splitAtFirstOccurrence, ← List.cons_append, ht, hm]
      simp
  | cons c t ih =>
    intro m s hm
    rw [List.cons_append, List.cons_append, splitAtFirstOccurrence]
    split_ifs
    · simp
    · have := ih m s hm
      rw [Option.isSome_iff_exists] at this
      obtain ⟨r, hr⟩ := this
      rw [List.append_assoc] at hr
      simp [hr]

theorem stripTrailing_shape (strip l : List Nat) (x : Nat) (hx : x ∈ l)
    (hs : strip.contains x = false) :
    ∃ t c, stripTrailing strip l = t ++ [c] ∧ strip.contains c = false := by
  have hne : l.rdropWhile (fun c => strip.contains c) ≠ [] := by
    intro h0
    have := List.rdropWhile_eq_nil_iff.1 h0 x hx
    simp only at this
    rw [hs] at this
    exact absurd this (by decide)
  refine ⟨(l.rdropWhile (fun c => strip.contains c)).dropLast,
    (l.rdropWhile (fun c => strip.contains c)).getLast hne, ?_, ?_⟩
  · rw [List.dropLast_append_getLast]; rfl
  · have := List.rdropWhile_last_not (fun c => strip.contains c) l hne
    simpa using this

/-! ## Quotes and question marks through passes 1 and 2 -/

theorem quoteSkeleton_append (x y : List Nat) :
    quoteSkeleton (x ++ y) = quoteSkeleton x ++ quoteSkeleton y := by
  simp [quoteSkeleton]

theorem quoteSkeleton_eq_nil {l : List Nat} (h : ∀ c ∈ l, c ≠ sq ∧ c ≠ qm) :
    quoteSkeleton l = [] := by
  rw [quoteSkeleton, List.filter_eq_nil_iff]
  intro c hc
  have := h c hc
  simp [this.1, this.2]

theorem isIdentifierChar_ne_qm {c : Nat} (h : isIdentifierChar c = true) : c ≠ qm := by
  intro hc; subst hc; revert h; decide

theorem quoteSkeleton_userScan : ∀ (k : Nat) (l : List Nat), l.length ≤ k → ∀ (s d : Bool),
    quoteSkeleton (userScan s d l) = quoteSkeleton l := by
  intro k
  induction k with
  | zero =>
    intro l hl s d
    have : l = [] := List.length_eq_zero.1 (by omega)
    subst this
    rw [userScan_nil]
  | succ k ih =>
    intro l hl s d
    rcases l with _ | ⟨c, rest⟩
    · rw [userScan_nil]
    · have hrest : rest.length ≤ k := by simpa using hl
      by_cases htok : s = false ∧ d = false ∧ isIdentifierChar c = true
      · obtain ⟨hs, hd, hc⟩ := htok
        subst hs; subst hd
        have hlen : (rest.dropWhile isIdentifierChar).length ≤ k :=
          le_trans (List.dropWhile_suffix _).length_le hrest
        have hrun : ∀ x ∈ c :: rest.takeWhile isIdentifierChar, x ≠ sq ∧ x ≠ qm := by
          intro x hx
          have hxi : isIdentifierChar x = true := by
            rcases List.mem_cons.1 hx with hx | hx
            · rw [hx]; exact hc
            · exact List.mem_takeWhile_imp hx
          exact ⟨isIdentifierChar_ne_sq hxi, isIdentifierChar_ne_qm hxi⟩
        have hq : quoteSkeleton (ascii "\"user\"") = [] := by decide
        rw [userScan_token hc, quoteSkeleton_append, ih _ hlen]
        conv_rhs => rw [← List.takeWhile_append_dropWhile isIdentifierChar rest,
          ← List.cons_append, quoteSkeleton_append, quoteSkeleton_eq_nil hrun]
        split_ifs
        · rw [hq]
        · rw [quoteSkeleton_eq_nil hrun]
      · rw [userScan_cons_flags s d c _ htok]
        simp only [quoteSkeleton, List.filter_cons]
        have := ih rest hrest (quoteStep (s, d) c).1 (quoteStep (s, d) c).2
        simp only [quoteSkeleton] at this
        rw [this]

theorem userScan_ascii : ∀ (k : Nat) (l : List Nat), l.length ≤ k → (∀ c ∈ l, c < 128) →
    ∀ (s d : Bool), ∀ c ∈ userScan s d l, c < 128 := by
  intro k
  induction k with
  | zero =>
    intro l hl _ s d
    have : l = [] := List.length_eq_zero.1 (by omega)
    subst this
    simp [userScan_nil]
  | succ k ih =>
    intro l hl ha s d
    rcases l with _ | ⟨c, rest⟩
    · simp [userScan_nil]
    · have hrest : rest.length ≤ k := by simpa using hl
      have hc0 : c < 128 := ha c (by simp)
      have har : ∀ x ∈ rest, x < 128 := fun x hx => ha x (by simp [hx])
      by_cases htok : s = false ∧ d = false ∧ isIdentifierChar c = true
      · obtain ⟨hs, hd, hc⟩ := htok
        subst hs; subst hd
        have hsuf := List.dropWhile_suffix (l := rest) isIdentifierChar
        have hlen : (rest.dropWhile isIdentifierChar).length ≤ k :=
          le_trans hsuf.length_le hrest
        have hu : ∀ x ∈ ascii "\"user\"", x < 128 := by decide
        rw [userScan_token hc]
        intro x hx
        rcases List.mem_append.1 hx with hx | hx
        · split_ifs at hx
          · exact hu x hx
          · rcases List.mem_cons.1 hx with hx | hx
            · rw [hx]; exact hc0
            · exact har x ((List.takeWhile_prefix _).subset hx)
        · exact ih _ hlen (fun y hy => har y (hsuf.subset hy)) false false x hx
      · rw [userScan_cons_flags s d c _ htok]
        intro x hx
        rcases List.mem_cons.1 hx with hx | hx
        · rw [hx]; exact hc0
        · exact ih rest hrest har _ _ x hx

theorem splitAtFirstOccurrence_eq_some (phrase : List Nat) :
    ∀ (l p s : List Nat), splitAtFirstOccurrence phrase l = some (p, s) →
      ∃ m, l = p ++ m ++ s ∧ equalsIgnoreCase m phrase = true := by
  intro l
  induction l with
  | nil =>
    intro p s h
    rcases phrase with _ | ⟨x, xs⟩
    · simp [splitAtFirstOccurrence] at h
      obtain ⟨rfl, rfl⟩ := h
      exact ⟨[], rfl, by decide⟩
    · simp [splitAtFirstOccurrence] at h
  | cons c t ih =>
    intro p s h
    rw [splitAtFirstOccurrence] at h
    split_ifs at h with hc
    · simp only [Option.some.injEq, Prod.mk.injEq] at h
      obtain ⟨rfl, rfl⟩ := h
      exact ⟨(c :: t).take phrase.length, by simp, hc⟩
    · rcases hs : splitAtFirstOccurrence phrase t with _ | ⟨p2, s2⟩
      · rw [hs] at h; simp at h
      · rw [hs] at h
        simp only [Option.map_some', Option.some.injEq, Prod.mk.injEq] at h
        obtain ⟨rfl, rfl⟩ := h
        obtain ⟨m, hm, hmm⟩ := ih p2 s2 hs
        exact ⟨m, by rw [hm]; simp, hmm⟩

theorem quoteSkeleton_phrase {m : List Nat}
    (h : equalsIgnoreCase m (ascii "INSERT OR IGNORE INTO") = true) : quoteSkeleton m = [] := by
  apply quoteSkeleton_eq_nil
  intro c hc
  have hmap := beq_iff_eq.1 h
  have hmem : lowerByte c ∈ (ascii "INSERT OR IGNORE INTO").map lowerByte := by
    rw [← hmap]; exact List.mem_map_of_mem _ hc
  constructor
  · intro h0; subst h0; revert hmem; decide
  · intro h0; subst h0; revert hmem; decide

theorem filter_dropWhile_of_disjoint (p f : Nat → Bool) (hpf : ∀ x, p x = true → f x = false) :
    ∀ l : List Nat, (l.dropWhile p).filter f = l.filter f := by
  intro l
  induction l with
  | nil => rfl
  | cons c t ih =>
    by_cases h : p c = true
    · rw [List.dropWhile_cons_of_pos h, ih, List.filter_cons, hpf c h]
      simp
    · rw [List.dropWhile_cons_of_neg h]

theorem quoteSkeleton_stripTrailing (l : List Nat) :
    quoteSkeleton (stripTrailing trimCutset l) = quoteSkeleton l := by
  have hpf : ∀ x, trimCutset.contains x = true → (x == sq || x == qm) = false := by
    intro x hx
    have : x = 59 ∨ x = 32 ∨ x = 9 ∨ x = 10 := by simpa [trimCutset] using hx
    rcases this with h | h | h | h <;> subst h <;> decide
  rw [quoteSkeleton, stripTrailing, List.filter_reverse,
    filter_dropWhile_of_disjoint _ _ hpf, ← List.filter_reverse, List.reverse_reverse]
  rfl

theorem quoteSkeleton_rewriteInsertOrIgnoreRef (q : List Nat) :
    quoteSkeleton (rewriteInsertOrIgnoreRef trimCutset q) = quoteSkeleton q := by
  rw [rewriteInsertOrIgnoreRef]
  rcases hs : splitAtFirstOccurrence (ascii "INSERT OR IGNORE INTO") q with _ | ⟨p, s⟩
  · rfl
  · obtain ⟨m, hq, hm⟩ := splitAtFirstOccurrence_eq_some _ q p s hs
    have h1 : quoteSkeleton (ascii "INSERT INTO") = [] := by decide
    have h2 : quoteSkeleton (ascii " ON CONFLICT DO NOTHING") = [] := by decide
    simp only [quoteSkeleton_append, quoteSkeleton_stripTrailing, h1, h2, hq,
      quoteSkeleton_phrase hm, List.append_nil]

theorem placeholderScan_exit_skeleton : ∀ (l : List Nat) (n : Nat) (s : Bool),
    (placeholderScan n s l).2 = (placeholderScan n s (quoteSkeleton l)).2 := by
  intro l
  induction l with
  | nil => intro n s; rfl
  | cons c t ih =>
    intro n s
    rw [placeholderScan, quoteSkeleton, List.filter_cons]
    by_cases h1 : c = sq
    · subst h1
      simp only [if_true, beq_self_eq_true, Bool.true_or]
      rw [placeholderScan]
      simp only [if_true]
      exact ih n (!s)
    · by_cases h2 : c = qm
      · subst h2
        simp only [qm_ne_sq, if_false, beq_self_eq_true, Bool.or_true, if_true, true_and]
        rw [placeholderScan]
        simp only [qm_ne_sq, if_false, true_and]
        split_ifs
        · exact ih (n + 1) s
        · exact ih n s
      · have hb : (c == sq || c == qm) = false := by simp [h1, h2]
        simp only [h1, h2, if_false, false_and, hb, Bool.false_eq_true]
        exact ih n s

/-- On an ASCII query the Postgres rewrite returns a result: the reference
renumbering of the text `q2` left by passes 1 and 2, and `q2` has the single
quotes and question marks of the query, in the same order, so that pass 3 counts
for `q2` exactly the placeholders it would count for the query itself. -/
theorem rewriteQuery_postgres_ascii (upperCase : Nat → Nat) (q : List Nat)
    (h : ∀ c ∈ q, c < 128) :
    ∃ q2, rewriteInsertOrIgnore upperCase (rewriteUserIdentifier q) = some q2 ∧
      rewriteQuery upperCase DialectPostgres q = some (rewritePlaceholdersRef q2) ∧
      quoteSkeleton q2 = quoteSkeleton q ∧
      placeholdersAtExit q2 = placeholdersAtExit q := by
  have ha : ∀ c ∈ rewriteUserIdentifier q, c < 128 := by
    rw [rewriteUserIdentifier_eq_scan]
    exact userScan_ascii q.length q (le_refl _) h false false
  have hsk : quoteSkeleton (rewriteInsertOrIgnoreRef trimCutset (rewriteUserIdentifier q)) =
      quoteSkeleton q := by
    rw [quoteSkeleton_rewriteInsertOrIgnoreRef, rewriteUserIdentifier_eq_scan,
      quoteSkeleton_userScan q.length q (le_refl _)]
  refine ⟨rewriteInsertOrIgnoreRef trimCutset (rewriteUserIdentifier q),
    rewriteInsertOrIgnore_ascii upperCase ha, ?_, hsk, ?_⟩
  · simp only [rewriteQuery, rewriteInsertOrIgnore_ascii upperCase ha]
    rw [rewritePlaceholders_eq_scan, rewritePlaceholdersRef,
      placeholderScan_eq_ref _ 1 false (le_refl _)]
    simp [DialectPostgres]
  · rw [placeholdersAtExit_eq, placeholdersAtExit_eq, placeholderScan_exit_skeleton, hsk,
      ← placeholderScan_exit_skeleton]

/-! ## The handles `DB` and `Tx`, and `New` -/

theorem TrimRight_eq_stripTrailing (s strip : List Nat) :
    TrimRight s strip = stripTrailing strip s := rfl

theorem DB_ExecReturningID_postgres {σ α ε H T Res Rows Row : Type} (upperCase : Nat → Nat)
    (ops : SqlOps σ α ε H T Res Rows Row) (h : H) (q : List Nat) (args : List α) (s : σ) :
    DB.ExecReturningID upperCase ops (Wrap (some h) DialectPostgres) q args s =
      (rewriteQuery upperCase DialectPostgres q).map (fun t =>
        scanOutcome ops
          (ops.dbQueryRow h (stripTrailing trimCutset t ++ ascii " RETURNING id") args s)) := by
  simp only [DB.ExecReturningID, Wrap, DB.rewrite]
  rcases rewriteQuery upperCase DialectPostgres q with _ | t
  · rfl
  · simp only [if_true, Option.map_some', scanOutcome, TrimRight_eq_stripTrailing]
    rcases hr : ops.rowScan
        (ops.dbQueryRow h (stripTrailing trimCutset t ++ ascii " RETURNING id") args s).1
        (ops.dbQueryRow h (stripTrailing trimCutset t ++ ascii " RETURNING id") args s).2
      with ⟨⟨id, _ | err⟩, s2⟩ <;> simp [hr]

theorem Tx_ExecReturningID_postgres {σ α ε H T Res Rows Row : Type} (upperCase : Nat → Nat)
    (ops : SqlOps σ α ε H T Res Rows Row) (t : T) (q : List Nat) (args : List α) (s : σ) :
    Tx.ExecReturningID upperCase ops (some (Tx.mk (some t) DialectPostgres)) q args s =
      (rewriteQuery upperCase DialectPostgres q).map (fun text =>
        scanOutcome ops
          (ops.txQueryRow t (stripTrailing trimCutset text ++ ascii " RETURNING id") args s)) := by
  simp only [Tx.ExecReturningID]
  rcases rewriteQuery upperCase DialectPostgres q with _ | text
  · rfl
  · simp only [if_true, Option.map_some', scanOutcome, TrimRight_eq_stripTrailing]
    rcases hr : ops.rowScan
        (ops.txQueryRow t (stripTrailing trimCutset text ++ ascii " RETURNING id") args s).1
        (ops.txQueryRow t (stripTrailing trimCutset text ++ ascii " RETURNING id") args s).2
      with ⟨⟨id, _ | err⟩, s2⟩ <;> simp [hr]

theorem rewriteQuery_scenario5 (upperCase : Nat → Nat) :
    rewriteQuery upperCase DialectPostgres (ascii "INSERT INTO node(name) VALUES(?)") =
      some (ascii "INSERT INTO node(name) VALUES($1)") := by
  have e1 : rewriteUserIdentifier (ascii "INSERT INTO node(name) VALUES(?)") =
      ascii "INSERT INTO node(name) VALUES(?)" := by decide
  have e2 : rewriteInsertOrIgnore upperCase (ascii "INSERT INTO node(name) VALUES(?)") =
      some (rewriteInsertOrIgnoreRef trimCutset (ascii "INSERT INTO node(name) VALUES(?)")) :=
    rewriteInsertOrIgnore_ascii upperCase (by decide)
  simp only [rewriteQuery, e1, e2]
  decide

theorem scanOutcome_spec {σ α ε H T Res Rows Row : Type} (ops : SqlOps σ α ε H T Res Rows Row)
    (r : Row × σ) :
    (scanOutcome ops r).1.2 = (ops.rowScan r.1 r.2).1.2 ∧
    ((ops.rowScan r.1 r.2).1.2 = none → (scanOutcome ops r).1.1 = (ops.rowScan r.1 r.2).1.1) ∧
    ((ops.rowScan r.1 r.2).1.2 ≠ none → (scanOutcome ops r).1.1 = 0) ∧
    (scanOutcome ops r).2 = (ops.rowScan r.1 r.2).2 := by
  unfold scanOutcome
  rcases hr : ops.rowScan r.1 r.2 with ⟨⟨id, _ | err⟩, s2⟩ <;> simp


theorem ToLower_ascii (lowerCase : Nat → Nat) {q : List Nat} (h : ∀ c ∈ q, c < 128) :
    ToLower lowerCase q = q.map lowerByte := by
  have hall : (q.all fun c => decide (c < RuneSelf)) = true := by
    simpa [RuneSelf] using h
  rw [ToLower, hall]
  simp only [if_true]
  split_ifs with hany
  · rfl
  · have : ∀ c ∈ q, lowerByte c = c := by
      intro c hc
      simp only [List.any_eq_true, not_exists, not_and, Bool.and_eq_true, decide_eq_true_eq] at hany
      have := hany c hc
      unfold lowerByte
      split_ifs with hh
      · exact absurd hh.2 (this hh.1)
      · rfl
    exact ((List.map_congr_left this).trans (List.map_id' q)).symm

theorem trimSpaceStop_ascii (g : List Nat → List Nat) : ∀ (r : List Nat), (∀ c ∈ r, c < 128) →
    trimSpaceStop g r = (r.dropWhile asciiSpace).reverse := by
  intro r
  induction r with
  | nil => intro _; rfl
  | cons c t ih =>
    intro h
    have hc : ¬ RuneSelf ≤ c := by
      have := h c (by simp); unfold RuneSelf; omega
    rw [trimSpaceStop]
    simp only [hc, if_false]
    by_cases hs : asciiSpace c = true
    · simp only [hs, if_true]
      rw [ih (fun x hx => h x (by simp [hx])), List.dropWhile_cons_of_pos hs]
    · simp only [hs, Bool.false_eq_true, if_false]
      rw [List.dropWhile_cons_of_neg hs]

theorem TrimSpace_ascii (f g : List Nat → List Nat) : ∀ (x : List Nat), (∀ c ∈ x, c < 128) →
    TrimSpace f g x = trimAsciiSpace x := by
  intro x
  induction x with
  | nil => intro _; rfl
  | cons c t ih =>
    intro h
    have hc : ¬ RuneSelf ≤ c := by
      have := h c (by simp); unfold RuneSelf; omega
    rw [TrimSpace]
    simp only [hc, if_false]
    by_cases hs : asciiSpace c = true
    · simp only [hs, if_true]
      rw [ih (fun x hx => h x (by simp [hx])), trimAsciiSpace, trimAsciiSpace,
        List.dropWhile_cons_of_pos hs]
    · simp only [hs, Bool.false_eq_true, if_false]
      rw [trimSpaceStop_ascii g _ (fun x hx => h x (List.mem_reverse.1 hx)), trimAsciiSpace,
        List.dropWhile_cons_of_neg hs]

theorem trimAsciiSpace_ascii {x : List Nat} (h : ∀ c ∈ x, c < 128) :
    ∀ c ∈ trimAsciiSpace x, c < 128 := by
  intro c hc
  have h1 : c ∈ (x.dropWhile asciiSpace).reverse.dropWhile asciiSpace := by
    simpa [trimAsciiSpace] using hc
  have h2 := (List.dropWhile_suffix asciiSpace).subset h1
  have h3 := (List.dropWhile_suffix asciiSpace).subset (List.mem_reverse.1 h2)
  exact h c h3

theorem normalizedDBType_ascii (uni : UnicodeOps) {x : List Nat} (h : ∀ c ∈ x, c < 128) :
    normalizedDBType uni x = (trimAsciiSpace x).map lowerByte := by
  rw [normalizedDBType, TrimSpace_ascii _ _ x h, ToLower_ascii _ (trimAsciiSpace_ascii h)]

theorem New_unsupported {σ ε R : Type} (uni : UnicodeOps)
    (repoOpen repoOpenPostgres : List Nat → σ → (Option R × Option ε) × σ)
    (cfg : Config) (s : σ)
    (h : normalizedDBType uni cfg.DBType ∉
      [ascii "", ascii "sqlite", ascii "postgres", ascii "postgresql"]) :
    New uni repoOpen repoOpenPostgres cfg s =
      ((none, some (NewError.unsupportedDBType cfg.DBType)), s) := by
  simp only [List.mem_cons, List.mem_singleton, List.not_mem_nil, or_false, not_or] at h
  obtain ⟨h1, h2, h3, h4⟩ := h
  unfold normalizedDBType at h1 h2 h3 h4
  simp only [New, h1, h2, h3, h4, or_self, if_false]

theorem New_sqlite {σ ε R : Type} (uni : UnicodeOps)
    (repoOpen repoOpenPostgres : List Nat → σ → (Option R × Option ε) × σ)
    (cfg : Config) (s : σ)
    (h : normalizedDBType uni cfg.DBType = ascii "" ∨
      normalizedDBType uni cfg.DBType = ascii "sqlite") :
    New uni repoOpen repoOpenPostgres cfg s =
      openOutcome NewError.openSqlite cfg (repoOpen cfg.DBPath s) := by
  unfold normalizedDBType at h
  simp only [New, h, if_true, openOutcome]

theorem New_postgres {σ ε R : Type} (uni : UnicodeOps)
    (repoOpen repoOpenPostgres : List Nat → σ → (Option R × Option ε) × σ)
    (cfg : Config) (s : σ)
    (h : normalizedDBType uni cfg.DBType = ascii "postgres" ∨
      normalizedDBType uni cfg.DBType = ascii "postgresql") :
    New uni repoOpen repoOpenPostgres cfg s =
      openOutcome NewError.openPostgres cfg (repoOpenPostgres cfg.DatabaseURL s) := by
  have hn : ¬ (normalizedDBType uni cfg.DBType = ascii "" ∨
      normalizedDBType uni cfg.DBType = ascii "sqlite") := by
    rcases h with h | h <;> rw [h] <;> decide
  unfold normalizedDBType at h hn
  simp only [New, h, hn, if_true, if_false, openOutcome]

theorem openOutcome_not_unsupported {σ ε R : Type} (wrap : ε → NewError ε)
    (hw : ∀ e x, wrap e ≠ NewError.unsupportedDBType x) (cfg : Config)
    (r : (Option R × Option ε) × σ) (x : List Nat) :
    (openOutcome wrap cfg r).1.2 ≠ some (NewError.unsupportedDBType x) := by
  rcases r with ⟨⟨repo, _ | e⟩, s1⟩
  · simp [openOutcome]
  · simp only [openOutcome, ne_eq, Option.some.injEq]
    exact hw e x

/-! ## Escapes, unterminated literals, idempotence -/

theorem literalBody_append (quote : Nat) (z : List Nat) : ∀ (k : Nat) (x : List Nat),
    x.length ≤ k → literalBody quote x = true →
      literalBody quote (x ++ z) = literalBody quote z := by
  intro k
  induction k with
  | zero =>
    intro x hk _
    have : x = [] := List.length_eq_zero.1 (by omega)
    subst this; rfl
  | succ k ih =>
    intro x hk hx
    rcases x with _ | ⟨c, _ | ⟨c2, rest⟩⟩
    · rfl
    · have hc : c ≠ quote := by simpa [literalBody] using hx
      rcases z with _ | ⟨z1, z2⟩
      · simp [literalBody, hc]
      · simp [literalBody, hc]
    · rw [literalBody] at hx
      by_cases hc : c = quote
      · simp only [hc, if_true, Bool.and_eq_true, beq_iff_eq] at hx
        obtain ⟨hc2, hrest⟩ := hx
        have := ih rest (by simp at hk; omega) hrest
        rw [List.cons_append, List.cons_append, literalBody]
        simp [hc, hc2, this]
      · simp only [hc, if_false] at hx
        have := ih (c2 :: rest) (by simp at hk ⊢; omega) hx
        rw [List.cons_append, List.cons_append, literalBody]
        simp only [hc, if_false]
        exact this

theorem isLiteral_with_escape (quote : Nat) {x y : List Nat}
    (hx : literalBody quote x = true) (hy : literalBody quote y = true) :
    IsLiteral quote (quote :: (x ++ [quote, quote] ++ y ++ [quote])) := by
  refine ⟨x ++ [quote, quote] ++ y, by simp, ?_⟩
  rw [List.append_assoc, literalBody_append quote _ x.length x (le_refl _) hx]
  rcases y with _ | ⟨c, t⟩
  · simp [literalBody]
  · rw [List.cons_append, List.cons_append, literalBody]
    simp [hy]

theorem quoteStep_other (st : Bool × Bool) {c : Nat} (h1 : c ≠ sq) (h2 : c ≠ dq) :
    quoteStep st c = st := by
  simp [quoteStep, h1, h2]

theorem userScan_inside_copy : ∀ (x y : List Nat) (s d : Bool), (s = true ∨ d = true) →
    sq ∉ x → dq ∉ x → userScan s d (x ++ y) = x ++ userScan s d y := by
  intro x
  induction x with
  | nil => intro y s d _ _ _; rfl
  | cons c t ih =>
    intro y s d hsd h1 h2
    have hc1 : c ≠ sq := fun h => h1 (by simp [h])
    have hc2 : c ≠ dq := fun h => h2 (by simp [h])
    have htok : ¬ (s = false ∧ d = false ∧ isIdentifierChar c = true) := by
      rintro ⟨hs, hd, _⟩
      rcases hsd with h | h
      · rw [hs] at h; exact absurd h (by decide)
      · rw [hd] at h; exact absurd h (by decide)
    rw [List.cons_append, userScan_cons_flags s d c _ htok, quoteStep_other _ hc1 hc2,
      ih y s d hsd (fun h => h1 (by simp [h])) (fun h => h2 (by simp [h]))]
    rfl

theorem placeholderScan_plain : ∀ (w : List Nat) (n : Nat) (s : Bool) (y : List Nat),
    (∀ c ∈ w, c ≠ sq ∧ (c = qm → s = true)) →
      placeholderScan n s (w ++ y) =
        (w ++ (placeholderScan n s y).1, (placeholderScan n s y).2) := by
  intro w
  induction w with
  | nil => intro n s y _; rfl
  | cons c t ih =>
    intro n s y h
    have hc := h c (by simp)
    have h2 : ¬ (c = qm ∧ s = false) := by
      rintro ⟨hq, hs⟩
      have := hc.2 hq
      rw [hs] at this
      exact absurd this (by decide)
    rw [List.cons_append, placeholderScan]
    simp only [hc.1, h2, if_false, ih n s y (fun x hx => h x (by simp [hx]))]
    rfl

theorem fmtDigits_range : ∀ (fuel u : Nat), ∀ c ∈ fmtDigits fuel u, 48 ≤ c ∧ c ≤ 57 := by
  intro fuel
  induction fuel with
  | zero => intro u c hc; simp [fmtDigits] at hc
  | succ fuel ih =>
    intro u c hc
    rw [fmtDigits] at hc
    split_ifs at hc with h
    · simp at hc; omega
    · rcases List.mem_append.1 hc with h1 | h1
      · exact ih _ c h1
      · simp at h1; omega

theorem sprintfDollarD_plain (n : Nat) : ∀ c ∈ sprintfDollarD n, c ≠ sq ∧ c ≠ qm := by
  intro c hc
  rcases List.mem_cons.1 hc with h | h
  · subst h; decide
  · have := fmtDigits_range _ _ c h
    constructor <;> intro h0 <;> subst h0 <;> revert this <;> decide

theorem placeholderScan_again : ∀ (l : List Nat) (m n : Nat) (s : Bool),
    placeholderScan n s (placeholderScan m s l).1 =
      ((placeholderScan m s l).1, n, (placeholderScan m s l).2.2) := by
  intro l
  induction l with
  | nil => intro m n s; rfl
  | cons c t ih =>
    intro m n s
    rw [placeholderScan]
    by_cases h1 : c = sq
    · simp only [h1, if_true]
      rw [placeholderScan]
      simp only [if_true, ih m n (!s)]
    · by_cases h2 : c = qm ∧ s = false
      · obtain ⟨hq, hs⟩ := h2
        subst hq; subst hs
        simp only [qm_ne_sq, if_false, and_self, if_true]
        rw [placeholderScan_plain (sprintfDollarD m) n false _
          (fun c hc => ⟨(sprintfDollarD_plain m c hc).1,
            fun h => absurd h (sprintfDollarD_plain m c hc).2⟩)]
        simp only [ih (m + 1) n false]
      · simp only [h1, h2, if_false]
        rw [placeholderScan]
        simp only [h1, h2, if_false, ih m n s]

theorem placeholderScan_quotes : ∀ (l : List Nat) (m : Nat) (s : Bool),
    (placeholderScan m s l).1.filter (fun c => c == sq) = l.filter (fun c => c == sq) := by
  intro l
  induction l with
  | nil => intro m s; rfl
  | cons c t ih =>
    intro m s
    rw [placeholderScan]
    by_cases h1 : c = sq
    · simp only [h1, if_true, List.filter_cons, beq_self_eq_true, ih m (!s)]
    · by_cases h2 : c = qm ∧ s = false
      · obtain ⟨hq, hs⟩ := h2
        subst hq; subst hs
        have hd : (sprintfDollarD m).filter (fun c => c == sq) = [] := by
          rw [List.filter_eq_nil_iff]
          intro c hc
          simp [(sprintfDollarD_plain m c hc).1]
        simp only [qm_ne_sq, if_false, and_self, if_true, List.filter_append, hd,
          List.nil_append, ih (m + 1) false, List.filter_cons]
        simp [qm_ne_sq]
      · have hb : (c == sq) = false := by simpa using h1
        simp only [h1, h2, if_false, List.filter_cons, hb, ih m s]

theorem userScan_head_other : ∀ (l : List Nat),
    (∀ c, l.head? = some c → isIdentifierChar c = false) →
      ∀ c, (userScan false false l).head? = some c → isIdentifierChar c = false := by
  intro l hl c hc
  rcases l with _ | ⟨c0, t⟩
  · rw [userScan_nil] at hc; simp at hc
  · have h0 : isIdentifierChar c0 = false := hl c0 rfl
    have htok : ¬ (false = false ∧ false = false ∧ isIdentifierChar c0 = true) := by
      rw [h0]; simp
    rw [userScan_cons_flags false false c0 t htok] at hc
    simp at hc
    rw [← hc]; exact h0

theorem head?_dropWhile_ident (rest : List Nat) :
    ∀ c, (rest.dropWhile isIdentifierChar).head? = some c → isIdentifierChar c = false := by
  intro c hc
  have := List.head?_dropWhile_not isIdentifierChar rest
  rw [hc] at this
  simpa using this

theorem isLiteral_quoted_user : IsLiteral sq (ascii "\"user\"") ∨ IsLiteral dq (ascii "\"user\"") :=
  Or.inr ⟨ascii "user", by decide, by decide⟩

theorem userScan_idempotent : ∀ (k : Nat) (l : List Nat), l.length ≤ k → ∀ (s d : Bool),
    userScan s d (userScan s d l) = userScan s d l := by
  intro k
  induction k with
  | zero =>
    intro l hl s d
    have : l = [] := List.length_eq_zero.1 (by omega)
    subst this
    rw [userScan_nil, userScan_nil]
  | succ k ih =>
    intro l hl s d
    rcases l with _ | ⟨c, rest⟩
    · rw [userScan_nil, userScan_nil]
    · have hrest : rest.length ≤ k := by simpa using hl
      by_cases htok : s = false ∧ d = false ∧ isIdentifierChar c = true
      · obtain ⟨hs, hd, hc⟩ := htok
        subst hs; subst hd
        have hlen : (rest.dropWhile isIdentifierChar).length ≤ k :=
          le_trans (List.dropWhile_suffix _).length_le hrest
        have hih := ih _ hlen false false
        have hrun : ∀ x ∈ c :: rest.takeWhile isIdentifierChar, isIdentifierChar x = true := by
          intro x hx
          rcases List.mem_cons.1 hx with hx | hx
          · rw [hx]; exact hc
          · exact List.mem_takeWhile_imp hx
        rw [userScan_token hc]
        by_cases hu : EqualFold (c :: rest.takeWhile isIdentifierChar) (ascii "user") = true
        · simp only [hu, if_true]
          rw [userScan_literal isLiteral_quoted_user, hih]
        · simp only [hu, Bool.false_eq_true, if_false]
          have hu2 : equalsIgnoreCase (c :: rest.takeWhile isIdentifierChar) (ascii "user") =
              false := by
            rw [← EqualFold_user]; simpa using hu
          have hb : RunBoundary (c :: rest.takeWhile isIdentifierChar)
              (userScan false false (rest.dropWhile isIdentifierChar)) :=
            RunBoundary_of_head (userScan_head_other _ (head?_dropWhile_ident rest))
          rw [userScan_append _ _ (le_refl _) _ false false hb, quoteFlags_run _ hrun,
            userScan_run hrun hu2, hih]
      · rw [userScan_cons_flags s d c _ htok, userScan_cons_flags s d c _ htok,
          ih rest hrest]

/-! ## The phrase of pass 2 through pass 1 -/

theorem lowerByte_letter {a b : Nat} (h : lowerByte a = b) (hb : 97 ≤ b ∧ b ≤ 122) :
    isIdentifierChar a = true ∧ a ≠ sq ∧ a ≠ dq := by
  unfold lowerByte at h
  unfold isIdentifierChar sq dq
  split_ifs at h with h1
  · refine ⟨?_, by omega, by omega⟩
    have : ¬ (97 ≤ a ∧ a ≤ 122) := by omega
    simp [this, h1]
  · have : 97 ≤ a ∧ a ≤ 122 := by omega
    exact ⟨by simp [this], by omega, by omega⟩

theorem lowerByte_space {a : Nat} (h : lowerByte a = 32) : a = 32 := by
  unfold lowerByte at h
  split_ifs at h <;> omega

theorem equalsIgnoreCase_user_length {t : List Nat}
    (h : equalsIgnoreCase t (ascii "user") = true) : t.length = 4 := by
  have := congrArg List.length (beq_iff_eq.1 h)
  simpa [ascii_user] using this

theorem equalsIgnoreCase_user_head {a : Nat} {t : List Nat}
    (h : equalsIgnoreCase (a :: t) (ascii "user") = true) : lowerByte a = 117 := by
  have := beq_iff_eq.1 h
  rw [ascii_user] at this
  simp [lowerByte] at this ⊢
  exact this.1

theorem phrase_shape {m : List Nat}
    (h : equalsIgnoreCase m (ascii "INSERT OR IGNORE INTO") = true) :
    ∃ w1 w2 w3 a w4, m = w1 ++ 32 :: (w2 ++ 32 :: (w3 ++ 32 :: (a :: w4))) ∧
      (∀ c ∈ w1, isIdentifierChar c = true) ∧ w1.length = 6 ∧
      (∀ c ∈ w2, isIdentifierChar c = true) ∧ w2.length = 2 ∧
      (∀ c ∈ w3, isIdentifierChar c = true) ∧ w3.length = 6 ∧
      (∀ c ∈ a :: w4, isIdentifierChar c = true) ∧ lowerByte a = 105 ∧
      sq ∉ m ∧ dq ∉ m := by
  have hm := beq_iff_eq.1 h
  have hl : (ascii "INSERT OR IGNORE INTO").map lowerByte =
      [105, 110, 115, 101, 114, 116, 32, 111, 114, 32, 105, 103, 110, 111, 114, 101, 32,
        105, 110, 116, 111] := by decide
  rw [hl] at hm
  obtain ⟨a0, m, rfl, h0, hm⟩ := List.map_eq_cons_iff.1 hm
  obtain ⟨a1, m, rfl, h1, hm⟩ := List.map_eq_cons_iff.1 hm
  obtain ⟨a2, m, rfl, h2, hm⟩ := List.map_eq_cons_iff.1 hm
  obtain ⟨a3, m, rfl, h3, hm⟩ := List.map_eq_cons_iff.1 hm
  obtain ⟨a4, m, rfl, h4, hm⟩ := List.map_eq_cons_iff.1 hm
  obtain ⟨a5, m, rfl, h5, hm⟩ := List.map_eq_cons_iff.1 hm
  obtain ⟨a6, m, rfl, h6, hm⟩ := List.map_eq_cons_iff.1 hm
  obtain ⟨a7, m, rfl, h7, hm⟩ := List.map_eq_cons_iff.1 hm
  obtain ⟨a8, m, rfl, h8, hm⟩ := List.map_eq_cons_iff.1 hm
  obtain ⟨a9, m, rfl, h9, hm⟩ := List.map_eq_cons_iff.1 hm
  obtain ⟨a10, m, rfl, h10, hm⟩ := List.map_eq_cons_iff.1 hm
  obtain ⟨a11, m, rfl, h11, hm⟩ := List.map_eq_cons_iff.1 hm
  obtain ⟨a12, m, rfl, h12, hm⟩ := List.map_eq_cons_iff.1 hm
  obtain ⟨a13, m, rfl, h13, hm⟩ := List.map_eq_cons_iff.1 hm
  obtain ⟨a14, m, rfl, h14, hm⟩ := List.map_eq_cons_iff.1 hm
  obtain ⟨a15, m, rfl, h15, hm⟩ := List.map_eq_cons_iff.1 hm
  obtain ⟨a16, m, rfl, h16, hm⟩ := List.map_eq_cons_iff.1 hm
  obtain ⟨a17, m, rfl, h17, hm⟩ := List.map_eq_cons_iff.1 hm
  obtain ⟨a18, m, rfl, h18, hm⟩ := List.map_eq_cons_iff.1 hm
  obtain ⟨a19, m, rfl, h19, hm⟩ := List.map_eq_cons_iff.1 hm
  obtain ⟨a20, m, rfl, h20, hm⟩ := List.map_eq_cons_iff.1 hm
  have hnil : m = [] := List.map_eq_nil_iff.1 hm
  subst hnil
  have e6 := lowerByte_space h6
  have e9 := lowerByte_space h9
  have e16 := lowerByte_space h16
  subst e6; subst e9; subst e16
  have l0 := lowerByte_letter h0 (by omega)
  have l1 := lowerByte_letter h1 (by omega)
  have l2 := lowerByte_letter h2 (by omega)
  have l3 := lowerByte_letter h3 (by omega)
  have l4 := lowerByte_letter h4 (by omega)
  have l5 := lowerByte_letter h5 (by omega)
  have l7 := lowerByte_letter h7 (by omega)
  have l8 := lowerByte_letter h8 (by omega)
  have l10 := lowerByte_letter h10 (by omega)
  have l11 := lowerByte_letter h11 (by omega)
  have l12 := lowerByte_letter h12 (by omega)
  have l13 := lowerByte_letter h13 (by omega)
  have l14 := lowerByte_letter h14 (by omega)
  have l15 := lowerByte_letter h15 (by omega)
  have l17 := lowerByte_letter h17 (by omega)
  have l18 := lowerByte_letter h18 (by omega)
  have l19 := lowerByte_letter h19 (by omega)
  have l20 := lowerByte_letter h20 (by omega)
  have s32 : (32 : Nat) ≠ sq ∧ (32 : Nat) ≠ dq := by decide
  refine ⟨[a0, a1, a2, a3, a4, a5], [a7, a8], [a10, a11, a12, a13, a14, a15], a17,
    [a18, a19, a20], rfl, ?_, rfl, ?_, rfl, ?_, rfl, ?_, h17, ?_, ?_⟩
  · simp [l0.1, l1.1, l2.1, l3.1, l4.1, l5.1]
  · simp [l7.1, l8.1]
  · simp [l10.1, l11.1, l12.1, l13.1, l14.1, l15.1]
  · simp [l17.1, l18.1, l19.1, l20.1]
  · simp only [List.mem_cons, List.mem_singleton, List.not_mem_nil, or_false, not_or]
    exact ⟨l0.2.1.symm, l1.2.1.symm, l2.2.1.symm, l3.2.1.symm, l4.2.1.symm, l5.2.1.symm,
      s32.1.symm, l7.2.1.symm, l8.2.1.symm, s32.1.symm, l10.2.1.symm, l11.2.1.symm,
      l12.2.1.symm, l13.2.1.symm, l14.2.1.symm, l15.2.1.symm, s32.1.symm, l17.2.1.symm,
      l18.2.1.symm, l19.2.1.symm, l20.2.1.symm⟩
  · simp only [List.mem_cons, List.mem_singleton, List.not_mem_nil, or_false, not_or]
    exact ⟨l0.2.2.symm, l1.2.2.symm, l2.2.2.symm, l3.2.2.symm, l4.2.2.symm, l5.2.2.symm,
      s32.2.symm, l7.2.2.symm, l8.2.2.symm, s32.2.symm, l10.2.2.symm, l11.2.2.symm,
      l12.2.2.symm, l13.2.2.symm, l14.2.2.symm, l15.2.2.symm, s32.2.symm, l17.2.2.symm,
      l18.2.2.symm, l19.2.2.symm, l20.2.2.symm⟩

theorem userScan_run_step {x y : List Nat} (hx : ∀ c ∈ x, isIdentifierChar c = true)
    (hu : equalsIgnoreCase x (ascii "user") = false)
    (hy : ∀ c, y.head? = some c → isIdentifierChar c = false) :
    userScan false false (x ++ y) = x ++ userScan false false y := by
  rw [userScan_append x.length x (le_refl _) y false false (RunBoundary_of_head hy),
    quoteFlags_run _ hx, userScan_run hx hu]

theorem userScan_space (y : List Nat) :
    userScan false false (32 :: y) = 32 :: userScan false false y :=
  userScan_other (by decide) (by decide) (by decide) y

theorem not_user_of_length {t : List Nat} (h : t.length ≠ 4) :
    equalsIgnoreCase t (ascii "user") = false := by
  rcases hb : equalsIgnoreCase t (ascii "user") with _ | _
  · rfl
  · exact absurd (equalsIgnoreCase_user_length hb) h

theorem userScan_keeps_phrase (p m s : List Nat)
    (hm : equalsIgnoreCase m (ascii "INSERT OR IGNORE INTO") = true) :
    ∃ x y, userScan false false (p ++ m ++ s) = x ++ m ++ y := by
  obtain ⟨w1, w2, w3, a, w4, rfl, i1, n1, i2, n2, i3, n3, i4, ha, hsq, hdq⟩ := phrase_shape hm
  -- the identifier bytes right before and right after the occurrence
  let pt := (p.reverse.takeWhile isIdentifierChar).reverse
  let p0 := (p.reverse.dropWhile isIdentifierChar).reverse
  let st := s.takeWhile isIdentifierChar
  let s0 := s.dropWhile isIdentifierChar
  have hp : p = p0 ++ pt := by
    show p = (p.reverse.dropWhile isIdentifierChar).reverse ++
      (p.reverse.takeWhile isIdentifierChar).reverse
    rw [← List.reverse_append, List.takeWhile_append_dropWhile, List.reverse_reverse]
  have hs : s = st ++ s0 := (List.takeWhile_append_dropWhile isIdentifierChar s).symm
  have ipt : ∀ c ∈ pt, isIdentifierChar c = true := by
    intro c hc
    exact List.mem_takeWhile_imp (List.mem_reverse.1 hc)
  have ist : ∀ c ∈ st, isIdentifierChar c = true := fun c hc => List.mem_takeWhile_imp hc
  have hs0 : ∀ c, s0.head? = some c → isIdentifierChar c = false := head?_dropWhile_ident s
  have hp0 : ∀ c, p0.getLast? = some c → isIdentifierChar c = false := by
    intro c hc
    rw [List.getLast?_reverse] at hc
    exact head?_dropWhile_ident p.reverse c hc
  set M := w1 ++ 32 :: (w2 ++ 32 :: (w3 ++ 32 :: (a :: w4))) with hM
  have e : p ++ M ++ s = p0 ++ ((pt ++ M ++ st) ++ s0) := by
    rw [hp, hs]; simp [List.append_assoc]
  rw [e, userScan_append p0.length p0 (le_refl _) _ false false (RunBoundary_of_last hp0)]
  rcases hf : quoteFlags (false, false) p0 with ⟨f1, f2⟩
  by_cases hout : f1 = false ∧ f2 = false
  · obtain ⟨h1, h2⟩ := hout
    subst h1; subst h2
    have e2 : (pt ++ M ++ st) ++ s0 =
        (pt ++ w1) ++ (32 :: (w2 ++ (32 :: (w3 ++ (32 :: ((a :: w4 ++ st) ++ s0)))))) := by
      simp [hM, List.append_assoc]
    have r1 : ∀ c ∈ pt ++ w1, isIdentifierChar c = true := by
      intro c hc
      rcases List.mem_append.1 hc with h | h
      · exact ipt c h
      · exact i1 c h
    have r4 : ∀ c ∈ a :: w4 ++ st, isIdentifierChar c = true := by
      intro c hc
      rcases List.mem_append.1 hc with h | h
      · exact i4 c h
      · exact ist c h
    have u1 : equalsIgnoreCase (pt ++ w1) (ascii "user") = false :=
      not_user_of_length (by simp [n1])
    have u2 : equalsIgnoreCase w2 (ascii "user") = false := not_user_of_length (by omega)
    have u3 : equalsIgnoreCase w3 (ascii "user") = false := not_user_of_length (by omega)
    have u4 : equalsIgnoreCase (a :: w4 ++ st) (ascii "user") = false := by
      rcases hb : equalsIgnoreCase (a :: w4 ++ st) (ascii "user") with _ | _
      · rfl
      · have := equalsIgnoreCase_user_head hb
        rw [ha] at this
        exact absurd this (by decide)
    have sp : ∀ (z : List Nat) (c : Nat), (32 :: z).head? = some c →
        isIdentifierChar c = false := by
      intro z c hc
      simp at hc; subst hc; decide
    refine ⟨userScan false false p0 ++ pt, st ++ userScan false false s0, ?_⟩
    simp only
    rw [e2, userScan_run_step r1 u1 (sp _), userScan_space, userScan_run_step i2 u2 (sp _),
      userScan_space, userScan_run_step i3 u3 (sp _), userScan_space,
      userScan_run_step r4 u4 hs0]
    simp [hM, List.append_assoc]
  · have hin : f1 = true ∨ f2 = true := by
      rcases f1 with _ | _ <;> rcases f2 with _ | _ <;> simp at hout ⊢
    have q1 : sq ∉ pt ++ M ++ st := by
      intro h
      rcases List.mem_append.1 h with h | h
      · rcases List.mem_append.1 h with h | h
        · exact isIdentifierChar_ne_sq (ipt _ h) rfl
        · exact hsq h
      · exact isIdentifierChar_ne_sq (ist _ h) rfl
    have q2 : dq ∉ pt ++ M ++ st := by
      intro h
      rcases List.mem_append.1 h with h | h
      · rcases List.mem_append.1 h with h | h
        · exact isIdentifierChar_ne_dq (ipt _ h) rfl
        · exact hdq h
      · exact isIdentifierChar_ne_dq (ist _ h) rfl
    refine ⟨userScan false false p0 ++ pt, st ++ userScan f1 f2 s0, ?_⟩
    simp only
    rw [userScan_inside_copy _ s0 f1 f2 hin q1 q2]
    simp [List.append_assoc]

theorem quoteFlags_userScan : ∀ (k : Nat) (l : List Nat), l.length ≤ k → ∀ (st : Bool × Bool),
    quoteFlags st (userScan st.1 st.2 l) = quoteFlags st l := by
  intro k
  induction k with
  | zero =>
    intro l hl st
    have : l = [] := List.length_eq_zero.1 (by omega)
    subst this
    rw [userScan_nil]
  | succ k ih =>
    intro l hl st
    rcases l with _ | ⟨c, rest⟩
    · rw [userScan_nil]
    · have hrest : rest.length ≤ k := by simpa using hl
      obtain ⟨s, d⟩ := st
      by_cases htok : s = false ∧ d = false ∧ isIdentifierChar c = true
      · obtain ⟨hs, hd, hc⟩ := htok
        subst hs; subst hd
        have hlen : (rest.dropWhile isIdentifierChar).length ≤ k :=
          le_trans (List.dropWhile_suffix _).length_le hrest
        have hih := ih _ hlen (false, false)
        simp only at hih
        have hrun : ∀ x ∈ c :: rest.takeWhile isIdentifierChar, isIdentifierChar x = true := by
          intro x hx
          rcases List.mem_cons.1 hx with hx | hx
          · rw [hx]; exact hc
          · exact List.mem_takeWhile_imp hx
        have hq : quoteFlags (false, false) (ascii "\"user\"") = (false, false) := by decide
        have hd : (c :: rest).dropWhile isIdentifierChar = rest.dropWhile isIdentifierChar :=
          List.dropWhile_cons_of_pos hc
        simp only
        rw [userScan_token hc, quoteFlags_append, ← quoteFlags_dropWhile _ (c :: rest), hd]
        by_cases hu : EqualFold (c :: rest.takeWhile isIdentifierChar) (ascii "user") = true
        · simp only [hu, if_true, hq, hih]
        · simp only [hu, Bool.false_eq_true, if_false, quoteFlags_run _ hrun, hih]
      · simp only
        rw [userScan_cons_flags s d c _ htok, quoteFlags_cons, quoteFlags_cons]
        have := ih rest hrest (quoteStep (s, d) c)
        exact this

theorem conflictClause_plain (s : Bool) :
    ∀ c ∈ ascii " ON CONFLICT DO NOTHING", c ≠ sq ∧ (c = qm → s = true) := by
  have h : ∀ c ∈ ascii " ON CONFLICT DO NOTHING", c ≠ sq ∧ c ≠ qm := by decide
  exact fun c hc => ⟨(h c hc).1, fun e => absurd e (h c hc).2⟩

theorem rewritePlaceholders_conflict_clause (t : List Nat) :
    rewritePlaceholders (t ++ ascii " ON CONFLICT DO NOTHING") =
      rewritePlaceholders t ++ ascii " ON CONFLICT DO NOTHING" := by
  have h := placeholderScan_plain (ascii " ON CONFLICT DO NOTHING")
    (placeholderScan 1 false t).2.1 (placeholderScan 1 false t).2.2 []
    (conflictClause_plain _)
  rw [List.append_nil] at h
  rw [rewritePlaceholders_eq_scan, rewritePlaceholders_eq_scan, placeholderScan_append, h]
  simp [placeholderScan]

theorem stripTrailing_conflict_clause (x : List Nat) :
    stripTrailing trimCutset (x ++ ascii " ON CONFLICT DO NOTHING") =
      x ++ ascii " ON CONFLICT DO NOTHING" := by
  have e : ascii " ON CONFLICT DO NOTHING" = ascii " ON CONFLICT DO NOTHIN" ++ [71] := by decide
  rw [← TrimRight_eq_stripTrailing, TrimRight, e, ← List.append_assoc]
  exact List.rdropWhile_concat_neg _ _ _ (by decide)

theorem rewriteQuery_postgres_conflict_clause (upperCase : Nat → Nat) (q : List Nat)
    (hq : ∀ c ∈ q, c < 128)
    (hocc : ∃ p m s, q = p ++ m ++ s ∧
      equalsIgnoreCase m (ascii "INSERT OR IGNORE INTO") = true) :
    ∃ x, rewriteQuery upperCase DialectPostgres q =
      some (x ++ ascii " ON CONFLICT DO NOTHING") := by
  obtain ⟨p, m, s, rfl, hm⟩ := hocc
  have ha : ∀ c ∈ rewriteUserIdentifier (p ++ m ++ s), c < 128 := by
    rw [rewriteUserIdentifier_eq_scan]
    exact userScan_ascii _ _ (le_refl _) hq false false
  obtain ⟨x, y, hxy⟩ := userScan_keeps_phrase p m s hm
  have hsome := splitAtFirstOccurrence_isSome (ascii "INSERT OR IGNORE INTO") (by decide) x m y hm
  rw [← hxy, ← rewriteUserIdentifier_eq_scan] at hsome
  rcases hsp : splitAtFirstOccurrence (ascii "INSERT OR IGNORE INTO")
      (rewriteUserIdentifier (p ++ m ++ s)) with _ | ⟨p2, s2⟩
  · rw [hsp] at hsome; exact absurd hsome (by decide)
  · refine ⟨rewritePlaceholders (stripTrailing trimCutset (p2 ++ ascii "INSERT INTO" ++ s2)), ?_⟩
    have hd : ¬ (DialectPostgres ≠ DialectPostgres) := fun h => h rfl
    simp only [rewriteQuery, hd, if_false, rewriteInsertOrIgnore_ascii upperCase ha,
      rewriteInsertOrIgnoreRef, hsp, rewritePlaceholders_conflict_clause]

theorem ascii_conflict_returning :
    ascii " ON CONFLICT DO NOTHING" ++ ascii " RETURNING id" =
      ascii " ON CONFLICT DO NOTHING RETURNING id" := by decide

/-! ## The claims -/

/-- C1: for the SQLite dialect `rewriteQuery` returns every query unchanged,
byte for byte, whatever the query is (in particular
`INSERT OR IGNORE INTO x VALUES(?)`). -/
theorem rewriteQuery_sqlite_identity (upperCase : Nat → Nat) (q : List Nat) :
    rewriteQuery upperCase DialectSQLite q = some q := by
  simp [rewriteQuery, DialectSQLite, DialectPostgres]

/-- C2 (the code is not total): on the 22-byte query made of the invalid UTF-8
byte `0xFF` followed by `INSERT OR IGNORE INTO`, `rewriteQuery` for Postgres
panics.  `strings.ToUpper` replaces the invalid byte by the three bytes of
U+FFFD, so the phrase is found at offset 3 of the upper-cased copy, and
`query[3+21:]` is out of range for the 22 bytes of `query`.  The only fact about
the case tables that is used is that U+FFFD has no upper case. -/
theorem rewriteQuery_postgres_panics_after_invalid_byte (upperCase : Nat → Nat)
    (h : upperCase RuneError = RuneError) :
    rewriteQuery upperCase DialectPostgres (0xFF :: ascii "INSERT OR IGNORE INTO") = none := by
  have e1 : rewriteUserIdentifier (0xFF :: ascii "INSERT OR IGNORE INTO") =
      0xFF :: ascii "INSERT OR IGNORE INTO" := by decide
  have e2 := ToUpper_invalid_then_ascii upperCase h (ascii "INSERT OR IGNORE INTO") (by decide)
  have e3 : Index ([0xEF, 0xBF, 0xBD] ++ (ascii "INSERT OR IGNORE INTO").map upperByte)
      (ascii "INSERT OR IGNORE INTO") = some 3 := by decide
  simp only [rewriteQuery, e1, rewriteInsertOrIgnore, e2, e3]
  decide

/-- Witness for C2 with the case table without entries. -/
theorem rewriteQuery_postgres_panics_after_invalid_byte_witness :
    caselessTable RuneError = RuneError ∧
    rewriteQuery caselessTable DialectPostgres (0xFF :: ascii "INSERT OR IGNORE INTO") = none :=
  ⟨rfl, rewriteQuery_postgres_panics_after_invalid_byte caselessTable rfl⟩

/-- C3 (the code loses a placeholder): the query made of the invalid byte `0xFF`
followed by `INSERT OR IGNORE INTO ?` has one question mark outside literals,
but `rewriteQuery` for Postgres returns a text without any placeholder: pass 2
cuts `query` at offsets taken from the upper-cased copy, in which the invalid
byte occupies three bytes, and the two bytes after the phrase (a blank and the
question mark) are dropped. -/
theorem rewriteQuery_postgres_drops_placeholder_after_invalid_byte (upperCase : Nat → Nat)
    (h : upperCase RuneError = RuneError) :
    rewriteQuery upperCase DialectPostgres (0xFF :: ascii "INSERT OR IGNORE INTO ?") =
      some (0xFF :: ascii "ININSERT INTO ON CONFLICT DO NOTHING") := by
  have e1 : rewriteUserIdentifier (0xFF :: ascii "INSERT OR IGNORE INTO ?") =
      0xFF :: ascii "INSERT OR IGNORE INTO ?" := by decide
  have e2 := ToUpper_invalid_then_ascii upperCase h (ascii "INSERT OR IGNORE INTO ?") (by decide)
  have e3 : Index ([0xEF, 0xBF, 0xBD] ++ (ascii "INSERT OR IGNORE INTO ?").map upperByte)
      (ascii "INSERT OR IGNORE INTO") = some 3 := by decide
  simp only [rewriteQuery, e1, rewriteInsertOrIgnore, e2, e3]
  decide

/-- Witness for C3 with the case table without entries. -/
theorem rewriteQuery_postgres_drops_placeholder_after_invalid_byte_witness :
    caselessTable RuneError = RuneError ∧
    rewriteQuery caselessTable DialectPostgres (0xFF :: ascii "INSERT OR IGNORE INTO ?") =
      some (0xFF :: ascii "ININSERT INTO ON CONFLICT DO NOTHING") :=
  ⟨rfl, rewriteQuery_postgres_drops_placeholder_after_invalid_byte caselessTable rfl⟩

/-- C4: `rewritePlaceholders` equals the reference scanner on every query: one
flag toggled by a single quote, a doubled quote inside a literal copied as an
escape, the n-th question mark outside a literal replaced by the dollar sign and
the decimal numeral of n (counted from 1), every other byte copied in place. -/
theorem rewritePlaceholders_eq_reference (q : List Nat) :
    rewritePlaceholders q = rewritePlaceholdersRef q := by
  rw [rewritePlaceholders_eq_scan, rewritePlaceholdersRef,
    placeholderScan_eq_ref q 1 false (le_refl _)]

/-- C5: a run of identifier bytes that is not `user` in any letter case is copied
unchanged by `rewriteUserIdentifier`: a text made only of identifier bytes is
returned as it is, and a maximal run `t` between a text `a` that ends outside any
literal (and not in an identifier byte) and a text `b` that does not start with
an identifier byte stays `t` in the output. -/
theorem rewriteUserIdentifier_keeps_other_identifiers :
    (∀ t : List Nat, (∀ c ∈ t, isIdentifierChar c = true) →
      equalsIgnoreCase t (ascii "user") = false → rewriteUserIdentifier t = t) ∧
    (∀ a t b : List Nat, EndsOutsideLiteral a →
      (∀ c, a.getLast? = some c → isIdentifierChar c = false) →
      (∀ c ∈ t, isIdentifierChar c = true) →
      (∀ c, b.head? = some c → isIdentifierChar c = false) →
      equalsIgnoreCase t (ascii "user") = false →
      rewriteUserIdentifier (a ++ t ++ b) =
        rewriteUserIdentifier a ++ t ++ rewriteUserIdentifier b) := by
  constructor
  · intro t ht hu
    rw [rewriteUserIdentifier_eq_scan, userScan_run ht hu]
  · intro a t b ha hla ht hhb hu
    rw [EndsOutsideLiteral, userFlagsAtExit_eq] at ha
    rw [rewriteUserIdentifier_eq_scan, rewriteUserIdentifier_eq_scan,
      rewriteUserIdentifier_eq_scan, List.append_assoc,
      userScan_append a.length a (le_refl _) (t ++ b) false false (RunBoundary_of_last hla),
      ha, userScan_append t.length t (le_refl _) b false false (RunBoundary_of_head hhb),
      quoteFlags_run _ ht, userScan_run ht hu]
    simp

/-- Witness for C5: `user_id` alone, and `username` between `SELECT ` and
` FROM user`. -/
theorem rewriteUserIdentifier_keeps_other_identifiers_witness :
    rewriteUserIdentifier (ascii "user_id") = ascii "user_id" ∧
    rewriteUserIdentifier (ascii "SELECT " ++ ascii "username" ++ ascii " FROM user") =
      rewriteUserIdentifier (ascii "SELECT ") ++ ascii "username" ++
        rewriteUserIdentifier (ascii " FROM user") :=
  ⟨rewriteUserIdentifier_keeps_other_identifiers.1 _ (by decide) (by decide),
   rewriteUserIdentifier_keeps_other_identifiers.2 _ _ _ (by decide) (by decide) (by decide)
     (by decide) (by decide)⟩

/-- C6: a query without quote characters splits into tokens (maximal runs of
identifier bytes and single other bytes) and `rewriteUserIdentifier` returns the
tokens in place, each token equal to `user` in any letter case replaced by the
double-quoted lower-case word and every other token unchanged. -/
theorem rewriteUserIdentifier_tokens (q : List Nat) (h1 : sq ∉ q) (h2 : dq ∉ q) :
    ∃ toks : List (List Nat), toks.flatten = q ∧ (∀ t ∈ toks, IsToken t) ∧
      toks.Chain' (fun a b => ¬ (IsIdentifierRun a ∧ IsIdentifierRun b)) ∧
      rewriteUserIdentifier q = (toks.map quoteUserToken).flatten := by
  obtain ⟨toks, hflat, htok, hchain, hscan, _⟩ := userScan_tokens q.length q (le_refl _) h1 h2
  exact ⟨toks, hflat, htok, hchain, by rw [rewriteUserIdentifier_eq_scan, hscan]⟩

/-- Witness for C6 on `SELECT * FROM User WHERE user_id = ?`. -/
theorem rewriteUserIdentifier_tokens_witness :
    (sq ∉ ascii "SELECT * FROM User WHERE user_id = ?" ∧
      dq ∉ ascii "SELECT * FROM User WHERE user_id = ?") ∧
    ∃ toks : List (List Nat),
      toks.flatten = ascii "SELECT * FROM User WHERE user_id = ?" ∧ (∀ t ∈ toks, IsToken t) ∧
      toks.Chain' (fun a b => ¬ (IsIdentifierRun a ∧ IsIdentifierRun b)) ∧
      rewriteUserIdentifier (ascii "SELECT * FROM User WHERE user_id = ?") =
        (toks.map quoteUserToken).flatten :=
  ⟨⟨by decide, by decide⟩, rewriteUserIdentifier_tokens _ (by decide) (by decide)⟩

/-- C7: a well-formed single- or double-quoted literal `l` that follows a text `a`
ending outside any literal is copied unchanged by `rewriteUserIdentifier`, and
the texts before and after it are rewritten as if they stood alone. -/
theorem rewriteUserIdentifier_literal_opacity (a l b : List Nat)
    (ha : EndsOutsideLiteral a) (hl : IsLiteral sq l ∨ IsLiteral dq l) :
    rewriteUserIdentifier (a ++ l ++ b) =
      rewriteUserIdentifier a ++ l ++ rewriteUserIdentifier b := by
  rw [EndsOutsideLiteral, userFlagsAtExit_eq] at ha
  rw [rewriteUserIdentifier_eq_scan, rewriteUserIdentifier_eq_scan,
    rewriteUserIdentifier_eq_scan, List.append_assoc,
    userScan_append a.length a (le_refl _) (l ++ b) false false
      (RunBoundary_of_head (head?_literal_append hl b)),
    ha, userScan_literal hl b]
  simp

/-- Witness for C7: the literal `'it''s a user'` between `SELECT 'a', ` and
` FROM user`. -/
theorem rewriteUserIdentifier_literal_opacity_witness :
    EndsOutsideLiteral (ascii "SELECT 'a', ") ∧
    (IsLiteral sq (ascii "'it''s a user'") ∨ IsLiteral dq (ascii "'it''s a user'")) ∧
    rewriteUserIdentifier (ascii "SELECT 'a', " ++ ascii "'it''s a user'" ++ ascii " FROM user") =
      ascii "SELECT 'a', 'it''s a user' FROM \"user\"" :=
  ⟨by decide, Or.inl ⟨ascii "it''s a user", by decide, by decide⟩, by
    rw [rewriteUserIdentifier_literal_opacity _ _ _ (by decide)
      (Or.inl ⟨ascii "it''s a user", by decide, by decide⟩)]
    decide⟩

/-- C8 (as stated, refuted): pass 3 does not track double-quoted literals; the
question mark inside the double-quoted `"a?b"` is replaced by `$1` and consumes
the number 1, the real placeholder becomes `$2`. -/
theorem rewritePlaceholders_replaces_inside_double_quotes :
    rewritePlaceholders (ascii "SELECT \"a?b\" FROM t WHERE x = ?") =
      ascii "SELECT \"a$1b\" FROM t WHERE x = $2" := by decide

/-- C8 (amended): a well-formed single-quoted literal `l` that follows a text `a`
ending outside any single-quoted literal is copied unchanged by
`rewritePlaceholders`; no question mark inside it is replaced and none consumes a
number: the text after it is numbered from the counter reached after `a`. -/
theorem rewritePlaceholders_single_quoted_literal_opacity (a l b : List Nat)
    (ha : (placeholdersAtExit a).2 = false) (hl : IsLiteral sq l) :
    rewritePlaceholders (a ++ l ++ b) =
      rewritePlaceholders a ++ l ++ rewritePlaceholdersFrom (placeholdersAtExit a).1 b := by
  rw [rewritePlaceholders_eq_scan, rewritePlaceholders_eq_scan, rewritePlaceholdersFrom_eq,
    placeholdersAtExit_eq] at *
  rw [List.append_assoc, placeholderScan_append, ha, placeholderScan_append,
    placeholderScan_literal hl]
  simp

/-- Witness for C8: the literal `'it''s ?'` between `SELECT ?, ` and `, ?`. -/
theorem rewritePlaceholders_single_quoted_literal_opacity_witness :
    (placeholdersAtExit (ascii "SELECT ?, ")).2 = false ∧ IsLiteral sq (ascii "'it''s ?'") ∧
    rewritePlaceholders (ascii "SELECT ?, " ++ ascii "'it''s ?'" ++ ascii ", ?") =
      ascii "SELECT $1, 'it''s ?', $2" :=
  ⟨by decide, ⟨ascii "it''s ?", by decide, by decide⟩, by
    rw [rewritePlaceholders_single_quoted_literal_opacity _ _ _ (by decide)
      ⟨ascii "it''s ?", by decide, by decide⟩]
    decide⟩

/-- C9 (as stated, refuted): with carriage return counted as whitespace the
reference strips the trailing `\r\n`, while the code strips only the line feed:
its cutset is semicolon, space, tab and line feed. -/
theorem rewriteInsertOrIgnore_keeps_carriage_return :
    rewriteInsertOrIgnore caselessTable (ascii "INSERT OR IGNORE INTO t(a) VALUES(?)\r\n") =
      some (ascii "INSERT INTO t(a) VALUES(?)\r ON CONFLICT DO NOTHING") ∧
    rewriteInsertOrIgnoreRef semicolonAndWhitespace
        (ascii "INSERT OR IGNORE INTO t(a) VALUES(?)\r\n") =
      ascii "INSERT INTO t(a) VALUES(?) ON CONFLICT DO NOTHING" := by
  decide

/-- C9 (amended): on every ASCII query `rewriteInsertOrIgnore` returns the value of
the reference definition that strips trailing semicolons, spaces, tabs and line
feeds: the query itself without a case-insensitive occurrence of the phrase,
otherwise the text before the first occurrence, `INSERT INTO`, the text after
it, stripped at the end and followed by the conflict clause. -/
theorem rewriteInsertOrIgnore_ascii_eq_reference (upperCase : Nat → Nat) (q : List Nat)
    (h : ∀ c ∈ q, c < 128) :
    rewriteInsertOrIgnore upperCase q = some (rewriteInsertOrIgnoreRef trimCutset q) :=
  rewriteInsertOrIgnore_ascii upperCase h

/-- Witness for C9: a mixed-case phrase, a second occurrence inside a literal, a
trailing blank, semicolon and line feed. -/
theorem rewriteInsertOrIgnore_ascii_eq_reference_witness :
    (∀ c ∈ ascii "Insert Or Ignore Into t SELECT 'INSERT OR IGNORE INTO' ;\n", c < 128) ∧
    rewriteInsertOrIgnore caselessTable
        (ascii "Insert Or Ignore Into t SELECT 'INSERT OR IGNORE INTO' ;\n") =
      some (ascii "INSERT INTO t SELECT 'INSERT OR IGNORE INTO' ON CONFLICT DO NOTHING") :=
  ⟨by decide, by
    rw [rewriteInsertOrIgnore_ascii_eq_reference caselessTable _ (by decide)]
    decide⟩

/-- C10 (as stated, refuted): the query ends in a semicolon followed by carriage
return and line feed; only the line feed is stripped, so the byte before the
conflict clause is the carriage return and the semicolon stays. -/
theorem rewriteInsertOrIgnore_semicolon_before_carriage_return :
    rewriteInsertOrIgnore caselessTable (ascii "INSERT OR IGNORE INTO t VALUES(1);\r\n") =
      some (ascii "INSERT INTO t VALUES(1);" ++ [13] ++ ascii " ON CONFLICT DO NOTHING") := by
  decide

/-- C10 (amended): for every ASCII query that contains the phrase
`INSERT OR IGNORE INTO` in any letter case, `rewriteInsertOrIgnore` returns a text
that ends with the conflict clause, and the byte right before the clause is none
of semicolon, space, tab and line feed. -/
theorem rewriteInsertOrIgnore_conflict_clause_shape (upperCase : Nat → Nat) (q : List Nat)
    (hascii : ∀ c ∈ q, c < 128)
    (hocc : ∃ p m s, q = p ++ m ++ s ∧ equalsIgnoreCase m (ascii "INSERT OR IGNORE INTO") = true) :
    ∃ t c, rewriteInsertOrIgnore upperCase q =
        some (t ++ [c] ++ ascii " ON CONFLICT DO NOTHING") ∧
      c ≠ 59 ∧ c ≠ 32 ∧ c ≠ 9 ∧ c ≠ 10 := by
  obtain ⟨p, m, s, rfl, hm⟩ := hocc
  have hsome := splitAtFirstOccurrence_isSome (ascii "INSERT OR IGNORE INTO") (by decide) p m s hm
  rw [Option.isSome_iff_exists] at hsome
  obtain ⟨⟨p2, s2⟩, hr⟩ := hsome
  obtain ⟨t, c, ht, hc⟩ := stripTrailing_shape trimCutset (p2 ++ ascii "INSERT INTO" ++ s2) 79
    (by simp [ascii]) (by decide)
  refine ⟨t, c, ?_, ?_⟩
  · rw [rewriteInsertOrIgnore_ascii upperCase hascii, rewriteInsertOrIgnoreRef, hr]
    simp only [ht]
  · simp [trimCutset] at hc
    omega

/-- Witness for C10: a lower-case phrase and the ending blank, semicolon, blank,
line feed. -/
theorem rewriteInsertOrIgnore_conflict_clause_shape_witness :
    (∀ c ∈ ascii "insert or ignore into t VALUES(1) ; \n", c < 128) ∧
    ∃ t c, rewriteInsertOrIgnore caselessTable
        (ascii "insert or ignore into t VALUES(1) ; \n") =
          some (t ++ [c] ++ ascii " ON CONFLICT DO NOTHING") ∧
        c ≠ 59 ∧ c ≠ 32 ∧ c ≠ 9 ∧ c ≠ 10 :=
  ⟨by decide, rewriteInsertOrIgnore_conflict_clause_shape caselessTable _ (by decide)
    ⟨[], ascii "insert or ignore into", ascii " t VALUES(1) ; \n", by decide, by decide⟩⟩

/-- C11: scenario 2, all three passes together, for every case table: the
insert-or-ignore statement on `user_group_user` becomes an `INSERT INTO` with the
placeholders `$1`, `$2` and the conflict clause; `user_group_user`,
`user_group_id` and `user_id` stay unquoted. -/
theorem rewriteQuery_postgres_scenario_insert_or_ignore (upperCase : Nat → Nat) :
    rewriteQuery upperCase DialectPostgres
        (ascii "INSERT OR IGNORE INTO user_group_user(user_group_id,user_id) VALUES(?,?)") =
      some (ascii
        "INSERT INTO user_group_user(user_group_id,user_id) VALUES($1,$2) ON CONFLICT DO NOTHING") := by
  have e1 : rewriteUserIdentifier
      (ascii "INSERT OR IGNORE INTO user_group_user(user_group_id,user_id) VALUES(?,?)") =
      ascii "INSERT OR IGNORE INTO user_group_user(user_group_id,user_id) VALUES(?,?)" := by
    decide
  have e2 : rewriteInsertOrIgnore upperCase
      (ascii "INSERT OR IGNORE INTO user_group_user(user_group_id,user_id) VALUES(?,?)") =
      some (rewriteInsertOrIgnoreRef trimCutset
        (ascii "INSERT OR IGNORE INTO user_group_user(user_group_id,user_id) VALUES(?,?)")) :=
    rewriteInsertOrIgnore_ascii upperCase (by decide)
  simp only [rewriteQuery, e1, e2]
  decide

/-- C12: scenario 3, for every case table: the word `user` inside the literal
`'it''s a user'` is untouched, the bare identifier `user` is double-quoted and
the placeholder becomes `$1`. -/
theorem rewriteQuery_postgres_scenario_literal (upperCase : Nat → Nat) :
    rewriteQuery upperCase DialectPostgres
        (ascii "SELECT 'it''s a user' AS note WHERE user = ?") =
      some (ascii "SELECT 'it''s a user' AS note WHERE \"user\" = $1") := by
  have e1 : rewriteUserIdentifier (ascii "SELECT 'it''s a user' AS note WHERE user = ?") =
      ascii "SELECT 'it''s a user' AS note WHERE \"user\" = ?" := by
    decide
  have e2 : rewriteInsertOrIgnore upperCase
      (ascii "SELECT 'it''s a user' AS note WHERE \"user\" = ?") =
      some (rewriteInsertOrIgnoreRef trimCutset
        (ascii "SELECT 'it''s a user' AS note WHERE \"user\" = ?")) :=
    rewriteInsertOrIgnore_ascii upperCase (by decide)
  simp only [rewriteQuery, e1, e2]
  decide

/-- C13 (as stated, refuted): for a query that ends in a semicolon, carriage
return and line feed, the text that `ExecReturningID` hands to the single-row
query keeps the semicolon and the carriage return before ` RETURNING id` (the
recorded call), while stripping all trailing whitespace and semicolons would
give `... VALUES($1) RETURNING id`. -/
theorem ExecReturningID_keeps_carriage_return :
    (DB.ExecReturningID caselessTable (recordingOps (7, none)) (Wrap (some ()) DialectPostgres)
        (ascii "INSERT INTO node(name) VALUES(?);\r\n") [42] []).map (fun r => r.2) =
      some [(CallKind.QueryRow, ascii "INSERT INTO node(name) VALUES($1);\r RETURNING id", [42]),
        (CallKind.Scan, [], [])] ∧
    (rewriteQuery caselessTable DialectPostgres
        (ascii "INSERT INTO node(name) VALUES(?);\r\n")).map
        (fun text => stripTrailing semicolonAndWhitespace text ++ ascii " RETURNING id") =
      some (ascii "INSERT INTO node(name) VALUES($1) RETURNING id") := by
  decide

/-- C13 (amended): on a Postgres handle, `ExecReturningID` of `DB` and of `Tx`
issues one single-row query whose text is the result of `rewriteQuery` with
trailing semicolons, spaces, tabs and line feeds stripped, followed by
` RETURNING id`, and whose arguments are the given ones; what it returns is the
outcome of scanning that row.  When `rewriteQuery` panics, so does
`ExecReturningID`, before any call.  For `INSERT INTO node(name) VALUES(?)` the
text is `INSERT INTO node(name) VALUES($1) RETURNING id`. -/
theorem ExecReturningID_postgres_query_text {σ α ε H T Res Rows Row : Type}
    (upperCase : Nat → Nat) (ops : SqlOps σ α ε H T Res Rows Row) (h : H) (t : T)
    (q : List Nat) (args : List α) (s : σ) :
    DB.ExecReturningID upperCase ops (Wrap (some h) DialectPostgres) q args s =
      (rewriteQuery upperCase DialectPostgres q).map (fun text =>
        scanOutcome ops
          (ops.dbQueryRow h (stripTrailing trimCutset text ++ ascii " RETURNING id") args s)) ∧
    Tx.ExecReturningID upperCase ops (some (Tx.mk (some t) DialectPostgres)) q args s =
      (rewriteQuery upperCase DialectPostgres q).map (fun text =>
        scanOutcome ops
          (ops.txQueryRow t (stripTrailing trimCutset text ++ ascii " RETURNING id") args s)) ∧
    (rewriteQuery upperCase DialectPostgres (ascii "INSERT INTO node(name) VALUES(?)")).map
        (fun text => stripTrailing trimCutset text ++ ascii " RETURNING id") =
      some (ascii "INSERT INTO node(name) VALUES($1) RETURNING id") := by
  refine ⟨DB_ExecReturningID_postgres upperCase ops h q args s,
    Tx_ExecReturningID_postgres upperCase ops t q args s, ?_⟩
  rw [rewriteQuery_scenario5]
  decide

/-- Witness for C13: the calls recorded for `INSERT INTO node(name) VALUES(?)`
with the argument 42. -/
theorem ExecReturningID_postgres_query_text_witness :
    (DB.ExecReturningID caselessTable (recordingOps (7, none)) (Wrap (some ()) DialectPostgres)
        (ascii "INSERT INTO node(name) VALUES(?)") [42] []) =
      some ((7, none),
        [(CallKind.QueryRow, ascii "INSERT INTO node(name) VALUES($1) RETURNING id", [42]),
          (CallKind.Scan, [], [])]) := by
  rw [(ExecReturningID_postgres_query_text caselessTable (recordingOps (7, none)) () ()
    (ascii "INSERT INTO node(name) VALUES(?)") [42] []).1]
  decide

/-- C14: on a Postgres handle, when `rewriteQuery` returns the text `text`,
`ExecReturningID` of `DB` and of `Tx` returns: the error of the scan of the
single row (an error exactly when the scan has one, and then that error); on a
nil error the scanned id itself; on an error the id 0. -/
theorem ExecReturningID_postgres_scan_result {σ α ε H T Res Rows Row : Type}
    (upperCase : Nat → Nat) (ops : SqlOps σ α ε H T Res Rows Row) (h : H) (t : T)
    (q text : List Nat) (args : List α) (s : σ)
    (hq : rewriteQuery upperCase DialectPostgres q = some text) :
    (∃ out, DB.ExecReturningID upperCase ops (Wrap (some h) DialectPostgres) q args s = some out ∧
      out.1.2 = (ops.rowScan
        (ops.dbQueryRow h (stripTrailing trimCutset text ++ ascii " RETURNING id") args s).1
        (ops.dbQueryRow h (stripTrailing trimCutset text ++ ascii " RETURNING id") args s).2).1.2 ∧
      (out.1.2 = none → out.1.1 = (ops.rowScan
        (ops.dbQueryRow h (stripTrailing trimCutset text ++ ascii " RETURNING id") args s).1
        (ops.dbQueryRow h (stripTrailing trimCutset text ++ ascii " RETURNING id") args s).2).1.1) ∧
      (out.1.2 ≠ none → out.1.1 = 0)) ∧
    (∃ out, Tx.ExecReturningID upperCase ops (some (Tx.mk (some t) DialectPostgres)) q args s =
        some out ∧
      out.1.2 = (ops.rowScan
        (ops.txQueryRow t (stripTrailing trimCutset text ++ ascii " RETURNING id") args s).1
        (ops.txQueryRow t (stripTrailing trimCutset text ++ ascii " RETURNING id") args s).2).1.2 ∧
      (out.1.2 = none → out.1.1 = (ops.rowScan
        (ops.txQueryRow t (stripTrailing trimCutset text ++ ascii " RETURNING id") args s).1
        (ops.txQueryRow t (stripTrailing trimCutset text ++ ascii " RETURNING id") args s).2).1.1) ∧
      (out.1.2 ≠ none → out.1.1 = 0)) := by
  constructor
  · refine ⟨_, by rw [DB_ExecReturningID_postgres, hq]; rfl, ?_⟩
    obtain ⟨h1, h2, h3, _⟩ := scanOutcome_spec ops
      (ops.dbQueryRow h (stripTrailing trimCutset text ++ ascii " RETURNING id") args s)
    exact ⟨h1, fun hn => h2 (h1 ▸ hn), fun hn => h3 (h1 ▸ hn)⟩
  · refine ⟨_, by rw [Tx_ExecReturningID_postgres, hq]; rfl, ?_⟩
    obtain ⟨h1, h2, h3, _⟩ := scanOutcome_spec ops
      (ops.txQueryRow t (stripTrailing trimCutset text ++ ascii " RETURNING id") args s)
    exact ⟨h1, fun hn => h2 (h1 ▸ hn), fun hn => h3 (h1 ▸ hn)⟩

/-- Witness for C14: a scan that fails with the error 4 although it stored 5,
and a scan that succeeds with the id 5. -/
theorem ExecReturningID_postgres_scan_result_witness :
    rewriteQuery caselessTable DialectPostgres (ascii "INSERT INTO node(name) VALUES(?)") =
      some (ascii "INSERT INTO node(name) VALUES($1)") ∧
    (∃ out, DB.ExecReturningID caselessTable (recordingOps (5, some 4))
        (Wrap (some ()) DialectPostgres) (ascii "INSERT INTO node(name) VALUES(?)") [42] [] =
          some out ∧ out.1.2 = some 4 ∧ out.1.1 = 0) ∧
    (∃ out, Tx.ExecReturningID caselessTable (recordingOps (5, none))
        (some (Tx.mk (some ()) DialectPostgres)) (ascii "INSERT INTO node(name) VALUES(?)")
        [42] [] = some out ∧ out.1.2 = none ∧ out.1.1 = 5) := by
  have hq := rewriteQuery_scenario5 caselessTable
  refine ⟨hq, ?_, ?_⟩
  · obtain ⟨out, h1, h2, _, h4⟩ := (ExecReturningID_postgres_scan_result caselessTable
      (recordingOps (5, some 4)) () () _ _ [42] [] hq).1
    have h5 : out.1.2 = some 4 := h2
    exact ⟨out, h1, h5, h4 (by rw [h5]; simp)⟩
  · obtain ⟨out, h1, h2, h3, _⟩ := (ExecReturningID_postgres_scan_result caselessTable
      (recordingOps (5, none)) () () _ _ [42] [] hq).2
    have h5 : out.1.2 = none := h2
    exact ⟨out, h1, h5, h3 h5⟩

/-- C15: on a handle of dialect `d`, each of `Exec`, `Query` and `QueryRow` of
`DB` and of `Tx` returns exactly what the corresponding call of `database/sql`
returns (result, error and state) when it is given the text `rewriteQuery d q`
and the arguments `args` as they are; when `rewriteQuery` panics the method
panics before any call. -/
theorem handle_methods_delegate {σ α ε H T Res Rows Row : Type} (upperCase : Nat → Nat)
    (ops : SqlOps σ α ε H T Res Rows Row) (d : Dialect) (h : H) (t : T) (q : List Nat)
    (args : List α) (s : σ) :
    DB.Exec upperCase ops (Wrap (some h) d) q args s =
      (rewriteQuery upperCase d q).map (fun text => ops.dbExec h text args s) ∧
    DB.Query upperCase ops (Wrap (some h) d) q args s =
      (rewriteQuery upperCase d q).map (fun text => ops.dbQuery h text args s) ∧
    DB.QueryRow upperCase ops (Wrap (some h) d) q args s =
      (rewriteQuery upperCase d q).map (fun text => ops.dbQueryRow h text args s) ∧
    Tx.Exec upperCase ops (some (Tx.mk (some t) d)) q args s =
      (rewriteQuery upperCase d q).map (fun text => ops.txExec t text args s) ∧
    Tx.Query upperCase ops (some (Tx.mk (some t) d)) q args s =
      (rewriteQuery upperCase d q).map (fun text => ops.txQuery t text args s) ∧
    Tx.QueryRow upperCase ops (some (Tx.mk (some t) d)) q args s =
      (rewriteQuery upperCase d q).map (fun text => ops.txQueryRow t text args s) := by
  simp only [DB.Exec, DB.Query, DB.QueryRow, Tx.Exec, Tx.Query, Tx.QueryRow, Wrap, DB.rewrite]
  rcases rewriteQuery upperCase d q with _ | text <;> simp

/-- Witness for C15: the calls recorded for `DB.Exec` on Postgres and for
`Tx.Query` on SQLite. -/
theorem handle_methods_delegate_witness :
    (DB.Exec caselessTable (recordingOps (0, none)) (Wrap (some ()) DialectPostgres)
        (ascii "UPDATE user SET name = ? WHERE id = ?") [7, 8] []).map (fun r => r.2) =
      some [(CallKind.Exec, ascii "UPDATE \"user\" SET name = $1 WHERE id = $2", [7, 8])] ∧
    (Tx.Query caselessTable (recordingOps (0, none)) (some (Tx.mk (some ()) DialectSQLite))
        (ascii "SELECT * FROM user WHERE id = ?") [7] []).map (fun r => r.2) =
      some [(CallKind.Query, ascii "SELECT * FROM user WHERE id = ?", [7])] :=
  ⟨by
    rw [(handle_methods_delegate caselessTable (recordingOps (0, none)) DialectPostgres () ()
      (ascii "UPDATE user SET name = ? WHERE id = ?") [7, 8] []).1]
    decide, by
    rw [(handle_methods_delegate caselessTable (recordingOps (0, none)) DialectSQLite () ()
      (ascii "SELECT * FROM user WHERE id = ?") [7] []).2.2.2.2.1]
    decide⟩

/-- C16: for a connection handle and a transaction handle of the same dialect,
`Exec`, `Query`, `QueryRow` and `ExecReturningID` of `DB` do what those of `Tx`
do as soon as the calls of `database/sql` they delegate to behave alike: the
two differ only in the call they delegate to, not in the text or the arguments
they pass. -/
theorem DB_and_Tx_same_requests {σ α ε H T Res Rows Row : Type} (upperCase : Nat → Nat)
    (ops : SqlOps σ α ε H T Res Rows Row) (d : Dialect) (h : H) (t : T)
    (hExec : ops.txExec t = ops.dbExec h) (hQuery : ops.txQuery t = ops.dbQuery h)
    (hQueryRow : ops.txQueryRow t = ops.dbQueryRow h) (q : List Nat) (args : List α) (s : σ) :
    DB.Exec upperCase ops (Wrap (some h) d) q args s =
      Tx.Exec upperCase ops (some (Tx.mk (some t) d)) q args s ∧
    DB.Query upperCase ops (Wrap (some h) d) q args s =
      Tx.Query upperCase ops (some (Tx.mk (some t) d)) q args s ∧
    DB.QueryRow upperCase ops (Wrap (some h) d) q args s =
      Tx.QueryRow upperCase ops (some (Tx.mk (some t) d)) q args s ∧
    DB.ExecReturningID upperCase ops (Wrap (some h) d) q args s =
      Tx.ExecReturningID upperCase ops (some (Tx.mk (some t) d)) q args s := by
  simp only [DB.Exec, DB.Query, DB.QueryRow, Tx.Exec, Tx.Query, Tx.QueryRow, Wrap, DB.rewrite,
    DB.ExecReturningID, Tx.ExecReturningID, hExec, hQuery, hQueryRow]
  rcases rewriteQuery upperCase d q with _ | text <;> simp [hExec, hQuery, hQueryRow]

/-- Witness for C16: the recording stand-in treats the calls on a connection and
on a transaction alike, and the calls recorded for `ExecReturningID` of `DB` and
of `Tx` are the same. -/
theorem DB_and_Tx_same_requests_witness :
    ((recordingOps (3, none)).txExec () = (recordingOps (3, none)).dbExec () ∧
      (recordingOps (3, none)).txQuery () = (recordingOps (3, none)).dbQuery () ∧
      (recordingOps (3, none)).txQueryRow () = (recordingOps (3, none)).dbQueryRow ()) ∧
    DB.ExecReturningID caselessTable (recordingOps (3, none)) (Wrap (some ()) DialectPostgres)
        (ascii "INSERT OR IGNORE INTO user(name) VALUES(?);") [5] [] =
      some ((3, none), [(CallKind.QueryRow,
        ascii "INSERT INTO \"user\"(name) VALUES($1) ON CONFLICT DO NOTHING RETURNING id", [5]),
        (CallKind.Scan, [], [])]) ∧
    Tx.ExecReturningID caselessTable (recordingOps (3, none))
        (some (Tx.mk (some ()) DialectPostgres))
        (ascii "INSERT OR IGNORE INTO user(name) VALUES(?);") [5] [] =
      some ((3, none), [(CallKind.QueryRow,
        ascii "INSERT INTO \"user\"(name) VALUES($1) ON CONFLICT DO NOTHING RETURNING id", [5]),
        (CallKind.Scan, [], [])]) :=
  ⟨⟨rfl, rfl, rfl⟩, by decide, by
    rw [← (DB_and_Tx_same_requests caselessTable (recordingOps (3, none)) DialectPostgres () ()
      rfl rfl rfl (ascii "INSERT OR IGNORE INTO user(name) VALUES(?);") [5] []).2.2.2]
    decide⟩

/-- C17: a `DB` built by `Wrap(raw, d)` reports the dialect `d`; `Begin` returns a
`Tx` with the transaction of the driver and the same dialect `d` when the
driver begins without error, and the error of the driver and no `Tx` when it
fails. -/
theorem dialect_inherited {σ α ε H T Res Rows Row : Type}
    (ops : SqlOps σ α ε H T Res Rows Row) (raw : Option H) (h : H) (d : Dialect) (s : σ) :
    DB.Dialect (Wrap raw d) = d ∧
    (∀ tx, (ops.dbBegin h s).1 = (tx, none) →
      DB.Begin ops (Wrap (some h) d) s = some ((some (Tx.mk tx d), none), (ops.dbBegin h s).2)) ∧
    (∀ tx err, (ops.dbBegin h s).1 = (tx, some err) →
      DB.Begin ops (Wrap (some h) d) s = some ((none, some err), (ops.dbBegin h s).2)) := by
  refine ⟨rfl, ?_, ?_⟩
  · intro tx hb
    simp only [DB.Begin, Wrap]
    rcases hr : ops.dbBegin h s with ⟨⟨tx2, e⟩, s1⟩
    rw [hr] at hb
    simp only [Prod.mk.injEq] at hb
    obtain ⟨rfl, rfl⟩ := hb
    rfl
  · intro tx err hb
    simp only [DB.Begin, Wrap]
    rcases hr : ops.dbBegin h s with ⟨⟨tx2, e⟩, s1⟩
    rw [hr] at hb
    simp only [Prod.mk.injEq] at hb
    obtain ⟨rfl, rfl⟩ := hb
    rfl

/-- Witness for C17: `Begin` on an open and on a closed `sql.DB`. -/
theorem dialect_inherited_witness :
    DB.Begin (closingOps none) (Wrap (some ()) DialectPostgres) false =
      some ((some (Tx.mk (some ()) DialectPostgres), none), false) ∧
    DB.Begin (closingOps none) (Wrap (some ()) DialectPostgres) true =
      some ((none, some 1), true) :=
  ⟨(dialect_inherited (closingOps none) none () DialectPostgres false).2.1 (some ()) rfl,
   (dialect_inherited (closingOps none) none () DialectPostgres true).2.2 none 1 rfl⟩

/-- C18: `Dialect.String` is `sqlite` for `DialectSQLite` and `postgres` for
`DialectPostgres`, two different texts. -/
theorem Dialect_String_values :
    Dialect.String DialectSQLite = ascii "sqlite" ∧
    Dialect.String DialectPostgres = ascii "postgres" ∧
    Dialect.String DialectSQLite ≠ Dialect.String DialectPostgres := by
  decide

/-- C19: `Close` on a nil handle and on a handle without `sql.DB` returns nil and
leaves the outside state as it is, whatever the driver (no call is made).  On a
handle whose `sql.DB` is closed, `Close` calls `(*sql.DB).Close`, which returns
nil and changes nothing; a first `Close` leaves the `sql.DB` closed, so a second
`Close` on the handle returns nil and changes nothing, whatever the first one
returned. -/
theorem DB_Close_idempotent {σ ρ α ε H T Res Rows Row : Type}
    (ops : SqlOps σ α ε H T Res Rows Row) (lib : SqlOps (SqlDB ρ) α ε H T Res Rows Row)
    (release : H → ρ → Option ε × ρ) (h : H) (d : Dialect) (s : σ) (r : ρ) (db : SqlDB ρ) :
    DB.Close ops none s = (none, s) ∧
    DB.Close ops (Wrap none d) s = (none, s) ∧
    DB.Close (withLibraryClose lib release) (Wrap (some h) d) (SqlDB.mk true r) =
      (none, SqlDB.mk true r) ∧
    (DB.Close (withLibraryClose lib release) (Wrap (some h) d) db).2.closed = true ∧
    DB.Close (withLibraryClose lib release) (Wrap (some h) d)
        (DB.Close (withLibraryClose lib release) (Wrap (some h) d) db).2 =
      (none, (DB.Close (withLibraryClose lib release) (Wrap (some h) d) db).2) := by
  refine ⟨rfl, rfl, rfl, ?_, ?_⟩
  · simp only [DB.Close, Wrap, withLibraryClose, sqlDBClose]
    by_cases hc : db.closed = true
    · simp [hc]
    · simp [hc]
  · simp only [DB.Close, Wrap, withLibraryClose, sqlDBClose]
    by_cases hc : db.closed = true
    · simp [hc]
    · simp [hc]

/-- Witness for C19: no call recorded in the nil cases; on an open `sql.DB` whose
closing returns the error 9, a first `Close` returns that error and a second one
returns nil and changes nothing. -/
theorem DB_Close_idempotent_witness :
    DB.Close (recordingOps (0, none)) none [] = (none, []) ∧
    DB.Close (recordingOps (0, none)) (Wrap none DialectSQLite) [] = (none, []) ∧
    DB.Close (withLibraryClose (idleOps (SqlDB Nat)) (fun _ n => (some 9, n + 1)))
        (Wrap (some ()) DialectSQLite) (SqlDB.mk false 0) = (some 9, SqlDB.mk true 1) ∧
    DB.Close (withLibraryClose (idleOps (SqlDB Nat)) (fun _ n => (some 9, n + 1)))
        (Wrap (some ()) DialectSQLite) (SqlDB.mk true 1) = (none, SqlDB.mk true 1) :=
  ⟨(DB_Close_idempotent (recordingOps (0, none)) (idleOps (SqlDB Nat))
      (fun _ n => (some 9, n + 1)) () DialectSQLite [] 1 (SqlDB.mk false 0)).1,
   (DB_Close_idempotent (recordingOps (0, none)) (idleOps (SqlDB Nat))
      (fun _ n => (some 9, n + 1)) () DialectSQLite [] 1 (SqlDB.mk false 0)).2.1,
   rfl,
   (DB_Close_idempotent (recordingOps (0, none)) (idleOps (SqlDB Nat))
      (fun _ n => (some 9, n + 1)) () DialectSQLite [] 1 (SqlDB.mk false 0)).2.2.1⟩

/-- C20: `New` returns the error for an unsupported database type exactly when
the configured type, trimmed and lower-cased, is none of the empty text,
`sqlite`, `postgres` and `postgresql`, and then nothing has been opened (the
outside state is unchanged); for the empty text and `sqlite` it opens the SQLite
repository with `cfg.DBPath`, for `postgres` and `postgresql` the Postgres
repository with `cfg.DatabaseURL`. -/
theorem New_database_choice {σ ε R : Type} (uni : UnicodeOps)
    (repoOpen repoOpenPostgres : List Nat → σ → (Option R × Option ε) × σ)
    (cfg : Config) (s : σ) :
    ((∃ x, (New uni repoOpen repoOpenPostgres cfg s).1.2 = some (NewError.unsupportedDBType x)) ↔
      normalizedDBType uni cfg.DBType ∉
        [ascii "", ascii "sqlite", ascii "postgres", ascii "postgresql"]) ∧
    (normalizedDBType uni cfg.DBType ∉
        [ascii "", ascii "sqlite", ascii "postgres", ascii "postgresql"] →
      New uni repoOpen repoOpenPostgres cfg s =
        ((none, some (NewError.unsupportedDBType cfg.DBType)), s)) ∧
    (normalizedDBType uni cfg.DBType = ascii "" ∨ normalizedDBType uni cfg.DBType = ascii "sqlite" →
      New uni repoOpen repoOpenPostgres cfg s =
        openOutcome NewError.openSqlite cfg (repoOpen cfg.DBPath s)) ∧
    (normalizedDBType uni cfg.DBType = ascii "postgres" ∨
        normalizedDBType uni cfg.DBType = ascii "postgresql" →
      New uni repoOpen repoOpenPostgres cfg s =
        openOutcome NewError.openPostgres cfg (repoOpenPostgres cfg.DatabaseURL s)) := by
  refine ⟨⟨?_, ?_⟩, New_unsupported uni repoOpen repoOpenPostgres cfg s,
    New_sqlite uni repoOpen repoOpenPostgres cfg s,
    New_postgres uni repoOpen repoOpenPostgres cfg s⟩
  · rintro ⟨x, hx⟩ hmem
    simp only [List.mem_cons, List.mem_singleton, List.not_mem_nil, or_false] at hmem
    rcases hmem with h | h | h | h
    · rw [New_sqlite uni repoOpen repoOpenPostgres cfg s (Or.inl h)] at hx
      exact openOutcome_not_unsupported _ (fun _ _ hh => by cases hh) _ _ _ hx
    · rw [New_sqlite uni repoOpen repoOpenPostgres cfg s (Or.inr h)] at hx
      exact openOutcome_not_unsupported _ (fun _ _ hh => by cases hh) _ _ _ hx
    · rw [New_postgres uni repoOpen repoOpenPostgres cfg s (Or.inl h)] at hx
      exact openOutcome_not_unsupported _ (fun _ _ hh => by cases hh) _ _ _ hx
    · rw [New_postgres uni repoOpen repoOpenPostgres cfg s (Or.inr h)] at hx
      exact openOutcome_not_unsupported _ (fun _ _ hh => by cases hh) _ _ _ hx
  · intro h
    exact ⟨cfg.DBType, by rw [New_unsupported uni repoOpen repoOpenPostgres cfg s h]⟩

/-- Witness for C20: `  PostgreSQL` with trailing blank, carriage return and line
feed selects Postgres, a blank selects SQLite, `MySQL` is refused and nothing is
opened. -/
theorem New_database_choice_witness :
    New asciiOnlyOps (recordingOpen 1) (recordingOpen 2)
        (Config.mk (ascii "  PostgreSQL \r\n") (ascii "/data/gost.db") (ascii "postgres://db") [] [])
        [] =
      ((some (App.mk
          (Config.mk (ascii "  PostgreSQL \r\n") (ascii "/data/gost.db") (ascii "postgres://db") [] [])
          (some 2)), none), [(2, ascii "postgres://db")]) ∧
    New asciiOnlyOps (recordingOpen 1) (recordingOpen 2)
        (Config.mk (ascii " ") (ascii "/data/gost.db") (ascii "postgres://db") [] []) [] =
      ((some (App.mk
          (Config.mk (ascii " ") (ascii "/data/gost.db") (ascii "postgres://db") [] [])
          (some 1)), none), [(1, ascii "/data/gost.db")]) ∧
    New asciiOnlyOps (recordingOpen 1) (recordingOpen 2)
        (Config.mk (ascii "MySQL") (ascii "/data/gost.db") (ascii "postgres://db") [] []) [] =
      ((none, some (NewError.unsupportedDBType (ascii "MySQL"))), []) :=
  ⟨by
    rw [(New_database_choice asciiOnlyOps (recordingOpen 1) (recordingOpen 2) _ []).2.2.2
      (by decide)]
    decide, by
    rw [(New_database_choice asciiOnlyOps (recordingOpen 1) (recordingOpen 2) _ []).2.2.1
      (by decide)]
    decide,
    (New_database_choice asciiOnlyOps (recordingOpen 1) (recordingOpen 2) _ []).2.1 (by decide)⟩

/-- C21: in `rewriteUserIdentifier` a doubled quote inside a literal of the same
kind is an escape.  For a literal delimited by `quote` (single or double) whose
body is `x`, two consecutive delimiters, `y` (with `x` and `y` bodies in which
the delimiter occurs only doubled), standing after a text `a` that ends outside
any literal: the literal is copied unchanged up to its real closing quote, so a
word `user` in `y` is not quoted, and the text `b` after it is rewritten as if it
stood alone. -/
theorem rewriteUserIdentifier_doubled_quote_escape (a x y b : List Nat) (quote : Nat)
    (hq : quote = sq ∨ quote = dq) (ha : EndsOutsideLiteral a)
    (hx : literalBody quote x = true) (hy : literalBody quote y = true) :
    rewriteUserIdentifier (a ++ quote :: (x ++ [quote, quote] ++ y ++ [quote]) ++ b) =
      rewriteUserIdentifier a ++ quote :: (x ++ [quote, quote] ++ y ++ [quote]) ++
        rewriteUserIdentifier b := by
  have hl : IsLiteral sq (quote :: (x ++ [quote, quote] ++ y ++ [quote])) ∨
      IsLiteral dq (quote :: (x ++ [quote, quote] ++ y ++ [quote])) := by
    rcases hq with h | h
    · subst h; exact Or.inl (isLiteral_with_escape _ hx hy)
    · subst h; exact Or.inr (isLiteral_with_escape _ hx hy)
  rw [EndsOutsideLiteral, userFlagsAtExit_eq] at ha
  rw [rewriteUserIdentifier_eq_scan, rewriteUserIdentifier_eq_scan,
    rewriteUserIdentifier_eq_scan, List.append_assoc,
    userScan_append a.length a (le_refl _) _ false false
      (RunBoundary_of_head (head?_literal_append hl b)),
    ha, userScan_literal hl b]
  simp

/-- Witness for C21: the single-quoted literal with body `a''user` and the
double-quoted literal with body `a""user` are returned unchanged, and in
`SELECT user, 'a''user' FROM user` only the two words outside the literal are
quoted. -/
theorem rewriteUserIdentifier_doubled_quote_escape_witness :
    rewriteUserIdentifier (ascii "'a''user'") = ascii "'a''user'" ∧
    rewriteUserIdentifier (ascii "\"a\"\"user\"") = ascii "\"a\"\"user\"" ∧
    rewriteUserIdentifier (ascii "SELECT user, 'a''user' FROM user") =
      ascii "SELECT \"user\", 'a''user' FROM \"user\"" :=
  ⟨by
    have h := rewriteUserIdentifier_doubled_quote_escape [] (ascii "a") (ascii "user") [] sq
      (Or.inl rfl) (by decide) (by decide) (by decide)
    exact h.trans (by decide), by
    have h := rewriteUserIdentifier_doubled_quote_escape [] (ascii "a") (ascii "user") [] dq
      (Or.inr rfl) (by decide) (by decide) (by decide)
    exact h.trans (by decide), by
    have h := rewriteUserIdentifier_doubled_quote_escape (ascii "SELECT user, ") (ascii "a")
      (ascii "user") (ascii " FROM user") sq (Or.inl rfl) (by decide) (by decide) (by decide)
    exact h.trans (by decide)⟩

/-- C22 (as stated, refuted): the prefix `SELECT "it's", ` ends outside any
literal (both flags of pass 1 are off), the remainder `?` has no quote
character, yet `rewritePlaceholders` numbers the question mark after the added
single quote: pass 3 took the apostrophe inside the double-quoted identifier for
the start of a literal, so the added quote closes it. -/
theorem rewritePlaceholders_unterminated_after_double_quoted :
    EndsOutsideLiteral (ascii "SELECT \"it's\", ") ∧
    sq ∉ ascii "?" ∧ dq ∉ ascii "?" ∧
    rewritePlaceholders (ascii "SELECT \"it's\", " ++ [sq] ++ ascii "?") =
      ascii "SELECT \"it's\", '$1" ∧
    rewritePlaceholders (ascii "SELECT \"it's\", ") ++ [sq] ++ ascii "?" =
      ascii "SELECT \"it's\", '?" := by
  decide

/-- C22 (amended): unterminated literal.  For a remainder `r` without quote
characters: when the prefix `p` ends outside any literal as pass 1 tracks them
(single- and double-quoted), `rewriteUserIdentifier (p ++ "'" ++ r)` is
`rewriteUserIdentifier p ++ "'" ++ r`; when `p` ends outside any single-quoted
literal as pass 3 tracks them (its flag `inString` is off after `p`),
`rewritePlaceholders (p ++ "'" ++ r)` is `rewritePlaceholders p ++ "'" ++ r`. -/
theorem unterminated_literal_copied (p r : List Nat) (h1 : sq ∉ r) (h2 : dq ∉ r) :
    (EndsOutsideLiteral p →
      rewriteUserIdentifier (p ++ [sq] ++ r) = rewriteUserIdentifier p ++ [sq] ++ r) ∧
    ((placeholdersAtExit p).2 = false →
      rewritePlaceholders (p ++ [sq] ++ r) = rewritePlaceholders p ++ [sq] ++ r) := by
  constructor
  · intro hp
    rw [EndsOutsideLiteral, userFlagsAtExit_eq] at hp
    have hb : RunBoundary p ([sq] ++ r) :=
      RunBoundary_of_head (fun c hc => by simp at hc; subst hc; decide)
    have hin := userScan_inside_copy r [] true false (Or.inl rfl) h1 h2
    rw [List.append_nil, userScan_nil, List.append_nil] at hin
    rw [rewriteUserIdentifier_eq_scan, rewriteUserIdentifier_eq_scan, List.append_assoc,
      userScan_append p.length p (le_refl _) _ false false hb, hp]
    simp [userScan_sq, hin]
  · intro hp
    rw [placeholdersAtExit_eq] at hp
    have hin := placeholderScan_plain r (placeholderScan 1 false p).2.1 true []
      (fun c hc => ⟨fun h => h1 (h ▸ hc), fun _ => rfl⟩)
    rw [List.append_nil] at hin
    rw [rewritePlaceholders_eq_scan, rewritePlaceholders_eq_scan, List.append_assoc,
      placeholderScan_append, hp]
    simp [placeholderScan, hin]

/-- Witness for C22: after the prefix `SELECT user, ?, ` the remainder
` user = ?` behind an unterminated quote is copied by both passes: its `user` is
not quoted and its `?` is not numbered. -/
theorem unterminated_literal_copied_witness :
    (sq ∉ ascii " user = ?" ∧ dq ∉ ascii " user = ?") ∧
    EndsOutsideLiteral (ascii "SELECT user, ?, ") ∧
    (placeholdersAtExit (ascii "SELECT user, ?, ")).2 = false ∧
    rewriteUserIdentifier (ascii "SELECT user, ?, " ++ [sq] ++ ascii " user = ?") =
      ascii "SELECT \"user\", ?, ' user = ?" ∧
    rewritePlaceholders (ascii "SELECT user, ?, " ++ [sq] ++ ascii " user = ?") =
      ascii "SELECT user, $1, ' user = ?" :=
  ⟨⟨by decide, by decide⟩, by decide, by decide,
   ((unterminated_literal_copied (ascii "SELECT user, ?, ") (ascii " user = ?") (by decide)
      (by decide)).1 (by decide)).trans (by decide),
   ((unterminated_literal_copied (ascii "SELECT user, ?, ") (ascii " user = ?") (by decide)
      (by decide)).2 (by decide)).trans (by decide)⟩

/-- C23: `rewriteUserIdentifier` is idempotent: applied to its own output it
changes nothing (an inserted `"user"` is a double-quoted literal on the second
pass), and the flags `(inSingle, inDouble)` at the end of the output are those at
the end of the input (the two inserted quotes cancel). -/
theorem rewriteUserIdentifier_idempotent (q : List Nat) :
    rewriteUserIdentifier (rewriteUserIdentifier q) = rewriteUserIdentifier q ∧
    userFlagsAtExit (rewriteUserIdentifier q) = userFlagsAtExit q := by
  constructor
  · rw [rewriteUserIdentifier_eq_scan, rewriteUserIdentifier_eq_scan,
      userScan_idempotent q.length q (le_refl _)]
  · rw [userFlagsAtExit_eq, userFlagsAtExit_eq, rewriteUserIdentifier_eq_scan]
    exact quoteFlags_userScan q.length q (le_refl _) (false, false)

/-- C24: `rewritePlaceholders` is idempotent: applied to its own output it
changes nothing; its output has no question mark outside single-quoted literals
(the counter is still 1 when the loop has consumed the output), and the single
quotes of the output are those of the input. -/
theorem rewritePlaceholders_idempotent (q : List Nat) :
    rewritePlaceholders (rewritePlaceholders q) = rewritePlaceholders q ∧
    (placeholdersAtExit (rewritePlaceholders q)).1 = 1 ∧
    (rewritePlaceholders q).filter (fun c => c == sq) = q.filter (fun c => c == sq) := by
  refine ⟨?_, ?_, ?_⟩
  · rw [rewritePlaceholders_eq_scan, rewritePlaceholders_eq_scan, placeholderScan_again]
  · rw [placeholdersAtExit_eq, rewritePlaceholders_eq_scan, placeholderScan_again]
  · rw [rewritePlaceholders_eq_scan, placeholderScan_quotes]

/-- C25: `rewriteInsertOrIgnore` does not track string literals: in
`SELECT 'insert or ignore into t'` the phrase occurs only inside the
single-quoted literal `'insert or ignore into t'`; the literal becomes
`'INSERT INTO t'` and ` ON CONFLICT DO NOTHING` is appended to the statement. -/
theorem rewriteInsertOrIgnore_rewrites_inside_literal (upperCase : Nat → Nat) :
    IsLiteral sq (ascii "'insert or ignore into t'") ∧
    splitAtFirstOccurrence (ascii "INSERT OR IGNORE INTO") (ascii "SELECT ") = none ∧
    rewriteInsertOrIgnore upperCase (ascii "SELECT " ++ ascii "'insert or ignore into t'") =
      some (ascii "SELECT " ++ ascii "'INSERT INTO t'" ++ ascii " ON CONFLICT DO NOTHING") := by
  refine ⟨⟨ascii "insert or ignore into t", by decide, by decide⟩, by decide, ?_⟩
  have e : rewriteInsertOrIgnore upperCase
      (ascii "SELECT " ++ ascii "'insert or ignore into t'") =
      some (rewriteInsertOrIgnoreRef trimCutset
        (ascii "SELECT " ++ ascii "'insert or ignore into t'")) :=
    rewriteInsertOrIgnore_ascii upperCase (by decide)
  rw [e]
  decide

/-- C26: on a Postgres handle, for every ASCII query that contains the phrase
`INSERT OR IGNORE INTO` in any letter case, `rewriteQuery` returns a text ending
in ` ON CONFLICT DO NOTHING`, and the text of the single-row query issued by
`ExecReturningID` of `DB` and of `Tx` is that text followed by ` RETURNING id`:
it ends in ` ON CONFLICT DO NOTHING RETURNING id`. -/
theorem ExecReturningID_conflict_clause_before_returning {σ α ε H T Res Rows Row : Type}
    (upperCase : Nat → Nat) (ops : SqlOps σ α ε H T Res Rows Row) (h : H) (t : T)
    (q : List Nat) (args : List α) (s : σ) (hq : ∀ c ∈ q, c < 128)
    (hocc : ∃ p m r, q = p ++ m ++ r ∧
      equalsIgnoreCase m (ascii "INSERT OR IGNORE INTO") = true) :
    ∃ x, rewriteQuery upperCase DialectPostgres q =
        some (x ++ ascii " ON CONFLICT DO NOTHING") ∧
      DB.ExecReturningID upperCase ops (Wrap (some h) DialectPostgres) q args s =
        some (scanOutcome ops
          (ops.dbQueryRow h (x ++ ascii " ON CONFLICT DO NOTHING RETURNING id") args s)) ∧
      Tx.ExecReturningID upperCase ops (some (Tx.mk (some t) DialectPostgres)) q args s =
        some (scanOutcome ops
          (ops.txQueryRow t (x ++ ascii " ON CONFLICT DO NOTHING RETURNING id") args s)) := by
  obtain ⟨x, hx⟩ := rewriteQuery_postgres_conflict_clause upperCase q hq hocc
  refine ⟨x, hx, ?_, ?_⟩
  · rw [DB_ExecReturningID_postgres, hx, Option.map_some', stripTrailing_conflict_clause,
      List.append_assoc, ascii_conflict_returning]
  · rw [Tx_ExecReturningID_postgres, hx, Option.map_some', stripTrailing_conflict_clause,
      List.append_assoc, ascii_conflict_returning]

/-- Witness for C26: for `insert or ignore into user(id) values(?); ` with the
argument 42 the recorded single-row query has the text
`INSERT INTO "user"(id) values($1) ON CONFLICT DO NOTHING RETURNING id`. -/
theorem ExecReturningID_conflict_clause_before_returning_witness :
    (∀ c ∈ ascii "insert or ignore into user(id) values(?); ", c < 128) ∧
    (∃ p m r, ascii "insert or ignore into user(id) values(?); " = p ++ m ++ r ∧
      equalsIgnoreCase m (ascii "INSERT OR IGNORE INTO") = true) ∧
    DB.ExecReturningID caselessTable (recordingOps (7, none)) (Wrap (some ()) DialectPostgres)
        (ascii "insert or ignore into user(id) values(?); ") [42] [] =
      some ((7, none),
        [(CallKind.QueryRow,
            ascii "INSERT INTO \"user\"(id) values($1) ON CONFLICT DO NOTHING RETURNING id",
            [42]),
          (CallKind.Scan, [], [])]) :=
  ⟨by decide, ⟨[], ascii "insert or ignore into", ascii " user(id) values(?); ", by decide,
      by decide⟩, by
    obtain ⟨x, h1, h2, _⟩ := ExecReturningID_conflict_clause_before_returning caselessTable
      (recordingOps (7, none)) () () (ascii "insert or ignore into user(id) values(?); ")
      [42] [] (by decide)
      ⟨[], ascii "insert or ignore into", ascii " user(id) values(?); ", by decide, by decide⟩
    have h3 : rewriteQuery caselessTable DialectPostgres
        (ascii "insert or ignore into user(id) values(?); ") =
        some (ascii "INSERT INTO \"user\"(id) values($1)" ++
          ascii " ON CONFLICT DO NOTHING") := by decide
    rw [h1] at h3
    have hx : x = ascii "INSERT INTO \"user\"(id) values($1)" :=
      List.append_cancel_right (Option.some.inj h3)
    subst hx
    exact h2⟩

end Store
